import Mathlib

/-!
# Row codec of the MySQL wire protocol (pkg/mysql/rows.go)

A shallow embedding of `Row`, `TextRow.Decode` and `BinaryRow.Decode`.

Modelling conventions.

* A Go `[]byte` is a `List Byte`; its capacity is taken to be its length, so a
  slice expression `b[lo:hi]` panics exactly when `hi` exceeds the length.
* A Go `int` position is an `Int`; indexing and slicing at a negative position
  panics.
* A call returns an `Outcome`: a normal return, a returned `error`, or a panic.
* `dest` holds the entries assigned so far (`dest[0..i)` after `i` iterations);
  the entries not yet assigned are never observed, because a failing call
  returns `nil` instead of `dest`.
* `TextRow.DecodeCap` and `BinaryRow.DecodeCap` drop the first and the third
  convention: they take the bytes between the length and the capacity of
  `Content` as an argument and carry the two operands of every `return`
  statement. Without spare capacity they return what the outcomes of
  `TextRow.Decode` and `BinaryRow.Decode` stand for.
-/

namespace Arana

/-- One octet of a packet payload. -/
abbrev Byte := Fin 256

/-- The column types of `constants/mysql`.  The named constructors are the
constants the decoder switches on (Go rejects a `switch` with duplicate
constants, so they are pairwise distinct); `unknown c` is a type code that is
none of them. -/
inductive FieldType
  | Decimal | Tiny | Short | Long | Float | Double | NULL | Timestamp
  | LongLong | Int24 | Date | Time | DateTime | Year | NewDate | VarChar
  | Bit | JSON | NewDecimal | Enum | Set | TinyBLOB | MediumBLOB | LongBLOB
  | BLOB | VarString | String | Geometry
  | unknown (code : Nat)
  deriving DecidableEq, Repr

namespace mysql

/-- Marker byte of an OK packet and of a binary row (`mysql.OKPacket`). -/
def OKPacket : Byte := 0x00

/-- Column flag UNSIGNED of the wire protocol (`mysql.UnsignedFlag`). -/
def UnsignedFlag : Nat := 32

/-- Client error number of a malformed packet (`mysql.CRMalformedPacket`). -/
def CRMalformedPacket : Nat := 2027

/-- SQL state used when none is known (`mysql.SSUnknownSQLState`). -/
def SSUnknownSQLState : String := "HY000"

end mysql

/-- The dynamic value stored in `proto.Value.Val` (a Go `interface{}`).
Floating-point values are represented by their IEEE-754 bit patterns. -/
inductive GoVal
  | nil
  | int64 (v : Int)
  | float32 (bits : Nat)
  | float64 (bits : Nat)
  | bytes (b : List Byte)
  | str (s : String)
  | time (t : Int)
  deriving DecidableEq, Repr

/-- The errors a decode call can return. -/
inductive GoError
  /-- Built by `errors.NewSQLError(num, sqlState, format, args...)`; the
  formatted message is not modelled. -/
  | sqlError (num : Nat) (sqlState : String)
  /-- Built by `fmt.Errorf("protocol error, illegal decimals architecture.Value %d", d)`. -/
  | illegalDecimals (decimals : Nat)
  /-- Built by `fmt.Errorf("unknown field type %d", t)`. -/
  | unknownFieldType (t : FieldType)
  /-- The `io.EOF` of a truncated length-encoded string. -/
  | eof
  /-- An error returned by one of the date and time helpers. -/
  | helper (msg : String)
  deriving DecidableEq, Repr

/-- Result of a call: normal return, returned error, or run-time panic. -/
inductive Outcome (α : Type)
  | ok (a : α)
  | error (e : GoError)
  | panic
  deriving DecidableEq, Repr

/-- Result of a date or time helper that returns `(driver.Value, error)`:
`(val, nil)`, `(_, err)`, or a panic. -/
inductive HelperResult
  | value (v : GoVal)
  | failure (msg : String)
  | panic
  deriving DecidableEq, Repr

/-- Result of `parseDateTime`, which returns `(time.Time, error)`: a time,
represented by an integer time stamp, an error, or a panic. -/
inductive TimeResult
  | time (t : Int)
  | failure (msg : String)
  | panic
  deriving DecidableEq, Repr

/-- The date and time helpers used by the decoders.  They are defined outside
`rows.go` and depend on the process time zone (`time.Local`), so the decoders
take them as a parameter. -/
structure Helpers where
  /-- The call `parseDateTime(val, time.Local)`. -/
  parseDateTime : List Byte → TimeResult
  /-- The call `formatBinaryTime(src, dstlen)`. -/
  formatBinaryTime : List Byte → Nat → HelperResult
  /-- The call `parseBinaryDateTime(num, data, time.Local)`. -/
  parseBinaryDateTime : Nat → List Byte → HelperResult
  /-- The call `formatBinaryDateTime(src, dstlen)`. -/
  formatBinaryDateTime : List Byte → Nat → HelperResult

/-- The column descriptor `Field` (the members the row codec reads). -/
structure Field where
  table : String
  name : String
  fieldType : FieldType
  flags : Nat
  decimals : Nat
  deriving DecidableEq, Repr

/-- The decoded cell `proto.Value`. -/
structure Value where
  Typ : FieldType
  Flags : Nat
  Len : Nat
  Val : GoVal
  Raw : List Byte
  deriving DecidableEq, Repr

/-- The struct `ResultSet`; `ColumnNames = none` is the nil slice. -/
structure ResultSet where
  Columns : List Field
  ColumnNames : Option (List String)
  deriving DecidableEq, Repr

/-- The struct `Row`; `Content = none` is the nil slice.  `TextRow` and
`BinaryRow` embed a `Row` and add nothing to it. -/
structure Row where
  Content : Option (List Byte)
  ResultSet : ResultSet
  deriving DecidableEq, Repr

/-- The bytes of `row.Content` (none for a nil slice). -/
def Row.bytes (row : Row) : List Byte := row.Content.getD []

/-! ## Go primitives -/

/-- Index expression `b[pos]`. -/
def getByte (b : List Byte) (pos : Int) : Option Byte :=
  if pos < 0 then none else b[pos.toNat]?

/-- Slice expression `b[lo:hi]` on a slice whose capacity is its length. -/
def slice (b : List Byte) (lo hi : Int) : Option (List Byte) :=
  if 0 ≤ lo ∧ lo ≤ hi ∧ hi ≤ (b.length : Int) then
    some ((b.take hi.toNat).drop lo.toNat)
  else none

/-- Slice expression `b[lo:]`. -/
def sliceFrom (b : List Byte) (lo : Int) : Option (List Byte) :=
  if 0 ≤ lo ∧ lo ≤ (b.length : Int) then some (b.drop lo.toNat) else none

/-- Little-endian value of a byte string (`binary.LittleEndian.UintN`). -/
def leUint : List Byte → Nat
  | [] => 0
  | b :: bs => b.val + 256 * leUint bs

/-- Conversion of a `w`-bit unsigned value to the signed type of the same
width (`int8(x)`, `int16(x)`, `int32(x)`, `int64(x)`). -/
def toSigned (w : Nat) (v : Nat) : Int :=
  if v % 2 ^ w < 2 ^ (w - 1) then ((v % 2 ^ w : Nat) : Int)
  else ((v % 2 ^ w : Nat) : Int) - ((2 ^ w : Nat) : Int)

/-- The constant `math.MaxInt64`. -/
def maxInt64 : Nat := 2 ^ 63 - 1

/-! ## Helpers of the package that live outside `rows.go` -/

/-- Modelled from the spec: `uint64ToString` is defined outside `rows.go`; the
spec has an unsigned LONGLONG above 2^63-1 "serialize as decimal string". -/
def uint64ToString (v : Nat) : String := toString v

/-- Modelled from the spec: `readLengthEncodedInteger` is defined outside
`rows.go`.  The spec's length-encoded integer takes 1, 3, 4 or 9 bytes
depending on the first byte, and 0xFB is the null sentinel.  The result is
`(num, isNull, n)`; `none` is the index panic on a truncated input, and an
empty input is reported as null of width 1. -/
def readLengthEncodedInteger (b : List Byte) : Option (Nat × Bool × Nat) :=
  match b with
  | [] => some (0, true, 1)
  | b0 :: rest =>
    if b0.val = 0xfb then some (0, true, 1)
    else if b0.val = 0xfc then
      if 2 ≤ rest.length then some (leUint (rest.take 2), false, 3) else none
    else if b0.val = 0xfd then
      if 3 ≤ rest.length then some (leUint (rest.take 3), false, 4) else none
    else if b0.val = 0xfe then
      if 8 ≤ rest.length then some (leUint (rest.take 8), false, 9) else none
    else some (b0.val, false, 1)

/-- The four results `(val, isNull, n, err)` of `readLengthEncodedString`. -/
structure LenEncString where
  val : List Byte
  isNull : Bool
  n : Nat
  err : Option GoError
  deriving DecidableEq, Repr

/-- Modelled from the spec: `readLengthEncodedString` is defined outside
`rows.go`.  A length-encoded string is a length-encoded integer followed by
that many payload bytes; `n` is the width of the integer plus the declared
payload length, and a payload that is not fully present gives `io.EOF`.
`none` is a panic. -/
def readLengthEncodedString (b : List Byte) : Option LenEncString :=
  match readLengthEncodedInteger b with
  | none => none
  | some (num, isNull, n) =>
    if num < 1 then
      match slice b n n with
      | none => none
      | some v => some ⟨v, isNull, n, none⟩
    else
      if n + num ≤ b.length then
        some ⟨(b.take (n + num)).drop n, false, n + num, none⟩
      else some ⟨[], false, n + num, some GoError.eof⟩

/-! ## The column loop -/

/-- The loop `for i := 0; i < len(rows.ResultSet.Columns); i++` of both
decoders: the state `(dest[0..k), pos)` after `k` iterations, where `step i
field pos` is the body for column `i` and `pos0` the position on entry.  A
body that returns an error or panics ends the call. -/
def decodeLoop (step : Nat → Field → Int → Outcome (Option Value × Int)) (cols : List Field)
    (pos0 : Int) : Nat → Outcome (List (Option Value) × Int)
  | 0 => .ok ([], pos0)
  | k + 1 =>
    match decodeLoop step cols pos0 k with
    | .ok (dest, pos) =>
      match cols[k]? with
      | none => .ok (dest, pos)
      | some field =>
        match step k field pos with
        | .ok (v, pos1) => .ok (dest ++ [v], pos1)
        | .error e => .error e
        | .panic => .panic
    | .error e => .error e
    | .panic => .panic

/-! ## TextRow.Decode -/

/-- One iteration of the loop of `TextRow.Decode` for column `field`, entered
with position `pos`: the entry stored in `dest[i]` and the new position. -/
def TextRow.decodeColumn (h : Helpers) (content : List Byte) (field : Field) (pos : Int) :
    Outcome (Option Value × Int) :=
  match sliceFrom content pos with
  | none => .panic
  | some b =>
    match readLengthEncodedString b with
    | none => .panic
    | some r =>
      let v : Value :=
        { Typ := field.fieldType, Flags := field.flags, Len := r.n, Val := .bytes r.val, Raw := r.val }
      let pos1 : Int := pos + (r.n : Int)
      match r.err with
      | some e => .error e
      | none =>
        if !r.isNull then
          match field.fieldType with
          | .Timestamp | .DateTime | .Date | .NewDate =>
            match h.parseDateTime r.val with
            | .time t => .ok (some { v with Val := .time t }, pos1)
            | .failure msg => .error (.helper msg)
            | .panic => .panic
          | _ => .ok (some v, pos1)
        else .ok (some { v with Val := .nil }, pos1)

/-- State `(dest[0..k), pos)` of `TextRow.Decode` after `k` iterations of its
loop. -/
def TextRow.stateAt (h : Helpers) (rows : Row) (k : Nat) : Outcome (List (Option Value) × Int) :=
  decodeLoop (fun _ field pos => TextRow.decodeColumn h rows.bytes field pos)
    rows.ResultSet.Columns 0 k

/-- The method `(*TextRow).Decode`. -/
def TextRow.Decode (h : Helpers) (rows : Row) : Outcome (List (Option Value)) :=
  match TextRow.stateAt h rows rows.ResultSet.Columns.length with
  | .ok (dest, _) => .ok dest
  | .error e => .error e
  | .panic => .panic

/-! ## BinaryRow.Decode -/

/-- The test `((nullMask[(i+2)>>3] >> uint((i+2)&7)) & 1) == 1`; `none` is the
index panic. -/
def nullBit (nullMask : List Byte) (i : Nat) : Option Bool :=
  match nullMask[(i + 2) >>> 3]? with
  | none => none
  | some b => some (((b.val >>> ((i + 2) &&& 7)) &&& 1) == 1)

/-- The `switch decimals` of a TIME, DATETIME or TIMESTAMP column: the
destination length for base length `base` (8 or 19), or `none` in the
`default` case. -/
def dstlenOf (base : Nat) (decimals : Nat) : Option Nat :=
  if decimals = 0x00 ∨ decimals = 0x1f then some base
  else if 1 ≤ decimals ∧ decimals ≤ 6 then some (base + 1 + decimals)
  else none

/-- The test `field.flags&mysql.UnsignedFlag != 0`. -/
def Field.isUnsigned (field : Field) : Bool := field.flags &&& mysql.UnsignedFlag != 0

/-- The literal `&proto.Value{Typ: field.fieldType, Flags: field.flags, Len: len,
Val: val, Raw: raw}`. -/
def Field.value (field : Field) (len : Nat) (val : GoVal) (raw : List Byte) : Value :=
  { Typ := field.fieldType, Flags := field.flags, Len := len, Val := val, Raw := raw }

/-- The tail `if err == nil { pos += int(num); continue } else { return nil, err }`
of the temporal case. -/
def finishTemporal (r : HelperResult) (field : Field) (n : Nat) (raw : List Byte)
    (pos : Int) (num : Nat) : Outcome (Option Value × Int) :=
  match r with
  | .value val =>
    .ok (some (field.value n val raw), pos + toSigned 64 num)
  | .failure msg => .error (.helper msg)
  | .panic => .panic

/-- One iteration of the loop of `BinaryRow.Decode` for column `i` with
descriptor `field`, entered with position `pos`: the entry stored in `dest[i]`
and the new position. -/
def BinaryRow.decodeColumn (h : Helpers) (content nullMask : List Byte) (i : Nat)
    (field : Field) (pos : Int) : Outcome (Option Value × Int) :=
  match nullBit nullMask i with
  | none => .panic
  | some true => .ok (none, pos)
  | some false =>
    match field.fieldType with
    | .NULL => .ok (some (field.value 1 .nil []), pos)
    | .Tiny =>
      match getByte content pos, slice content pos (pos + 1) with
      | some b, some raw =>
        if field.isUnsigned then .ok (some (field.value 1 (.int64 (b.val : Int)) raw), pos + 1)
        else .ok (some (field.value 1 (.int64 (toSigned 8 b.val)) raw), pos + 1)
      | _, _ => .panic
    | .Short | .Year =>
      match slice content pos (pos + 2), slice content pos (pos + 1) with
      | some bs, some raw =>
        if field.isUnsigned then .ok (some (field.value 2 (.int64 (leUint bs : Nat)) raw), pos + 2)
        else .ok (some (field.value 2 (.int64 (toSigned 16 (leUint bs))) raw), pos + 2)
      | _, _ => .panic
    | .Int24 | .Long =>
      match slice content pos (pos + 4) with
      | some bs =>
        if field.isUnsigned then .ok (some (field.value 4 (.int64 (leUint bs : Nat)) bs), pos + 4)
        else .ok (some (field.value 4 (.int64 (toSigned 32 (leUint bs))) bs), pos + 4)
      | none => .panic
    | .LongLong =>
      match slice content pos (pos + 8) with
      | some bs =>
        if field.isUnsigned then
          if leUint bs > maxInt64 then
            .ok (some (field.value 8 (.str (uint64ToString (leUint bs))) bs), pos + 8)
          else .ok (some (field.value 8 (.int64 (toSigned 64 (leUint bs))) bs), pos + 8)
        else .ok (some (field.value 8 (.int64 (toSigned 64 (leUint bs))) bs), pos + 8)
      | none => .panic
    | .Float =>
      match slice content pos (pos + 4) with
      | some bs => .ok (some (field.value 4 (.float32 (leUint bs)) bs), pos + 4)
      | none => .panic
    | .Double =>
      match slice content pos (pos + 8) with
      | some bs => .ok (some (field.value 8 (.float64 (leUint bs)) bs), pos + 8)
      | none => .panic
    | .Decimal | .NewDecimal | .VarChar | .Bit | .Enum | .Set | .TinyBLOB
    | .MediumBLOB | .LongBLOB | .BLOB | .VarString | .String | .Geometry | .JSON =>
      match sliceFrom content pos with
      | none => .panic
      | some b =>
        match readLengthEncodedString b with
        | none => .panic
        | some r =>
          match slice content pos (pos + (r.n : Int)) with
          | none => .panic
          | some raw =>
            match r.err with
            | none =>
              if !r.isNull then .ok (some (field.value r.n (.bytes r.val) raw), pos + (r.n : Int))
              else .ok (some (field.value r.n .nil raw), pos + (r.n : Int))
            | some e => .error e
    | .Date | .NewDate | .Time | .Timestamp | .DateTime =>
      match sliceFrom content pos with
      | none => .panic
      | some b =>
        match readLengthEncodedInteger b with
        | none => .panic
        | some (num, isNull, n) =>
          let pos1 : Int := pos + (n : Int)
          if isNull then .ok (none, pos1)
          else if field.fieldType = .Time then
            match dstlenOf 8 field.decimals with
            | none => .error (.illegalDecimals field.decimals)
            | some dstlen =>
              match slice content pos1 (pos1 + toSigned 64 num) with
              | none => .panic
              | some src =>
                match h.formatBinaryTime src dstlen with
                | .panic => .panic
                | r =>
                  match slice content pos1 (pos1 + (n : Int)) with
                  | none => .panic
                  | some raw => finishTemporal r field n raw pos1 num
          else
            match sliceFrom content pos1 with
            | none => .panic
            | some data =>
              match h.parseBinaryDateTime num data with
              | .panic => .panic
              | r =>
                match slice content pos1 (pos1 + (n : Int)) with
                | none => .panic
                | some raw =>
                  match r with
                  | .value _ => finishTemporal r field n raw pos1 num
                  | _ =>
                    match (if field.fieldType = .Date then some 10
                           else dstlenOf 19 field.decimals) with
                    | none => .error (.illegalDecimals field.decimals)
                    | some dstlen =>
                      match slice content pos1 (pos1 + toSigned 64 num) with
                      | none => .panic
                      | some src =>
                        match h.formatBinaryDateTime src dstlen with
                        | .panic => .panic
                        | r2 => finishTemporal r2 field n raw pos1 num
    | .unknown c => .error (.unknownFieldType (.unknown c))

/-- The loop of `BinaryRow.Decode`: state `(dest[0..k), pos)` after `k`
iterations, starting right after the null-bitmap. -/
def BinaryRow.loop (h : Helpers) (content nullMask : List Byte) (cols : List Field) (k : Nat) :
    Outcome (List (Option Value) × Int) :=
  decodeLoop (BinaryRow.decodeColumn h content nullMask) cols
    ((1 + (cols.length + 7 + 2) >>> 3 : Nat) : Int) k

/-- State `(dest[0..k), pos)` of `BinaryRow.Decode` after the marker check, the
slicing of the null-bitmap and `k` iterations of the loop. -/
def BinaryRow.stateAt (h : Helpers) (rows : Row) (k : Nat) :
    Outcome (List (Option Value) × Int) :=
  match getByte rows.bytes 0 with
  | none => .panic
  | some b0 =>
    if b0 ≠ mysql.OKPacket then
      .error (.sqlError mysql.CRMalformedPacket mysql.SSUnknownSQLState)
    else
      match slice rows.bytes 1 ((1 + (rows.ResultSet.Columns.length + 7 + 2) >>> 3 : Nat) : Int) with
      | none => .panic
      | some nullMask => BinaryRow.loop h rows.bytes nullMask rows.ResultSet.Columns k

/-- The method `(*BinaryRow).Decode`. -/
def BinaryRow.Decode (h : Helpers) (rows : Row) : Outcome (List (Option Value)) :=
  match BinaryRow.stateAt h rows rows.ResultSet.Columns.length with
  | .ok (dest, _) => .ok dest
  | .error e => .error e
  | .panic => .panic

/-- The loop `for _, val := range values { bf.Write(val.Raw) }` of `Row.Encode`:
the bytes written to the buffer; `none` is the nil-pointer panic on a nil entry
of `values`. -/
def writeRaws : List (Option Value) → Option (List Byte)
  | [] => some []
  | none :: _ => none
  | some val :: rest =>
    match writeRaws rest with
    | none => none
    | some bf => some (val.Raw ++ bf)

/-- The method `(*Row).Encode`: the row after the call (the method assigns both
members of its receiver and returns it); `none` is a panic.
`bytes.Buffer.Bytes` of a buffer that received no byte is the nil slice. -/
def Row.Encode (_row : Row) (values : List (Option Value)) (columns : List Field)
    (columnNames : Option (List String)) : Option Row :=
  match writeRaws values with
  | none => none
  | some bf =>
    some { Content := if bf = [] then none else some bf,
           ResultSet := { Columns := columns, ColumnNames := columnNames } }

/-- Time helpers that reject every input; used for concrete rows without
temporal columns. -/
def Helpers.rejecting : Helpers :=
  { parseDateTime := fun _ => .failure "unsupported"
    formatBinaryTime := fun _ _ => .failure "unsupported"
    parseBinaryDateTime := fun _ _ => .failure "unsupported"
    formatBinaryDateTime := fun _ _ => .failure "unsupported" }

/-! ## Specification-side definitions and sample rows -/

/-- The null-bitmap `rows.Content[1:pos]` of a binary row. -/
def BinaryRow.nullMask (rows : Row) : List Byte :=
  (rows.bytes.take (1 + (rows.ResultSet.Columns.length + 9) / 8)).drop 1

/-- The null bit of column `i` as the specification words it: bit
`(i+2) mod 8` of the byte at index `(i+2) div 8` of the bitmap that starts at
offset 1 of the content. -/
def specNullBit (content : List Byte) (i : Nat) : Option Bool :=
  (content[1 + (i + 2) / 8]?).map (fun b => decide (b.val / 2 ^ ((i + 2) % 8) % 2 = 1))

/-- The `w` little-endian bytes of `v`. -/
def leBytes : Nat → Nat → List Byte
  | 0, _ => []
  | w + 1, v => Fin.ofNat (v % 256) :: leBytes w (v / 256)

/-- The length-encoded integer of `n`: one byte below 251, otherwise a marker
byte 0xFC, 0xFD or 0xFE followed by 2, 3 or 8 little-endian bytes. -/
def lenEncInt (n : Nat) : List Byte :=
  if n < 251 then [Fin.ofNat n]
  else if n < 2 ^ 16 then 0xfc :: leBytes 2 n
  else if n < 2 ^ 24 then 0xfd :: leBytes 3 n
  else 0xfe :: leBytes 8 n

/-- The length-encoded string with payload `s`. -/
def lenEncString (s : List Byte) : List Byte := lenEncInt s.length ++ s

/-- The column types decoded as a length-encoded string by `BinaryRow.Decode`. -/
def isLenEncString : FieldType → Bool
  | .Decimal | .NewDecimal | .VarChar | .Bit | .Enum | .Set | .TinyBLOB | .MediumBLOB
  | .LongBLOB | .BLOB | .VarString | .String | .Geometry | .JSON => true
  | _ => false

/-- Width in bytes of the integer types TINY, SHORT/YEAR and INT24/LONG. -/
def intWidth : FieldType → Option Nat
  | .Tiny => some 1
  | .Short | .Year => some 2
  | .Int24 | .Long => some 4
  | _ => none

/-- Number of bytes the decoder stores in `Raw` for an integer column of
width `w`: `Content[pos : pos+1]` for the two-byte types. -/
def intRawWidth (w : Nat) : Nat := if w = 2 then 1 else w

/-- An unsigned SHORT column. -/
def exShortUnsigned : Field :=
  { table := "t", name := "s", fieldType := .Short, flags := 32, decimals := 0 }

/-- A binary row of a signed and an unsigned SHORT column, both holding the bytes FE FF. -/
def exRowShort : Row :=
  { Content := some [0x00, 0x00, 0xfe, 0xff, 0xfe, 0xff],
    ResultSet := { Columns := [{ exShortUnsigned with flags := 0 }, exShortUnsigned],
                   ColumnNames := none } }

/-- An unsigned LONGLONG column. -/
def exLongLongUnsigned : Field :=
  { table := "t", name := "u", fieldType := .LongLong, flags := 32, decimals := 0 }

/-- A binary row of one unsigned LONGLONG column holding eight 0xFF bytes. -/
def exRowLongLong : Row :=
  { Content := some [0x00, 0x00, 0xff, 0xff, 0xff, 0xff, 0xff, 0xff, 0xff, 0xff],
    ResultSet := { Columns := [exLongLongUnsigned], ColumnNames := none } }

/-- A column descriptor and the descriptor obtained from it by replacing a
`decimals` of 0x1F with 0x00 (or by leaving it as it is). -/
def decimalsRelaxed (f g : Field) : Prop :=
  g = f ∨ (f.decimals = 0x1f ∧ g = { f with decimals := 0x00 })

/-- A TIME column with `decimals = 0x1F`. -/
def exTime1f : Field :=
  { table := "t", name := "d", fieldType := .Time, flags := 0, decimals := 0x1f }

/-- Time helpers that show their arguments in the result. -/
def Helpers.echo : Helpers :=
  { parseDateTime := fun b => .time (leUint b)
    formatBinaryTime := fun src dstlen => .value (.bytes (Fin.ofNat dstlen :: src))
    parseBinaryDateTime := fun num _ => .failure (toString num)
    formatBinaryDateTime := fun src dstlen => .value (.bytes (Fin.ofNat dstlen :: src)) }

/-- A binary row of one TIME column with an 8-byte value. -/
def exRowTime : Row :=
  { Content := some [0x00, 0x00, 0x08, 0x00, 0x01, 0x00, 0x00, 0x00, 0x02, 0x03, 0x04],
    ResultSet := { Columns := [exTime1f], ColumnNames := none } }

/-- Width in bytes of the fixed-width integer types, LONGLONG included. -/
def intWidth64 : FieldType → Option Nat
  | .Tiny => some 1
  | .Short | .Year => some 2
  | .Int24 | .Long => some 4
  | .LongLong => some 8
  | _ => none

/-- The value `v` carries in `Raw` the binary wire encoding of its `Val` for
a column with descriptor `f`: the `w` little-endian bytes of an integer of the
range of the column (two's complement for a signed column), with the decimal
string standing for an unsigned LONGLONG above `2^63-1`, or the length-encoded
string of a byte-string value. -/
inductive Encodes (f : Field) (v : Value) : Prop
  | unsignedInt (w x : Nat) (hw : intWidth64 f.fieldType = some w)
      (hu : f.isUnsigned = true) (hx : x < 2 ^ (8 * w)) (hmax : x ≤ maxInt64)
      (hval : v.Val = .int64 (x : Int)) (hraw : v.Raw = leBytes w x) : Encodes f v
  | unsignedBig (x : Nat) (hty : f.fieldType = .LongLong)
      (hu : f.isUnsigned = true) (hmax : maxInt64 < x) (hx : x < 2 ^ 64)
      (hval : v.Val = .str (Nat.toDigits 10 x).asString) (hraw : v.Raw = leBytes 8 x) :
      Encodes f v
  | signedInt (w : Nat) (x : Int) (hw : intWidth64 f.fieldType = some w)
      (hu : f.isUnsigned = false) (hlo : -((2 : Int) ^ (8 * w - 1)) ≤ x)
      (hhi : x < (2 : Int) ^ (8 * w - 1))
      (hval : v.Val = .int64 x) (hraw : v.Raw = leBytes w (x % (2 : Int) ^ (8 * w)).toNat) :
      Encodes f v
  | string (s : List Byte) (hty : isLenEncString f.fieldType = true)
      (hlen : s.length < 2 ^ 64)
      (hval : v.Val = .bytes s) (hraw : v.Raw = lenEncString s) : Encodes f v

/-- A signed TINY column. -/
def exTiny : Field := { table := "t", name := "a", fieldType := .Tiny, flags := 0, decimals := 0 }

/-- A binary row of two TINY columns whose first column is null (bit 2 of the bitmap byte). -/
def exRowNullFirst : Row :=
  { Content := some [0x00, 0x04, 0x07],
    ResultSet := { Columns := [exTiny, exTiny], ColumnNames := none } }

/-- The fixed-width column types of the binary protocol. -/
def isFixedWidth : FieldType → Bool
  | .Tiny | .Short | .Year | .Int24 | .Long | .LongLong | .Float | .Double => true
  | _ => false

/-- A decoded entry is null when the entry itself is nil or its `Val` is nil. -/
def isNullEntry : Option Value → Bool
  | none => true
  | some v => decide (v.Val = .nil)

/-- A column of type NULL. -/
def exNull : Field := { table := "t", name := "n", fieldType := .NULL, flags := 0, decimals := 0 }

/-- A binary row of one NULL-typed column whose null bit is clear. -/
def exRowNullType : Row :=
  { Content := some [0x00, 0x00],
    ResultSet := { Columns := [exNull], ColumnNames := none } }

/-- A binary row of one VARCHAR column whose content ends after the
null-bitmap. -/
def exRowStringAtEnd : Row :=
  { Content := some [0x00, 0x00],
    ResultSet := { Columns := [{ table := "t", name := "c", fieldType := .VarChar, flags := 1,
                                 decimals := 0 }],
                   ColumnNames := none } }

/-- A binary row of one DATE column whose content ends after the
null-bitmap. -/
def exRowDateAtEnd : Row :=
  { Content := some [0x00, 0x00],
    ResultSet := { Columns := [{ table := "t", name := "d", fieldType := .Date, flags := 0,
                                 decimals := 0 }],
                   ColumnNames := none } }

/-- The rounded-up quotient `⌈a / b⌉`. -/
def ceilDiv (a b : Nat) : Nat := (a + b - 1) / b

/-- A binary row of one TINY column holding 7. -/
def exRowTiny : Row :=
  { Content := some [0x00, 0x00, 0x07],
    ResultSet := { Columns := [exTiny], ColumnNames := none } }

/-- The first bytes of a binary row with `n` columns none of which is null:
the 0x00 marker and a null-bitmap of `(n+9) div 8` zero bytes. -/
def binaryRowHeader (n : Nat) : List Byte :=
  (0x00 : Byte) :: List.replicate ((n + 9) / 8) (0x00 : Byte)

/-- A TINY value 5 with its one-byte encoding. -/
def exTinyValue : Value := { Typ := .Tiny, Flags := 0, Len := 1, Val := .int64 5, Raw := [0x05] }

/-- A VARCHAR value with its length-encoded string. -/
def exStringValue : Value :=
  { Typ := .VarChar, Flags := 1, Len := 3, Val := .bytes [0x68, 0x69], Raw := [0x02, 0x68, 0x69] }

/-- An entry whose `Raw` is the header of a binary row of two columns. -/
def exHeaderValue : Value :=
  { Typ := .NULL, Flags := 0, Len := 0, Val := .nil, Raw := [0x00, 0x00] }

/-- A row with nil content and no columns. -/
def exEmptyRow : Row :=
  { Content := none, ResultSet := { Columns := [], ColumnNames := none } }

/-- The column types whose text value `TextRow.Decode` parses into a time. -/
def isTextTemporal : FieldType → Bool
  | .Timestamp | .DateTime | .Date | .NewDate => true
  | _ => false

/-- A VARCHAR column. -/
def exVarChar : Field :=
  { table := "t", name := "c", fieldType := .VarChar, flags := 1, decimals := 0 }

/-- A text row of three VARCHAR columns: the string hi, the null sentinel, the empty string. -/
def exTextRow : Row :=
  { Content := some [0x02, 0x68, 0x69, 0xfb, 0x00],
    ResultSet := { Columns := [exVarChar, exVarChar, exVarChar], ColumnNames := none } }

/-- A text row of two VARCHAR columns whose content holds the string A and
ends there. -/
def exTextRowEndsEarly : Row :=
  { Content := some [0x01, 0x41],
    ResultSet := { Columns := [exVarChar, exVarChar], ColumnNames := none } }

/-- A binary row of one VARCHAR column whose string declares 5 bytes and holds 1. -/
def exRowTruncated : Row :=
  { Content := some [0x00, 0x00, 0x05, 0x41],
    ResultSet := { Columns := [exVarChar], ColumnNames := none } }

/-- A text row of one VARCHAR column whose string declares 5 bytes and holds 1. -/
def exTextRowTruncated : Row :=
  { Content := some [0x05, 0x41],
    ResultSet := { Columns := [exVarChar], ColumnNames := none } }

/-- A binary row whose first byte is 0x01. -/
def exRowBadMarker : Row :=
  { Content := some [0x01, 0x00, 0x07],
    ResultSet := { Columns := [exTiny], ColumnNames := none } }

/-- Width in bytes of the fixed-width column types of the binary protocol. -/
def fixedWidth : FieldType → Option Nat
  | .Tiny => some 1
  | .Short | .Year => some 2
  | .Int24 | .Long | .Float => some 4
  | .LongLong | .Double => some 8
  | _ => none

/-- Number of value bytes taken by the first `k` columns of a row of
fixed-width columns: the sum of the widths of the columns among them whose null
bit is not set. -/
def consumedWidths (content : List Byte) (cols : List Field) : Nat → Nat
  | 0 => 0
  | k + 1 =>
    consumedWidths content cols k +
      (if specNullBit content k = some true then 0
       else ((cols[k]?).bind (fun f => fixedWidth f.fieldType)).getD 0)

/-- The content offset `1 + (n+9) div 8 + Σ width(j)` at which column `i` of a
row of n fixed-width columns is read. -/
def valueOffset (rows : Row) (i : Nat) : Nat :=
  1 + (rows.ResultSet.Columns.length + 9) / 8
    + consumedWidths rows.bytes rows.ResultSet.Columns i

/-- A binary row without columns: the marker and one bitmap byte. -/
def exRowNoColumns : Row :=
  { Content := some [0x00, 0x00], ResultSet := { Columns := [], ColumnNames := none } }

/-- The struct `mysql.Result`, with the two fields that a composite literal
sets in `optimizer_test.go`; both are `uint64`. -/
structure Result where
  AffectedRows : Nat
  InsertId : Nat
  deriving DecidableEq, Repr

/-- The type `proto.PlanType`. `always.go` names its constant `PlanTypeExec`;
`other` stands for every other value of the type. -/
inductive PlanType
  | PlanTypeExec
  | other (code : Nat)
  deriving DecidableEq, Repr

/-- A call made on a `proto.VConn`, whose methods `Query` and `Exec` take a
context, a database name, an SQL text and arguments. -/
inductive VConnCall
  | Query (db : String) (sql : String) (args : List GoVal)
  | Exec (db : String) (sql : String) (args : List GoVal)
  deriving DecidableEq, Repr

/-- A virtual connection, observed through the calls issued on it so far. -/
structure VConn where
  calls : List VConnCall
  deriving DecidableEq, Repr

/-- A `context.Context`, observed through the values it carries and whether it
is cancelled. -/
structure Context where
  values : List (String × String)
  cancelled : Bool
  deriving DecidableEq, Repr

/-- The package-level variables of package `plan`. -/
structure PlanGlobals where
  _emptyResult : Result
  deriving DecidableEq, Repr

/-- The state at program start: `var _emptyResult mysql.Result` has no
initialiser and holds the zero value. -/
def PlanGlobals.init : PlanGlobals :=
  { _emptyResult := { AffectedRows := 0, InsertId := 0 } }

/-- A non-nil `proto.Result` as `ExecIn` builds it: a pointer to a
`mysql.Result`; `emptyResultAddr` is `&_emptyResult`. -/
inductive ResultPtr
  | emptyResultAddr
  deriving DecidableEq, Repr

/-- The struct a pointer refers to in a given state of the package variables. -/
def ResultPtr.load (g : PlanGlobals) : ResultPtr → Result
  | .emptyResultAddr => g._emptyResult

/-- The type `AlwaysEmptyExecPlan`, a struct without fields. -/
structure AlwaysEmptyExecPlan where
  deriving DecidableEq, Repr

/-- What a call of `ExecIn` leaves behind: the two returned values, the
connection and the package variables after the call. -/
structure ExecInReturn where
  result : Option ResultPtr
  err : Option GoError
  conn : VConn
  globals : PlanGlobals
  deriving DecidableEq, Repr

/-- The method `AlwaysEmptyExecPlan.Type`: `return proto.PlanTypeExec`. -/
def AlwaysEmptyExecPlan.Type (_a : AlwaysEmptyExecPlan) : PlanType :=
  .PlanTypeExec

/-- The method `AlwaysEmptyExecPlan.ExecIn`: `return &_emptyResult, nil`. The
body uses neither `ctx` nor `conn` and writes no variable. -/
def AlwaysEmptyExecPlan.ExecIn (_a : AlwaysEmptyExecPlan) (_ctx : Context) (conn : VConn)
    (g : PlanGlobals) : ExecInReturn :=
  { result := some .emptyResultAddr, err := none, conn := conn, globals := g }

/-- The package variables after a sequence of `ExecIn` calls. -/
def AlwaysEmptyExecPlan.globalsAfter (a : AlwaysEmptyExecPlan) :
    List (Context × VConn) → PlanGlobals → PlanGlobals
  | [], g => g
  | c :: cs, g => AlwaysEmptyExecPlan.globalsAfter a cs (a.ExecIn c.1 c.2 g).globals

/-- Modelled from the spec: cut a string at the first occurrence of the
separator `c`; `none` when `c` does not occur. -/
def splitFirst (c : Char) : List Char → Option (List Char × List Char)
  | [] => none
  | x :: xs =>
    if x = c then some ([], xs)
    else match splitFirst c xs with
      | none => none
      | some (a, b) => some (x :: a, b)

/-- Modelled from the spec: cut a string at the last occurrence of the
separator `c`; `none` when `c` does not occur. -/
def splitLast (c : Char) (s : List Char) : Option (List Char × List Char) :=
  match splitFirst c s.reverse with
  | none => none
  | some (a, b) => some (b.reverse, a.reverse)

/-- Modelled from the spec: the pieces of a string between occurrences of the
separator `c`. -/
def splitAll (c : Char) : List Char → List (List Char)
  | [] => [[]]
  | x :: xs =>
    if x = c then [] :: splitAll c xs
    else match splitAll c xs with
      | [] => [[x]]
      | p :: ps => (x :: p) :: ps

/-- Modelled from the spec: the error *DSNParseError*, with the reason the DSN
is malformed. -/
inductive DSNParseError
  /-- No `/` separates the network location from the database name. -/
  | missingSlash
  /-- No `@` separates the credentials from the network location. -/
  | missingAt
  /-- No `:` separates the user from the password. -/
  | missingColon
  /-- The address after `(` is not closed by `)`. -/
  | unterminatedAddr
  /-- The network is neither `tcp` nor `unix`. -/
  | unknownNet (net : String)
  deriving DecidableEq, Repr

/-- The struct `Config` that `ParseDSN` returns, with the fields that
`client_test.go` reads (`Addr`, `User`, `Passwd`, `DBName`), the network and
the parameters. -/
structure Config where
  User : String
  Passwd : String
  Net : String
  Addr : String
  DBName : String
  Params : List (String × String)
  deriving DecidableEq, Repr

/-- The two results of `ParseDSN`: `(cfg, nil)` or `(nil, err)`. -/
inductive DSNResult
  | ok (cfg : Config)
  | error (e : DSNParseError)
  deriving DecidableEq, Repr

/-- Modelled from the spec: the network location `net[(addr)]`; the address is
`none` when it is omitted or empty. -/
def parseNetloc (netloc : List Char) : Option (List Char × Option (List Char)) :=
  match splitFirst '(' netloc with
  | none => some (netloc, none)
  | some (net, rest) =>
    if rest.getLast? = some ')' then
      some (net, if rest.dropLast = [] then none else some rest.dropLast)
    else none

/-- Modelled from the spec: "Defaults: tcp→127.0.0.1:3306,
unix→/tmp/mysql.sock, missing port→3306"; `none` for any other network. -/
def normalizeAddr (net : List Char) (addr : Option (List Char)) : Option (List Char) :=
  if net = "tcp".toList then
    match addr with
    | none => some "127.0.0.1:3306".toList
    | some a => if ':' ∈ a then some a else some (a ++ ":3306".toList)
  else if net = "unix".toList then
    match addr with
    | none => some "/tmp/mysql.sock".toList
    | some a => some a
  else none

/-- Modelled from the spec: the parameters `param=value&…`; a piece without
`=` is skipped. -/
def parseParams (s : List Char) : List (String × String) :=
  (splitAll '&' s).filterMap (fun p =>
    match splitFirst '=' p with
    | none => none
    | some (k, v) => some (String.mk k, String.mk v))

/-- Modelled from the spec: a DSN is
`user:password@net[(addr)]/dbname[?param=value&…]`. The database name starts
after the last `/` and ends at the first `?` after it, the network location
starts after the last `@` before that `/`, and the user ends at the first
`:`. -/
def parseDSNChars (dsn : List Char) : DSNResult :=
  match splitLast '/' dsn with
  | none => .error .missingSlash
  | some (left, right) =>
    match splitLast '@' left with
    | none => .error .missingAt
    | some (creds, netloc) =>
      match splitFirst ':' creds with
      | none => .error .missingColon
      | some (user, passwd) =>
        match parseNetloc netloc with
        | none => .error .unterminatedAddr
        | some (net, addr) =>
          match normalizeAddr net addr with
          | none => .error (.unknownNet (String.mk net))
          | some a =>
            match splitFirst '?' right with
            | none =>
              .ok { User := String.mk user, Passwd := String.mk passwd, Net := String.mk net,
                    Addr := String.mk a, DBName := String.mk right, Params := [] }
            | some (dbname, params) =>
              .ok { User := String.mk user, Passwd := String.mk passwd, Net := String.mk net,
                    Addr := String.mk a, DBName := String.mk dbname,
                    Params := parseParams params }

/-- Modelled from the spec: `ParseDSN(dsn)`. -/
def ParseDSN (dsn : String) : DSNResult :=
  parseDSNChars dsn.toList

/-- Modelled from the spec: the marker `mysql.ErrPacket`, "ERR (0xFF)". -/
def ErrPacket : Byte := 0xff

/-- Modelled from the spec: `mysql.ProtocolVersion`, "protocol version 10". -/
def ProtocolVersion : Byte := 10

/-- Modelled from the spec: the capability flag PLUGIN_AUTH. -/
def CapabilityClientPluginAuth : Nat := 2 ^ 19

/-- Modelled from the spec: the capability flag SECURE_CONNECTION. -/
def CapabilityClientSecureConnection : Nat := 2 ^ 15

/-- The bytes of an ASCII text. -/
def asciiBytes (s : String) : List Byte :=
  s.toList.map (fun c => ⟨c.toNat % 256, Nat.mod_lt _ (by decide)⟩)

/-- Modelled from the spec: `mysql.MysqlNativePassword`, the plugin name
`mysql_native_password`. -/
def MysqlNativePassword : List Byte := asciiBytes "mysql_native_password"

/-- Modelled from the spec: the errors of the initial handshake, one for each
validation step. -/
inductive HandshakeError
  /-- Step 1, *ImmediateServerError*, with the parsed code and message. -/
  | immediateServerError (errorCode : Nat) (errorMsg : List Byte)
  /-- The packet is empty. -/
  | noProtocolVersion
  /-- Step 2, *UnsupportedProtocol*. -/
  | unsupportedProtocol (pver : Byte)
  /-- Step 3, *NoServerVersion*. -/
  | noServerVersion
  /-- Step 4, *NoConnectionId*. -/
  | noConnectionId
  /-- Step 5, *NoAuthPart1*. -/
  | noAuthPart1
  /-- Step 6, *NoFiller*. -/
  | noFiller
  /-- Step 7, *NoCapabilityLower*. -/
  | noCapabilityLower
  /-- Step 8, no character set. -/
  | noCharacterSet
  /-- Step 8, no status flags. -/
  | noStatusFlags
  /-- Step 8, no upper capability flags. -/
  | noCapabilityUpper
  /-- Step 8, no length of the auth-plugin data. -/
  | noAuthDataLength
  /-- Step 8, no filler in place of the length of the auth-plugin data. -/
  | noAuthDataLengthFiller
  /-- Step 8, no second part of the auth-plugin data. -/
  | noAuthPart2
  /-- Step 8, the second part of the auth-plugin data does not end in 0. -/
  | authPart2NotTerminated
  deriving DecidableEq, Repr

/-- The `Message` of the `SQLError`, for the errors whose text `client_test.go`
checks; the format of the first is
`immediate error from server errorCode=%v errorMsg=%v`. -/
def HandshakeError.Message : HandshakeError → Option (List Byte)
  | .immediateServerError errorCode errorMsg =>
    some (asciiBytes "immediate error from server errorCode=" ++ asciiBytes (toString errorCode)
      ++ asciiBytes " errorMsg=" ++ errorMsg)
  | .noServerVersion =>
    some (asciiBytes "parseInitialHandshakePacket: packet has no server version")
  | .noConnectionId =>
    some (asciiBytes "parseInitialHandshakePacket: packet has no connection id")
  | .noAuthPart1 =>
    some (asciiBytes "parseInitialHandshakePacket: packet has no auth-plugin-Content-part-1")
  | .noFiller => some (asciiBytes "parseInitialHandshakePacket: packet has no filler")
  | .noCapabilityLower =>
    some (asciiBytes "parseInitialHandshakePacket: packet has no capability flags (lower 2 bytes)")
  | .noStatusFlags => some (asciiBytes "parseInitialHandshakePacket: packet has no status flags")
  | .noCapabilityUpper =>
    some (asciiBytes "parseInitialHandshakePacket: packet has no capability flags (upper 2 bytes)")
  | .noAuthDataLengthFiller =>
    some (asciiBytes
      "parseInitialHandshakePacket: packet has no length of auth-plugin-Content filler")
  | _ => none

/-- Modelled from the spec: the value `(capabilityFlags, authPluginData,
authPluginName)` the codec returns. -/
structure Handshake where
  capabilities : Nat
  authData : List Byte
  authName : List Byte
  deriving DecidableEq, Repr

/-- The results of `parseInitialHandshakePacket`: the three values with a nil
error, or an error. -/
inductive HandshakeResult
  | ok (hs : Handshake)
  | error (e : HandshakeError)
  deriving DecidableEq, Repr

/-- Modelled from the spec: read one byte at `pos`. -/
def readByte (data : List Byte) (pos : Nat) : Option (Byte × Nat) :=
  match data[pos]? with
  | none => none
  | some b => some (b, pos + 1)

/-- Modelled from the spec: read `size` bytes at `pos`. -/
def readBytes (data : List Byte) (pos size : Nat) : Option (List Byte × Nat) :=
  if pos + size ≤ data.length then some ((data.drop pos).take size, pos + size) else none

/-- Modelled from the spec: read a 2-byte little-endian integer at `pos`. -/
def readUint16 (data : List Byte) (pos : Nat) : Option (Nat × Nat) :=
  match readBytes data pos 2 with
  | none => none
  | some (b, p) => some (leUint b, p)

/-- Modelled from the spec: read a 4-byte little-endian integer at `pos`. -/
def readUint32 (data : List Byte) (pos : Nat) : Option (Nat × Nat) :=
  match readBytes data pos 4 with
  | none => none
  | some (b, p) => some (leUint b, p)

/-- Modelled from the spec: read a null-terminated string at `pos`; the
position after it is the one after the terminator. -/
def readNullString (data : List Byte) (pos : Nat) : Option (List Byte × Nat) :=
  match (data.drop pos).indexOf? 0 with
  | none => none
  | some e => some ((data.drop pos).take e, pos + e + 1)

/-- Modelled from the spec: read the rest of the packet as a string. -/
def readEOFString (data : List Byte) (pos : Nat) : List Byte :=
  data.drop pos

/-- Modelled from the spec: step 8 after the 10 reserved bytes, the remainder
of the auth-plugin data and the plugin name. The remainder has `l` bytes, the
declared length minus the 8 bytes of part 1 and at most 13, the last of them
the terminator: the last packet of `TestParseInitialHandshakePacket` declares
9 bytes and gets the 8 bytes of part 1 as its data. -/
def parseHandshakeTail (data : List Byte) (capabilities : Nat) (authPluginData : List Byte)
    (authPluginDataLength : Nat) (pos : Nat) : HandshakeResult :=
  let secure := capabilities &&& CapabilityClientSecureConnection != 0
  let pluginAuth := capabilities &&& CapabilityClientPluginAuth != 0
  let l := min 13 (authPluginDataLength - 8)
  if secure && authPluginDataLength ≤ 8 then .error .noAuthPart2
  else
    match (if secure then readBytes data pos l else some ([], pos)) with
    | none => .error .noAuthPart2
    | some (part2, pos2) =>
      if secure && part2.getLast? != some 0 then .error .authPart2NotTerminated
      else
        let authData := authPluginData ++ part2.dropLast
        if pluginAuth then
          match readNullString data pos2 with
          | some (name, _) => .ok { capabilities := capabilities, authData := authData,
                                    authName := name }
          | none => .ok { capabilities := capabilities, authData := authData,
                          authName := (data.drop pos2).dropLast }
        else .ok { capabilities := capabilities, authData := authData,
                   authName := MysqlNativePassword }

/-- Modelled from the spec: steps 3 to 8 of the initial handshake, after the
first byte. -/
def parseHandshakeBody (data : List Byte) : HandshakeResult :=
  match readNullString data 1 with
  | none => .error .noServerVersion
  | some (_, p1) =>
    match readUint32 data p1 with
    | none => .error .noConnectionId
    | some (_, p2) =>
      match readBytes data p2 8 with
      | none => .error .noAuthPart1
      | some (authPluginData, p3) =>
        match readByte data p3 with
        | none => .error .noFiller
        | some (_, p4) =>
          match readUint16 data p4 with
          | none => .error .noCapabilityLower
          | some (capLower, p5) =>
            if p5 = data.length then
              .ok { capabilities := capLower, authData := authPluginData, authName := [] }
            else
              match readByte data p5 with
              | none => .error .noCharacterSet
              | some (_, p6) =>
                match readUint16 data p6 with
                | none => .error .noStatusFlags
                | some (_, p7) =>
                  match readUint16 data p7 with
                  | none => .error .noCapabilityUpper
                  | some (capUpper, p8) =>
                    match readByte data p8 with
                    | none =>
                      if (capLower + capUpper * 2 ^ 16) &&& CapabilityClientPluginAuth != 0
                      then .error .noAuthDataLength
                      else .error .noAuthDataLengthFiller
                    | some (b, p9) =>
                      parseHandshakeTail data (capLower + capUpper * 2 ^ 16) authPluginData
                        (if (capLower + capUpper * 2 ^ 16) &&& CapabilityClientPluginAuth != 0
                          then b.val else 0) (p9 + 10)

/-- Modelled from the spec: `parseInitialHandshakePacket(data)`, which
"validates in this order": first byte ERR, then protocol version 10, then the
fields of the packet. In step 1 the code is the 2-byte little-endian integer
at offset 1 and the message is the rest of the packet; when the packet is too
short for the code, the code is 0 and the message is the whole packet. -/
def parseInitialHandshakePacket (data : List Byte) : HandshakeResult :=
  match readByte data 0 with
  | none => .error .noProtocolVersion
  | some (pver, _) =>
    if pver = ErrPacket then
      match readUint16 data 1 with
      | some (errorCode, pos) => .error (.immediateServerError errorCode (readEOFString data pos))
      | none => .error (.immediateServerError 0 (readEOFString data 0))
    else if pver ≠ ProtocolVersion then .error (.unsupportedProtocol pver)
    else parseHandshakeBody data

/-- The packet of `TestParseInitialHandshakePacket` with `n` bytes: protocol
version 10, then 1, then zeros. -/
def exHandshake (n : Nat) : List Byte :=
  ([10, 1] ++ List.replicate (n - 2) 0).take n

/-- The last packet of `TestParseInitialHandshakePacket`: 37 bytes with
`data[17] = 255`, `data[21] = 255`, `data[23] = 9` and `data[35] = 65`. -/
def exHandshakeFull : List Byte :=
  [10, 1] ++ List.replicate 15 0 ++ [255, 0, 0, 0, 255, 0, 9] ++ List.replicate 11 0 ++ [65, 0]

/-- Modelled from the spec: one VALUES row of an INSERT, with the value of its
shard-key column and its other values. -/
structure InsertRow where
  shardKey : Nat
  values : List GoVal
  deriving DecidableEq, Repr

/-- Modelled from the spec: the modulo algorithm of a sharding rule with `n`
physical shards, which sends a row to the shard `key mod n`. -/
def moduloShard (n : Nat) (r : InsertRow) : Nat :=
  r.shardKey % n

/-- Modelled from the spec: add a row to the group of its shard, opening a new
group when the shard has none yet. -/
def addToGroup (sh : Nat) (r : InsertRow) :
    List (Nat × List InsertRow) → List (Nat × List InsertRow)
  | [] => [(sh, [r])]
  | (s, g) :: rest =>
    if s = sh then (s, g ++ [r]) :: rest else (s, g) :: addToGroup sh r rest

/-- Modelled from the spec: "For each VALUES row, compute the target shard from
the shard-key column. Group rows by (db, table)". -/
def groupByShard (alg : InsertRow → Nat) (rows : List InsertRow) :
    List (Nat × List InsertRow) → List (Nat × List InsertRow) :=
  fun acc => rows.foldl (fun a r => addToGroup (alg r) r a) acc

/-- Modelled from the spec: the plan node `InsertFanOut{perShard}`, one
rewritten INSERT with the grouped rows for each shard. -/
structure InsertFanOut where
  perShard : List (Nat × List InsertRow)
  deriving DecidableEq, Repr

/-- Modelled from the spec: the optimizer on a sharded INSERT, "for each group
produce a rewritten INSERT with the grouped rows; assemble InsertFanOut". -/
def optimizeInsert (alg : InsertRow → Nat) (rows : List InsertRow) : InsertFanOut :=
  { perShard := groupByShard alg rows [] }

/-- Modelled from the spec: executing `InsertFanOut`, "affected-rows summed;
last-insert-id = maximum across shards". `backend s g` is the result the
backend of shard `s` reports for the INSERT of the rows `g`. -/
def InsertFanOut.ExecIn (backend : Nat → List InsertRow → Result) (p : InsertFanOut) : Result :=
  { AffectedRows := (p.perShard.map (fun sg => (backend sg.1 sg.2).AffectedRows)).sum,
    InsertId := (p.perShard.map (fun sg => (backend sg.1 sg.2).InsertId)).foldl max 0 }

/-- The backend of `TestOptimizer_OptimizeInsert`: it reports one affected row
for each placeholder of the statement it receives, one per row. -/
def exCountingBackend (_s : Nat) (g : List InsertRow) : Result :=
  { AffectedRows := g.length, InsertId := 1 }

/-- The three rows of `TestOptimizer_OptimizeInsert`, with shard keys 8, 9, 16. -/
def exInsertRows : List InsertRow :=
  [{ shardKey := 8, values := [.str "foo", .int64 18] },
   { shardKey := 9, values := [.str "bar", .int64 19] },
   { shardKey := 16, values := [.str "qux", .int64 17] }]

/-- A SHORT, a null TINY, a DOUBLE and a LONG column. -/
def exRowFixed : Row :=
  { Content := some [0x00, 0x08, 0x01, 0x02, 0x10, 0x11, 0x12, 0x13, 0x14, 0x15, 0x16, 0x17,
                     0x20, 0x21, 0x22, 0x23],
    ResultSet :=
      { Columns := [{ exTiny with fieldType := .Short }, exTiny,
                    { exTiny with fieldType := .Double }, { exTiny with fieldType := .Long }],
        ColumnNames := none } }

/-- A binary row of three columns whose null bits (bits 2, 3 and 4) are all set. -/
def exRowAllNull : Row :=
  { Content := some [0x00, 0x1c],
    ResultSet := { Columns := [exTiny, exVarChar, exTime1f], ColumnNames := none } }

/-- A binary row of one signed SHORT column holding the bytes FE FF. -/
def exRowShortOnly : Row :=
  { Content := some [0x00, 0x00, 0xfe, 0xff],
    ResultSet := { Columns := [{ exShortUnsigned with flags := 0 }], ColumnNames := none } }

/-- The pair `([]*proto.Value, error)` that a decoder returns; `none` is nil. -/
structure DecodeReturn where
  values : Option (List (Option Value))
  err : Option GoError
  deriving DecidableEq, Repr

/-- The operands of `return` that an outcome of the decoders without spare
capacity stands for: `return dest, nil` for a normal return and
`return nil, err` for a returned error; nothing for a panic.
`TextRow.DecodeCap_text_nil` and `BinaryRow.DecodeCap_nil` show that these are the
operands of the `return` statements of the two decoders. -/
def Outcome.returned : Outcome (List (Option Value)) → Option DecodeReturn
  | .ok dest => some { values := some dest, err := none }
  | .error e => some { values := none, err := some e }
  | .panic => none

/-- A binary row whose first column is a TINY and whose second column has an
unknown type. -/
def exRowUnknownSecond : Row :=
  { Content := some [0x00, 0x00, 0x07],
    ResultSet := { Columns := [exTiny, { exTiny with fieldType := .unknown 200 }],
                   ColumnNames := none } }

/-- A text row of two VARCHAR columns whose second string declares five bytes
of which one is present. -/
def exTextRowSecondTruncated : Row :=
  { Content := some [0x01, 0x41, 0x05, 0x42],
    ResultSet := { Columns := [exVarChar, exVarChar], ColumnNames := none } }

/-- A binary row whose first column is a TINY and whose second column has an
unknown type and a set null bit (bit 3 of the bitmap byte). -/
def exRowUnknownNull : Row :=
  { Content := some [0x00, 0x08, 0x07],
    ResultSet := { Columns := [exTiny, { exTiny with fieldType := .unknown 200 }],
                   ColumnNames := none } }

/-- The method `(*Row).Decode`: `return nil, nil`. -/
def Row.Decode (_row : Row) : DecodeReturn :=
  { values := none, err := none }

/-- The loop `for _, value := range values` of `Row.GetColumnValue`, with
`column` the bytes of the Go string: `return value.Val, nil` at the first value
whose `Raw` is `column`, `return nil, nil` after the last one; a nil entry of
`values` panics at `value.Raw`. -/
def Row.GetColumnValue.scan (column : List Byte) : List (Option Value) → Outcome GoVal
  | [] => .ok .nil
  | none :: _ => .panic
  | some value :: rest =>
    if value.Raw = column then .ok value.Val else Row.GetColumnValue.scan column rest

/-- The method `(*Row).GetColumnValue`; `.ok v` is `return v, nil` and
`.error e` is `return nil, e`. The receiver of the inner call `row.Decode()` is
a `*Row`, so the call is `(*Row).Decode` also when the row is the one embedded
in a `TextRow` or a `BinaryRow`, through which the method is promoted. A nil
slice is ranged over like an empty one. -/
def Row.GetColumnValue (row : Row) (column : List Byte) : Outcome GoVal :=
  match (Row.Decode row).err with
  | some err => .error err
  | none => Row.GetColumnValue.scan column ((Row.Decode row).values.getD [])

/-- The `ResultSet` objects of the program, by address: `row.ResultSet` is a
`*ResultSet`, and rows of one result share the object it points to. -/
abbrev Heap := List ResultSet

/-- The struct `Row` with its member `ResultSet` as the pointer it is: `none`
is the nil pointer and `some a` the address of an object of the heap. -/
structure HeapRow where
  Content : Option (List Byte)
  ResultSet : Option Nat
  deriving DecidableEq, Repr

/-- The row a `HeapRow` stands for when its pointer is followed. -/
def HeapRow.view (heap : Heap) (row : HeapRow) : Option Row :=
  match row.ResultSet with
  | none => none
  | some a =>
    match heap[a]? with
    | none => none
    | some rs => some { Content := row.Content, ResultSet := rs }

/-- What a method with receiver `*Row` leaves behind: the returned value, the
receiver and the heap after the call. -/
structure MethodReturn (α : Type) where
  result : α
  row : HeapRow
  heap : Heap

/-- The method `(*Row).Columns`; `none` is the panic of following a nil
pointer. The two loops fill `columns[i]` for every `i`, from the descriptor
`row.ResultSet.Columns[i]`. -/
def HeapRow.Columns (heap : Heap) (row : HeapRow) : Option (MethodReturn (List String)) :=
  match row.ResultSet with
  | none => none
  | some a =>
    match heap[a]? with
    | none => none
    | some rs =>
      match rs.ColumnNames with
      | some names => some { result := names, row := row, heap := heap }
      | none =>
        let columns :=
          if row.Content != none then
            rs.Columns.map (fun field =>
              if field.table.length > 0 then field.table ++ "." ++ field.name else field.name)
          else rs.Columns.map (fun field => field.name)
        some { result := columns, row := row,
               heap := heap.set a { rs with ColumnNames := some columns } }

/-- The method `(*Row).Fields`: `return row.ResultSet.Columns`. -/
def HeapRow.Fields (heap : Heap) (row : HeapRow) : Option (List Field) :=
  match row.ResultSet with
  | none => none
  | some a =>
    match heap[a]? with
    | none => none
    | some rs => some rs.Columns

/-- The method `(*Row).Data`: `return row.Content`. -/
def HeapRow.Data (row : HeapRow) : Option (List Byte) :=
  row.Content

/-- The method `(*Row).Encode`: `&ResultSet{...}` is a new object of the heap,
then the loop writes every `val.Raw` to the buffer (`none` is the nil-pointer
panic on a nil entry of `values`) and `row.Content` becomes the bytes of the
buffer, the nil slice when nothing was written. -/
def HeapRow.Encode (heap : Heap) (_row : HeapRow) (values : List (Option Value))
    (columns : List Field) (columnNames : Option (List String)) :
    Option (MethodReturn Unit) :=
  match writeRaws values with
  | none => none
  | some bf =>
    some { result := (),
           row := { Content := if bf = [] then none else some bf,
                    ResultSet := some heap.length },
           heap := heap ++ [{ Columns := columns, ColumnNames := columnNames }] }

/-- The name the claim gives column `field` of a row: `table.name` when the
content is non-nil and the table is non-empty, `name` otherwise. -/
def specColumnName (content : Option (List Byte)) (field : Field) : String :=
  if content ≠ none ∧ field.table ≠ "" then field.table ++ "." ++ field.name else field.name

/-- Two column descriptors, with and without a table. -/
def exNameColumns : List Field :=
  [{ table := "t", name := "a", fieldType := .Tiny, flags := 0, decimals := 0 },
   { table := "", name := "b", fieldType := .Long, flags := 0, decimals := 0 }]

/-- A heap with one `ResultSet` whose names are not computed yet. -/
def exHeap : Heap := [{ Columns := exNameColumns, ColumnNames := none }]

/-- A row with content that points to the object at address 0. -/
def exHeapRow : HeapRow := { Content := some [0x00, 0x00, 0x07], ResultSet := some 0 }

/-- A row without content that points to the same object. -/
def exHeapRowNil : HeapRow := { Content := none, ResultSet := some 0 }

/-- Two values with one and two bytes of `Raw`. -/
def exEncodeValues : List Value :=
  [{ Typ := .Tiny, Flags := 0, Len := 1, Val := .int64 5, Raw := [0x05] },
   { Typ := .Short, Flags := 0, Len := 2, Val := .int64 513, Raw := [0x01, 0x02] }]

/-- A heap whose only `ResultSet` has its names computed. -/
def exHeapNamed : Heap := [{ Columns := exNameColumns, ColumnNames := some ["t.a", "b"] }]

/-- The constant `_server` of package `nacos`. -/
def _server : String := "endpoints"

/-- The constant `_contextPath` of package `nacos`. -/
def _contextPath : String := "contextPath"

/-- The constant `_scheme` of package `nacos`. -/
def _scheme : String := "scheme"

/-- The Go library function `unicode.IsSpace`: the white space of Latin-1 and
the other characters with the Unicode property White_Space. -/
def unicode.IsSpace (c : Char) : Bool :=
  c.toNat == 0x09 || c.toNat == 0x0a || c.toNat == 0x0b || c.toNat == 0x0c ||
    c.toNat == 0x0d || c.toNat == 0x20 || c.toNat == 0x85 || c.toNat == 0xa0 ||
    c.toNat == 0x1680 || (0x2000 ≤ c.toNat && c.toNat ≤ 0x200a) || c.toNat == 0x2028 ||
    c.toNat == 0x2029 || c.toNat == 0x202f || c.toNat == 0x205f || c.toNat == 0x3000

/-- The Go library function `strings.TrimSpace`: the string without its
leading and trailing white space. -/
def strings.TrimSpace (s : List Char) : List Char :=
  ((s.dropWhile unicode.IsSpace).reverse.dropWhile unicode.IsSpace).reverse

/-- The Go library function `strings.Split(s, sep)` for a separator of one
character: the pieces of `s` between the occurrences of `sep`, one more than
there are occurrences. -/
def strings.Split : List Char → Char → List (List Char)
  | [], _ => [[]]
  | x :: xs, sep =>
    if x = sep then [] :: strings.Split xs sep
    else match strings.Split xs sep with
      | [] => [[x]]
      | p :: ps => (x :: p) :: ps

/-- The two kinds of `*strconv.NumError`. -/
inductive strconv.NumError
  | ErrSyntax
  | ErrRange
  deriving DecidableEq, Repr

/-- The largest `uint64`. -/
def strconv.maxUint64 : Nat := 2 ^ 64 - 1

/-- The test `'0' <= c && c <= '9'`. -/
def strconv.isDigit (c : Char) : Bool :=
  48 ≤ c.toNat && c.toNat ≤ 57

/-- The loop of `strconv.ParseUint(s, 10, 64)` with `n` the number read so far:
a character that is not a decimal digit returns `(0, ErrSyntax)`; a digit that
makes the number exceed 64 bits returns `(maxUint64, ErrRange)` at once. -/
def strconv.ParseUint.loop : List Char → Nat → Nat × Option strconv.NumError
  | [], n => (n, none)
  | c :: cs, n =>
    if strconv.isDigit c then
      if n ≥ strconv.maxUint64 / 10 + 1 then (strconv.maxUint64, some .ErrRange)
      else if n * 10 + (c.toNat - 48) > strconv.maxUint64 then
        (strconv.maxUint64, some .ErrRange)
      else strconv.ParseUint.loop cs (n * 10 + (c.toNat - 48))
    else (0, some .ErrSyntax)

/-- The Go library function `strconv.ParseUint(s, 10, 64)`. -/
def strconv.ParseUint (s : List Char) : Nat × Option strconv.NumError :=
  if s = [] then (0, some .ErrSyntax) else strconv.ParseUint.loop s 0

/-- The part of `strconv.ParseInt(s, 10, 64)` after the sign is picked off:
a syntax error gives 0, a number outside int64 gives the nearest int64 with
`ErrRange`. -/
def strconv.ParseInt.finish (neg : Bool) (r : Nat × Option strconv.NumError) :
    Int × Option strconv.NumError :=
  match r with
  | (_, some .ErrSyntax) => (0, some .ErrSyntax)
  | (un, _) =>
    if !neg && un ≥ 2 ^ 63 then (2 ^ 63 - 1, some .ErrRange)
    else if neg && un > 2 ^ 63 then (-(2 ^ 63), some .ErrRange)
    else (if neg then -(un : Int) else (un : Int), none)

/-- The Go library function `strconv.ParseInt(s, 10, 64)`. -/
def strconv.ParseInt (s : List Char) : Int × Option strconv.NumError :=
  match s with
  | [] => (0, some .ErrSyntax)
  | c :: cs =>
    if c = '+' then strconv.ParseInt.finish false (strconv.ParseUint cs)
    else if c = '-' then strconv.ParseInt.finish true (strconv.ParseUint cs)
    else strconv.ParseInt.finish false (strconv.ParseUint (c :: cs))

/-- The struct `constant.ServerConfig`, with the four fields that
`parseServerConfig` sets. -/
structure ServerConfig where
  Scheme : String
  ContextPath : String
  IpAddr : String
  Port : Nat
  deriving DecidableEq, Repr

/-- The type assertion `val.(string)`; `none` is its panic. -/
def assertString : GoVal → Option String
  | .str s => some s
  | _ => none

/-- The loop over `addresses` of `parseServerConfig`: the configs appended to
`cfgs`; `none` is the index panic of `addr[1]` for an entry without `:`.
`Port` is `uint64(port)` with `port` the first result of `ParseInt`. -/
def parseServerConfig.loop (scheme contextPath : String) :
    List (List Char) → Option (List ServerConfig)
  | [] => some []
  | address :: rest =>
    match strings.Split (strings.TrimSpace address) ':' with
    | ip :: port :: _ =>
      match parseServerConfig.loop scheme contextPath rest with
      | none => none
      | some cfgs =>
        some ({ Scheme := scheme, ContextPath := contextPath, IpAddr := String.mk ip,
                Port := Int.toNat ((strconv.ParseInt port).1 % 2 ^ 64) } :: cfgs)
    | _ => none

/-- The function `parseServerConfig`; `options` is the map, `none` for an
absent key, and the result `none` is a panic. -/
def parseServerConfig (options : String → Option GoVal) : Option (List ServerConfig) :=
  match (match options _scheme with
         | none => some "http"
         | some val => assertString val) with
  | none => none
  | some scheme =>
    match (match options _contextPath with
           | none => some "/nacos"
           | some val => assertString val) with
    | none => none
    | some contextPath =>
      match options _server with
      | none => some []
      | some servers =>
        match assertString servers with
        | none => none
        | some s => parseServerConfig.loop scheme contextPath (strings.Split s.toList ',')

/-- An entry ` ip:port ` of the endpoints list: the white space before it, the
ip, the port and the white space after it. -/
structure Endpoint where
  pre : List Char
  ip : List Char
  port : List Char
  post : List Char
  deriving DecidableEq, Repr

/-- The text of an entry. -/
def Endpoint.text (e : Endpoint) : List Char :=
  e.pre ++ (e.ip ++ ':' :: e.port) ++ e.post

/-- The parts of an entry are what their names say: `pre` and `post` are white
space, the ip and the port contain neither `,` nor `:`, the ip does not start
with white space and the port does not end with it. -/
def Endpoint.wellFormed (e : Endpoint) : Prop :=
  (∀ c ∈ e.pre, unicode.IsSpace c = true) ∧ (∀ c ∈ e.post, unicode.IsSpace c = true) ∧
    ',' ∉ e.ip ∧ ':' ∉ e.ip ∧ ',' ∉ e.port ∧ ':' ∉ e.port ∧
    e.ip.head?.map unicode.IsSpace ≠ some true ∧
    e.port.getLast?.map unicode.IsSpace ≠ some true

instance (e : Endpoint) : Decidable e.wellFormed :=
  inferInstanceAs (Decidable (_ ∧ _ ∧ _ ∧ _ ∧ _ ∧ _ ∧ _ ∧ _))

/-- The texts joined by commas. -/
def commaSeparated : List (List Char) → List Char
  | [] => []
  | t :: ts =>
    match ts with
    | [] => t
    | _ :: _ => t ++ ',' :: commaSeparated ts

/-- The number that a string of decimal digits denotes, continuing from `n`. -/
def decimalValueFrom (n : Nat) (ds : List Char) : Nat :=
  ds.foldl (fun a c => a * 10 + (c.toNat - 48)) n

/-- The number that a string of decimal digits denotes. -/
def decimalValue (ds : List Char) : Nat :=
  decimalValueFrom 0 ds

/-- A non-empty string of decimal digits. -/
def isDecimal (s : List Char) : Prop :=
  s ≠ [] ∧ ∀ c ∈ s, strconv.isDigit c = true

/-- The string without its sign, if it starts with one. -/
def stripSign : List Char → List Char
  | [] => []
  | c :: cs => if c = '+' ∨ c = '-' then cs else c :: cs

/-- The string is not a decimal integer, and this shows before its digits
exceed 64 bits: after an optional sign it is empty, or it has a character
that is not a decimal digit and the digits before the first such character
denote a number below 2^64. -/
def notDecimalInteger (s : List Char) : Prop :=
  stripSign s = [] ∨
    ((stripSign s).takeWhile strconv.isDigit ≠ stripSign s ∧
      decimalValue ((stripSign s).takeWhile strconv.isDigit) < 2 ^ 64)

/-- The options map with only the key `endpoints`. -/
def exOptions (endpoints : String) : String → Option GoVal :=
  fun key => if key = "endpoints" then some (.str endpoints) else none

/-- The options map with the keys `endpoints`, `scheme` and `contextPath`. -/
def exOptionsFull : String → Option GoVal :=
  fun key =>
    if key = "endpoints" then some (.str " 127.0.0.1:8848 ,nacos.local:80,10.0.0.1:http ")
    else if key = "scheme" then some (.str "https")
    else if key = "contextPath" then some (.str "/n")
    else none

/-- The three entries of `exOptionsFull`. -/
def exEndpoints : List Endpoint :=
  [{ pre := " ".toList, ip := "127.0.0.1".toList, port := "8848".toList, post := " ".toList },
   { pre := [], ip := "nacos.local".toList, port := "80".toList, post := [] },
   { pre := [], ip := "10.0.0.1".toList, port := "http".toList, post := " ".toList }]

/-- Slice expression `b[lo:hi]` on a slice `b` whose backing array goes on
with the bytes `spare` between `len(b)` and `cap(b)`: Go checks `hi` against
the capacity, and the result may hold bytes of `spare`. -/
def sliceCap (b spare : List Byte) (lo hi : Int) : Option (List Byte) :=
  if 0 ≤ lo ∧ lo ≤ hi ∧ hi ≤ ((b.length + spare.length : Nat) : Int) then
    some (((b ++ spare).take hi.toNat).drop lo.toNat)
  else none

/-- Modelled from the spec: `readLengthEncodedString` on a slice `b` with the
spare capacity `spare`. It is `readLengthEncodedString`, with the slice
`b[n:n]` of a string without payload checked against the capacity of `b`. -/
def readLengthEncodedStringCap (b spare : List Byte) : Option LenEncString :=
  match readLengthEncodedInteger b with
  | none => none
  | some (num, isNull, n) =>
    if num < 1 then
      match sliceCap b spare n n with
      | none => none
      | some v => some ⟨v, isNull, n, none⟩
    else
      if n + num ≤ b.length then
        some ⟨(b.take (n + num)).drop n, false, n + num, none⟩
      else some ⟨[], false, n + num, some GoError.eof⟩

/-- How one iteration of the loop of a decoder ends: `next v pos` is
`dest[i] = v` followed by `continue` with the position `pos`; `ret r` is a
`return` statement with its two operands; `panic` is a run-time panic. -/
inductive Iteration
  | next (v : Option Value) (pos : Int)
  | ret (r : DecodeReturn)
  | panic
  deriving DecidableEq, Repr

/-- The state of a decoder while its loop runs: the entries `dest[0..k)` stored
so far and the position, or the operands of the `return` statement that ended
the call, or a panic. -/
inductive LoopState
  | running (dest : List (Option Value)) (pos : Int)
  | returned (r : DecodeReturn)
  | panic
  deriving DecidableEq, Repr

/-- The loop `for i := 0; i < len(rows.ResultSet.Columns); i++` of both
decoders with its `return` statements: the state after `k` iterations, where
`step i field pos` is the body for column `i`. -/
def iterate (step : Nat → Field → Int → Iteration) (cols : List Field) (pos0 : Int) :
    Nat → LoopState
  | 0 => .running [] pos0
  | k + 1 =>
    match iterate step cols pos0 k with
    | .running dest pos =>
      match cols[k]? with
      | none => .running dest pos
      | some field =>
        match step k field pos with
        | .next v pos1 => .running (dest ++ [v]) pos1
        | .ret r => .returned r
        | .panic => .panic
    | .returned r => .returned r
    | .panic => .panic

/-- The body of the loop of `TextRow.Decode` on a `Content` with the spare
capacity `spare`, with its statement `return nil, err`, which is reached with
the error of the reader or of `parseDateTime`. -/
def TextRow.iteration (h : Helpers) (content spare : List Byte) (field : Field) (pos : Int) :
    Iteration :=
  match sliceFrom content pos with
  | none => .panic
  | some b =>
    match readLengthEncodedStringCap b spare with
    | none => .panic
    | some r =>
      match r.err with
      | none =>
        if !r.isNull then
          match field.fieldType with
          | .Timestamp | .DateTime | .Date | .NewDate =>
            match h.parseDateTime r.val with
            | .time t => .next (some (field.value r.n (.time t) r.val)) (pos + (r.n : Int))
            | .failure msg => .ret { values := none, err := some (.helper msg) }
            | .panic => .panic
          | _ => .next (some (field.value r.n (.bytes r.val) r.val)) (pos + (r.n : Int))
        else .next (some (field.value r.n .nil r.val)) (pos + (r.n : Int))
      | some e => .ret { values := none, err := some e }

/-- The state of `TextRow.Decode` after `k` iterations of its loop, on a
`Content` with the spare capacity `spare`. -/
def TextRow.stateAtCap (h : Helpers) (rows : Row) (spare : List Byte) (k : Nat) : LoopState :=
  iterate (fun _ field pos => TextRow.iteration h rows.bytes spare field pos)
    rows.ResultSet.Columns 0 k

/-- The method `(*TextRow).Decode` on a row whose `Content` has the spare
capacity `spare`, with the operands of its `return` statements: the loop ends
in `return dest, nil`, with `dest` from `make`, which is not nil; `none` is a
panic. -/
def TextRow.DecodeCap (h : Helpers) (rows : Row) (spare : List Byte) : Option DecodeReturn :=
  match TextRow.stateAtCap h rows spare rows.ResultSet.Columns.length with
  | .running dest _ => some { values := some dest, err := none }
  | .returned r => some r
  | .panic => none

/-- The tail `if err == nil { pos += int(num); continue } else { return nil, err }`
of the temporal case. -/
def finishTemporalRet (r : HelperResult) (field : Field) (n : Nat) (raw : List Byte)
    (pos : Int) (num : Nat) : Iteration :=
  match r with
  | .value val => .next (some (field.value n val raw)) (pos + toSigned 64 num)
  | .failure msg => .ret { values := none, err := some (.helper msg) }
  | .panic => .panic

/-- The body of the loop of `BinaryRow.Decode` for column `i` on a `Content`
with the spare capacity `spare`, with its `return` statements: every one of
them in the body is `return nil, err` or `return nil, fmt.Errorf(...)`. -/
def BinaryRow.iteration (h : Helpers) (content spare nullMask : List Byte) (i : Nat)
    (field : Field) (pos : Int) : Iteration :=
  match nullBit nullMask i with
  | none => .panic
  | some true => .next none pos
  | some false =>
    match field.fieldType with
    | .NULL => .next (some (field.value 1 .nil [])) pos
    | .Tiny =>
      match getByte content pos, sliceCap content spare pos (pos + 1) with
      | some b, some raw =>
        if field.isUnsigned then .next (some (field.value 1 (.int64 (b.val : Int)) raw)) (pos + 1)
        else .next (some (field.value 1 (.int64 (toSigned 8 b.val)) raw)) (pos + 1)
      | _, _ => .panic
    | .Short | .Year =>
      match sliceCap content spare pos (pos + 2), sliceCap content spare pos (pos + 1) with
      | some bs, some raw =>
        if field.isUnsigned then
          .next (some (field.value 2 (.int64 (leUint bs : Nat)) raw)) (pos + 2)
        else .next (some (field.value 2 (.int64 (toSigned 16 (leUint bs))) raw)) (pos + 2)
      | _, _ => .panic
    | .Int24 | .Long =>
      match sliceCap content spare pos (pos + 4) with
      | some bs =>
        if field.isUnsigned then
          .next (some (field.value 4 (.int64 (leUint bs : Nat)) bs)) (pos + 4)
        else .next (some (field.value 4 (.int64 (toSigned 32 (leUint bs))) bs)) (pos + 4)
      | none => .panic
    | .LongLong =>
      match sliceCap content spare pos (pos + 8) with
      | some bs =>
        if field.isUnsigned then
          if leUint bs > maxInt64 then
            .next (some (field.value 8 (.str (uint64ToString (leUint bs))) bs)) (pos + 8)
          else .next (some (field.value 8 (.int64 (toSigned 64 (leUint bs))) bs)) (pos + 8)
        else .next (some (field.value 8 (.int64 (toSigned 64 (leUint bs))) bs)) (pos + 8)
      | none => .panic
    | .Float =>
      match sliceCap content spare pos (pos + 4) with
      | some bs => .next (some (field.value 4 (.float32 (leUint bs)) bs)) (pos + 4)
      | none => .panic
    | .Double =>
      match sliceCap content spare pos (pos + 8) with
      | some bs => .next (some (field.value 8 (.float64 (leUint bs)) bs)) (pos + 8)
      | none => .panic
    | .Decimal | .NewDecimal | .VarChar | .Bit | .Enum | .Set | .TinyBLOB
    | .MediumBLOB | .LongBLOB | .BLOB | .VarString | .String | .Geometry | .JSON =>
      match sliceFrom content pos with
      | none => .panic
      | some b =>
        match readLengthEncodedStringCap b spare with
        | none => .panic
        | some r =>
          match sliceCap content spare pos (pos + (r.n : Int)) with
          | none => .panic
          | some raw =>
            match r.err with
            | none =>
              if !r.isNull then
                .next (some (field.value r.n (.bytes r.val) raw)) (pos + (r.n : Int))
              else .next (some (field.value r.n .nil raw)) (pos + (r.n : Int))
            | some e => .ret { values := none, err := some e }
    | .Date | .NewDate | .Time | .Timestamp | .DateTime =>
      match sliceFrom content pos with
      | none => .panic
      | some b =>
        match readLengthEncodedInteger b with
        | none => .panic
        | some (num, isNull, n) =>
          if isNull then .next none (pos + (n : Int))
          else if field.fieldType = .Time then
            match dstlenOf 8 field.decimals with
            | none => .ret { values := none, err := some (.illegalDecimals field.decimals) }
            | some dstlen =>
              match sliceCap content spare (pos + (n : Int))
                  (pos + (n : Int) + toSigned 64 num) with
              | none => .panic
              | some src =>
                match h.formatBinaryTime src dstlen with
                | .panic => .panic
                | r =>
                  match sliceCap content spare (pos + (n : Int))
                      (pos + (n : Int) + (n : Int)) with
                  | none => .panic
                  | some raw => finishTemporalRet r field n raw (pos + (n : Int)) num
          else
            match sliceFrom content (pos + (n : Int)) with
            | none => .panic
            | some data =>
              match h.parseBinaryDateTime num data with
              | .panic => .panic
              | r =>
                match sliceCap content spare (pos + (n : Int))
                    (pos + (n : Int) + (n : Int)) with
                | none => .panic
                | some raw =>
                  match r with
                  | .value _ => finishTemporalRet r field n raw (pos + (n : Int)) num
                  | _ =>
                    match (if field.fieldType = .Date then some 10
                           else dstlenOf 19 field.decimals) with
                    | none =>
                      .ret { values := none, err := some (.illegalDecimals field.decimals) }
                    | some dstlen =>
                      match sliceCap content spare (pos + (n : Int))
                          (pos + (n : Int) + toSigned 64 num) with
                      | none => .panic
                      | some src =>
                        match h.formatBinaryDateTime src dstlen with
                        | .panic => .panic
                        | r2 => finishTemporalRet r2 field n raw (pos + (n : Int)) num
    | .unknown c => .ret { values := none, err := some (.unknownFieldType (.unknown c)) }

/-- The state of `BinaryRow.Decode` on a row whose `Content` has the spare
capacity `spare`, after the marker check with its statement
`return nil, errors.NewSQLError(...)`, the slicing of the null-bitmap and `k`
iterations of the loop. -/
def BinaryRow.stateAtCap (h : Helpers) (rows : Row) (spare : List Byte) (k : Nat) : LoopState :=
  match getByte rows.bytes 0 with
  | none => .panic
  | some b0 =>
    if b0 ≠ mysql.OKPacket then
      .returned { values := none,
                  err := some (.sqlError mysql.CRMalformedPacket mysql.SSUnknownSQLState) }
    else
      match sliceCap rows.bytes spare 1
          ((1 + (rows.ResultSet.Columns.length + 7 + 2) >>> 3 : Nat) : Int) with
      | none => .panic
      | some nullMask =>
        iterate (BinaryRow.iteration h rows.bytes spare nullMask) rows.ResultSet.Columns
          ((1 + (rows.ResultSet.Columns.length + 7 + 2) >>> 3 : Nat) : Int) k

/-- The method `(*BinaryRow).Decode` on a row whose `Content` has the spare
capacity `spare`, with the operands of its `return` statements: the loop ends
in `return dest, nil`, with `dest` from `make`, which is not nil; `none` is a
panic. -/
def BinaryRow.DecodeCap (h : Helpers) (rows : Row) (spare : List Byte) : Option DecodeReturn :=
  match BinaryRow.stateAtCap h rows spare rows.ResultSet.Columns.length with
  | .running dest _ => some { values := some dest, err := none }
  | .returned r => some r
  | .panic => none

/-- The outcome that an iteration stands for when the operands of `return` are
left out. -/
def Iteration.toOutcome : Iteration → Outcome (Option Value × Int)
  | .next v pos => .ok (v, pos)
  | .ret r => .error (r.err.getD .eof)
  | .panic => .panic

/-- The iteration that an outcome of the decoders without spare capacity
stands for: an error `e` is the statement `return nil, e`. -/
def Outcome.toIteration : Outcome (Option Value × Int) → Iteration
  | .ok (v, pos) => .next v pos
  | .error e => .ret { values := none, err := some e }
  | .panic => .panic

/-- The loop state that an outcome of the loop without spare capacity stands
for: an error `e` is the statement `return nil, e`. -/
def Outcome.toLoopState : Outcome (List (Option Value) × Int) → LoopState
  | .ok (dest, pos) => .running dest pos
  | .error e => .returned { values := none, err := some e }
  | .panic => .panic

/-- The outcome that a loop state stands for when the operands of `return`
are left out. -/
def LoopState.toOutcome : LoopState → Outcome (List (Option Value) × Int)
  | .running dest pos => .ok (dest, pos)
  | .returned r => .error (r.err.getD .eof)
  | .panic => .panic

/-- The temporal column types of the binary protocol. -/
def isBinaryTemporal : FieldType → Bool
  | .Date | .NewDate | .Time | .Timestamp | .DateTime => true
  | _ => false

/-! # Supporting lemmas -/

/-! ## Basic facts about the Go primitives -/

theorem getByte_natCast (b : List Byte) (p : Nat) : getByte b (p : Int) = b[p]? := by
  simp [getByte]

theorem slice_natCast (b : List Byte) (lo hi : Nat) :
    slice b (lo : Int) (hi : Int) =
      if lo ≤ hi ∧ hi ≤ b.length then some ((b.take hi).drop lo) else none := by
  simp [slice]

theorem sliceFrom_natCast (b : List Byte) (lo : Nat) :
    sliceFrom b (lo : Int) = if lo ≤ b.length then some (b.drop lo) else none := by
  simp [sliceFrom]

theorem nullBit_eq (nullMask : List Byte) (i : Nat) :
    nullBit nullMask i =
      (nullMask[(i + 2) / 8]?).map (fun b => decide (b.val / 2 ^ ((i + 2) % 8) % 2 = 1)) := by
  have h3 : (i + 2) >>> 3 = (i + 2) / 8 := by
    rw [Nat.shiftRight_eq_div_pow]
  have h7 : (i + 2) &&& 7 = (i + 2) % 8 := Nat.and_pow_two_sub_one_eq_mod (i + 2) 3
  unfold nullBit
  rw [h3, h7]
  cases nullMask[(i + 2) / 8]? with
  | none => rfl
  | some b =>
    simp only [Option.map_some', Nat.and_one_is_mod, Nat.shiftRight_eq_div_pow]
    by_cases hb : b.val / 2 ^ ((i + 2) % 8) % 2 = 1 <;> simp [hb]

/-! ## The column loop -/

theorem decodeLoop_succ_ok {step : Nat → Field → Int → Outcome (Option Value × Int)}
    {cols : List Field} {pos0 : Int} {k : Nat} {d1 : List (Option Value)} {p1 : Int}
    (hk : k < cols.length) (hs : decodeLoop step cols pos0 (k + 1) = .ok (d1, p1)) :
    ∃ d p v, decodeLoop step cols pos0 k = .ok (d, p) ∧
      step k cols[k] p = .ok (v, p1) ∧ d1 = d ++ [v] := by
  rw [decodeLoop] at hs
  cases hl : decodeLoop step cols pos0 k with
  | error e => rw [hl] at hs; cases hs
  | panic => rw [hl] at hs; cases hs
  | ok s =>
    obtain ⟨d, p⟩ := s
    rw [hl] at hs
    simp only [List.getElem?_eq_getElem hk] at hs
    cases hst : step k cols[k] p with
    | error e => rw [hst] at hs; cases hs
    | panic => rw [hst] at hs; cases hs
    | ok r =>
      obtain ⟨v, q⟩ := r
      rw [hst] at hs
      simp only [Outcome.ok.injEq, Prod.mk.injEq] at hs
      exact ⟨d, p, v, rfl, hs.2 ▸ hst, hs.1.symm⟩

theorem decodeLoop_succ_of_step {step : Nat → Field → Int → Outcome (Option Value × Int)}
    {cols : List Field} {pos0 : Int} {k : Nat} {d : List (Option Value)} {p p1 : Int}
    {v : Option Value} {f : Field}
    (hl : decodeLoop step cols pos0 k = .ok (d, p)) (hf : cols[k]? = some f)
    (hst : step k f p = .ok (v, p1)) :
    decodeLoop step cols pos0 (k + 1) = .ok (d ++ [v], p1) := by
  rw [decodeLoop, hl]
  simp only [hf, hst]

theorem decodeLoop_length {step : Nat → Field → Int → Outcome (Option Value × Int)}
    {cols : List Field} {pos0 : Int} :
    ∀ {k : Nat} {d : List (Option Value)} {p : Int}, k ≤ cols.length →
      decodeLoop step cols pos0 k = .ok (d, p) → d.length = k := by
  intro k
  induction k with
  | zero =>
    intro d p _ hs
    simp only [decodeLoop, Outcome.ok.injEq, Prod.mk.injEq] at hs
    rw [← hs.1]; rfl
  | succ k ih =>
    intro d p hk hs
    obtain ⟨d0, p0, v, h0, _, hd⟩ := decodeLoop_succ_ok (Nat.lt_of_succ_le hk) hs
    rw [hd, List.length_append, ih (Nat.le_of_succ_le hk) h0]
    rfl

theorem decodeLoop_take {step : Nat → Field → Int → Outcome (Option Value × Int)}
    {cols : List Field} {pos0 : Int} :
    ∀ {n : Nat} {dest : List (Option Value)} {q : Int}, n ≤ cols.length →
      decodeLoop step cols pos0 n = .ok (dest, q) →
      ∀ k, k ≤ n → ∃ p, decodeLoop step cols pos0 k = .ok (dest.take k, p) := by
  intro n
  induction n with
  | zero =>
    intro dest q _ hs k hk
    have : k = 0 := Nat.le_zero.mp hk
    subst this
    simp only [decodeLoop, Outcome.ok.injEq, Prod.mk.injEq] at hs
    exact ⟨pos0, by simp [decodeLoop]⟩
  | succ n ih =>
    intro dest q hn hs k hk
    obtain ⟨d0, p0, v, h0, _, hd⟩ := decodeLoop_succ_ok (Nat.lt_of_succ_le hn) hs
    have hlen : d0.length = n := decodeLoop_length (Nat.le_of_succ_le hn) h0
    rcases Nat.lt_or_ge k (n + 1) with hlt | hge
    · obtain ⟨p, hp⟩ := ih (Nat.le_of_succ_le hn) h0 k (Nat.le_of_lt_succ hlt)
      refine ⟨p, ?_⟩
      rw [hp, hd, List.take_append_of_le_length (by omega)]
    · have : k = n + 1 := Nat.le_antisymm hk hge
      subst this
      refine ⟨q, ?_⟩
      rw [hs, List.take_of_length_le]
      rw [hd, List.length_append, hlen]; rfl

/-- The state in which the loop enters column `i` and the state in which it
leaves it, when `n` iterations succeed. -/
theorem decodeLoop_column_step {step : Nat → Field → Int → Outcome (Option Value × Int)}
    {cols : List Field} {pos0 : Int} {n : Nat} {s : List (Option Value) × Int}
    (hn : n ≤ cols.length) (hs : decodeLoop step cols pos0 n = .ok s) (i : Nat) (hi : i < n) :
    ∃ d p v p1, decodeLoop step cols pos0 i = .ok (d, p) ∧
      step i (cols[i]) p = .ok (v, p1) ∧
      decodeLoop step cols pos0 (i + 1) = .ok (d ++ [v], p1) ∧
      d.length = i ∧ s.1[i]? = some v := by
  obtain ⟨dest, q⟩ := s
  have hic : i < cols.length := Nat.lt_of_lt_of_le hi hn
  obtain ⟨p1, hp1⟩ := decodeLoop_take hn hs (i + 1) hi
  obtain ⟨d, p, v, hk, hst, hd⟩ := decodeLoop_succ_ok hic hp1
  have hdl : d.length = i := decodeLoop_length (Nat.le_of_lt hic) hk
  refine ⟨d, p, v, p1, hk, hst, ?_, hdl, ?_⟩
  · exact decodeLoop_succ_of_step hk (List.getElem?_eq_getElem hic) hst
  · have h1 : (List.take (i + 1) dest)[i]? = some v := by
      rw [hd, List.getElem?_append_right (by omega)]
      simp [hdl]
    rw [List.getElem?_take_of_lt (by omega)] at h1
    exact h1

theorem getElem?_some_lt {α : Type} {l : List α} {i : Nat} {a : α} (hf : l[i]? = some a) :
    i < l.length := by
  rcases Nat.lt_or_ge i l.length with hlt | hge
  · exact hlt
  · rw [List.getElem?_eq_none hge] at hf; cases hf

/-! ## The prelude of `BinaryRow.Decode` -/

theorem BinaryRow.stateAt_ok {h : Helpers} {rows : Row} {k : Nat}
    {s : List (Option Value) × Int} (hs : BinaryRow.stateAt h rows k = .ok s) :
    rows.bytes[0]? = some mysql.OKPacket ∧
      1 + (rows.ResultSet.Columns.length + 9) / 8 ≤ rows.bytes.length ∧
      BinaryRow.loop h rows.bytes (BinaryRow.nullMask rows) rows.ResultSet.Columns k = .ok s := by
  unfold BinaryRow.stateAt at hs
  have h0 : getByte rows.bytes 0 = rows.bytes[0]? := getByte_natCast rows.bytes 0
  rw [h0] at hs
  cases hb : rows.bytes[0]? with
  | none => rw [hb] at hs; cases hs
  | some b0 =>
    rw [hb] at hs
    by_cases hm : b0 = mysql.OKPacket
    · have hsl := slice_natCast rows.bytes 1 (1 + (rows.ResultSet.Columns.length + 7 + 2) >>> 3)
      simp only [Nat.cast_one] at hsl
      simp only [hm, ne_eq, not_true_eq_false, if_false] at hs
      rw [hsl] at hs
      have h3 : (rows.ResultSet.Columns.length + 7 + 2) >>> 3
          = (rows.ResultSet.Columns.length + 9) / 8 := by
        rw [Nat.shiftRight_eq_div_pow]
      rw [h3] at hs
      by_cases hlen : 1 + (rows.ResultSet.Columns.length + 9) / 8 ≤ rows.bytes.length
      · have hc : 1 ≤ 1 + (rows.ResultSet.Columns.length + 9) / 8 ∧
            1 + (rows.ResultSet.Columns.length + 9) / 8 ≤ rows.bytes.length := ⟨by omega, hlen⟩
        rw [if_pos hc] at hs
        exact ⟨by rw [hm], hlen, hs⟩
      · have hc : ¬ (1 ≤ 1 + (rows.ResultSet.Columns.length + 9) / 8 ∧
            1 + (rows.ResultSet.Columns.length + 9) / 8 ≤ rows.bytes.length) := fun hc => hlen hc.2
        rw [if_neg hc] at hs
        cases hs
    · simp only [ne_eq, hm, not_false_eq_true, if_true] at hs
      cases hs

theorem BinaryRow.stateAt_eq_loop (h : Helpers) (rows : Row) (k : Nat)
    (h0 : rows.bytes[0]? = some mysql.OKPacket)
    (hlen : 1 + (rows.ResultSet.Columns.length + 9) / 8 ≤ rows.bytes.length) :
    BinaryRow.stateAt h rows k =
      BinaryRow.loop h rows.bytes (BinaryRow.nullMask rows) rows.ResultSet.Columns k := by
  unfold BinaryRow.stateAt
  have hg : getByte rows.bytes 0 = rows.bytes[0]? := getByte_natCast rows.bytes 0
  rw [hg, h0]
  have hsl := slice_natCast rows.bytes 1 (1 + (rows.ResultSet.Columns.length + 7 + 2) >>> 3)
  simp only [Nat.cast_one] at hsl
  have h3 : (rows.ResultSet.Columns.length + 7 + 2) >>> 3
      = (rows.ResultSet.Columns.length + 9) / 8 := by
    rw [Nat.shiftRight_eq_div_pow]
  simp only [ne_eq, not_true_eq_false, if_false]
  rw [hsl, h3]
  have hc : 1 ≤ 1 + (rows.ResultSet.Columns.length + 9) / 8 ∧
      1 + (rows.ResultSet.Columns.length + 9) / 8 ≤ rows.bytes.length := ⟨by omega, hlen⟩
  rw [if_pos hc]
  rfl

theorem BinaryRow.Decode_ok {h : Helpers} {rows : Row} {dest : List (Option Value)}
    (hd : BinaryRow.Decode h rows = .ok dest) :
    ∃ q, BinaryRow.stateAt h rows rows.ResultSet.Columns.length = .ok (dest, q) := by
  unfold BinaryRow.Decode at hd
  cases hs : BinaryRow.stateAt h rows rows.ResultSet.Columns.length with
  | error e => rw [hs] at hd; cases hd
  | panic => rw [hs] at hd; cases hd
  | ok s =>
    obtain ⟨d, q⟩ := s
    rw [hs] at hd
    simp only [Outcome.ok.injEq] at hd
    exact ⟨q, by rw [hd]⟩

theorem BinaryRow.nullMask_getElem? (rows : Row) (i : Nat)
    (hi : i < rows.ResultSet.Columns.length) :
    (BinaryRow.nullMask rows)[(i + 2) / 8]? = rows.bytes[1 + (i + 2) / 8]? := by
  unfold BinaryRow.nullMask
  rw [List.getElem?_drop, List.getElem?_take_of_lt (by omega)]

theorem BinaryRow.nullBit_nullMask (rows : Row) (i : Nat)
    (hi : i < rows.ResultSet.Columns.length) :
    nullBit (BinaryRow.nullMask rows) i = specNullBit rows.bytes i := by
  rw [nullBit_eq, BinaryRow.nullMask_getElem? rows i hi]
  rfl

/-- The state in which `BinaryRow.Decode` enters column `i` and the state in
which it leaves it, for a row that decodes successfully. -/
theorem BinaryRow.column_step {h : Helpers} {rows : Row} {n : Nat}
    {s : List (Option Value) × Int} (hn : n ≤ rows.ResultSet.Columns.length)
    (hs : BinaryRow.stateAt h rows n = .ok s) (i : Nat) (hi : i < n) :
    ∃ d p v p1, BinaryRow.stateAt h rows i = .ok (d, p) ∧
      BinaryRow.decodeColumn h rows.bytes (BinaryRow.nullMask rows) i
        (rows.ResultSet.Columns[i]) p = .ok (v, p1) ∧
      BinaryRow.stateAt h rows (i + 1) = .ok (d ++ [v], p1) ∧
      d.length = i ∧ s.1[i]? = some v := by
  obtain ⟨h0, hlen, hl⟩ := BinaryRow.stateAt_ok hs
  obtain ⟨d, p, v, p1, hk, hst, hk1, hdl, hv⟩ := decodeLoop_column_step hn hl i hi
  refine ⟨d, p, v, p1, ?_, hst, ?_, hdl, hv⟩
  · rw [BinaryRow.stateAt_eq_loop h rows i h0 hlen]; exact hk
  · rw [BinaryRow.stateAt_eq_loop h rows (i + 1) h0 hlen]; exact hk1

/-- The state after column `i` of a binary row, from the state before it and
the result of the loop body. -/
theorem BinaryRow.stateAt_succ {h : Helpers} {rows : Row} {i : Nat} {d : List (Option Value)}
    {p p1 : Int} {f : Field} {v : Option Value}
    (hreach : BinaryRow.stateAt h rows i = .ok (d, p))
    (hf : rows.ResultSet.Columns[i]? = some f)
    (hcol : BinaryRow.decodeColumn h rows.bytes (BinaryRow.nullMask rows) i f p = .ok (v, p1)) :
    BinaryRow.stateAt h rows (i + 1) = .ok (d ++ [v], p1) := by
  obtain ⟨h0, hlen0, hl⟩ := BinaryRow.stateAt_ok hreach
  rw [BinaryRow.stateAt_eq_loop h rows (i + 1) h0 hlen0]
  exact decodeLoop_succ_of_step hl hf hcol

theorem BinaryRow.decodeColumn_null {h : Helpers} {content nullMask : List Byte} {i : Nat}
    {field : Field} {pos : Int} (hbit : nullBit nullMask i = some true) :
    BinaryRow.decodeColumn h content nullMask i field pos = .ok (none, pos) := by
  unfold BinaryRow.decodeColumn
  rw [hbit]

/-! ## Fixed-width integers -/

theorem slice_add (b : List Byte) (p w : Nat) (hlen : p + w ≤ b.length) :
    slice b (p : Int) ((p : Int) + (w : Int)) = some ((b.drop p).take w) := by
  have hs := slice_natCast b p (p + w)
  rw [if_pos ⟨Nat.le_add_right p w, hlen⟩] at hs
  rw [← Nat.cast_add, hs, List.drop_take]
  congr 2
  omega

theorem slice_add_none (b : List Byte) (p w : Nat) (hlen : b.length < p + w) :
    slice b (p : Int) ((p : Int) + (w : Int)) = none := by
  have hs := slice_natCast b p (p + w)
  rw [if_neg (fun hc => absurd hc.2 (Nat.not_le.mpr hlen))] at hs
  rw [← Nat.cast_add, hs]

theorem getByte_take_one (b : List Byte) (p : Nat) (hlen : p + 1 ≤ b.length) :
    ∃ c, getByte b (p : Int) = some c ∧ (b.drop p).take 1 = [c] := by
  have hp : p < b.length := hlen
  refine ⟨b[p], ?_, ?_⟩
  · rw [getByte_natCast, List.getElem?_eq_getElem hp]
  · rw [List.drop_eq_getElem_cons hp]
    rfl

theorem leUint_lt (bs : List Byte) : leUint bs < 256 ^ bs.length := by
  induction bs with
  | nil => simp [leUint]
  | cons b bs ih =>
    have hb : b.val < 256 := b.isLt
    simp only [leUint, List.length_cons, pow_succ]
    omega

theorem leUint_take_lt (bs : List Byte) (w : Nat) : leUint (bs.take w) < 2 ^ (8 * w) := by
  have h1 := leUint_lt (bs.take w)
  have h2 : (bs.take w).length ≤ w := by
    rw [List.length_take]; exact Nat.min_le_left _ _
  have h3 : (256 : Nat) ^ (bs.take w).length ≤ 256 ^ w := Nat.pow_le_pow_right (by decide) h2
  have h4 : (256 : Nat) ^ w = 2 ^ (8 * w) := by
    rw [pow_mul]; rfl
  omega

theorem toSigned_spec (w v : Nat) (hw : 0 < w) (hv : v < 2 ^ w) :
    (toSigned w v - (v : Int)) % ((2 : Int) ^ w) = 0 ∧
      -((2 : Int) ^ (w - 1)) ≤ toSigned w v ∧ toSigned w v < (2 : Int) ^ (w - 1) := by
  have hmod : v % 2 ^ w = v := Nat.mod_eq_of_lt hv
  have hpow : (2 : Nat) ^ w = 2 * 2 ^ (w - 1) := by
    obtain ⟨k, rfl⟩ : ∃ k, w = k + 1 := ⟨w - 1, by omega⟩
    rw [pow_succ]; simp [Nat.mul_comm]
  have hci : ((2 ^ w : Nat) : Int) = (2 : Int) ^ w := by push_cast; rfl
  have hci1 : ((2 ^ (w - 1) : Nat) : Int) = (2 : Int) ^ (w - 1) := by push_cast; rfl
  unfold toSigned
  rw [hmod]
  by_cases hlt : v < 2 ^ (w - 1)
  · rw [if_pos hlt]
    refine ⟨by simp, ?_, ?_⟩
    · have : (0 : Int) ≤ (2 : Int) ^ (w - 1) := by positivity
      omega
    · rw [← hci1]; exact_mod_cast hlt
  · rw [if_neg hlt]
    refine ⟨?_, ?_, ?_⟩
    · rw [hci]; simp
    · rw [← hci1]
      have h1 : ((2 ^ w : Nat) : Int) = 2 * ((2 ^ (w - 1) : Nat) : Int) := by
        rw [hpow]; push_cast; ring_nf
      have h2 : ((2 ^ (w - 1) : Nat) : Int) ≤ (v : Int) := by exact_mod_cast Nat.not_lt.mp hlt
      omega
    · rw [← hci1]
      have h1 : ((2 ^ w : Nat) : Int) = 2 * ((2 ^ (w - 1) : Nat) : Int) := by
        rw [hpow]; push_cast; ring_nf
      have h2 : (v : Int) < ((2 ^ w : Nat) : Int) := by exact_mod_cast hv
      omega

/-! ## Length-encoded integers and strings -/

theorem readLengthEncodedInteger_spec {b : List Byte} {num w : Nat} {isNull : Bool}
    (h : readLengthEncodedInteger b = some (num, isNull, w)) :
    1 ≤ w ∧ (b ≠ [] → w ≤ b.length) ∧
      (isNull = true → num = 0 ∧ w = 1) ∧
      (b ≠ [] → (isNull = true ↔ b[0]? = some 0xfb)) ∧
      (b = [] → isNull = true) := by
  cases b with
  | nil =>
    simp only [readLengthEncodedInteger, Option.some.injEq, Prod.mk.injEq] at h
    obtain ⟨h1, h2, h3⟩ := h
    subst h1 h2 h3
    simp
  | cons b0 rest =>
    have hfb : ((0xfb : Byte) : Nat) = 0xfb := rfl
    have hb0 : (b0 = (0xfb : Byte)) ↔ b0.val = 0xfb := by
      constructor
      · intro hh; subst hh; rfl
      · intro hh; exact Fin.ext hh
    simp only [readLengthEncodedInteger] at h
    split at h
    · simp only [Option.some.injEq, Prod.mk.injEq] at h
      obtain ⟨h1, h2, h3⟩ := h
      subst h1 h2 h3
      simp [hb0, *]
    · rename_i hne
      have hnb : ¬ b0 = (0xfb : Byte) := fun hh => hne (hb0.mp hh)
      split at h
      · split at h
        · simp only [Option.some.injEq, Prod.mk.injEq] at h
          obtain ⟨h1, h2, h3⟩ := h
          subst h1 h2 h3
          simp [hnb]; omega
        · cases h
      · split at h
        · split at h
          · simp only [Option.some.injEq, Prod.mk.injEq] at h
            obtain ⟨h1, h2, h3⟩ := h
            subst h1 h2 h3
            simp [hnb]; omega
          · cases h
        · split at h
          · split at h
            · simp only [Option.some.injEq, Prod.mk.injEq] at h
              obtain ⟨h1, h2, h3⟩ := h
              subst h1 h2 h3
              simp [hnb]; omega
            · cases h
          · simp only [Option.some.injEq, Prod.mk.injEq] at h
            obtain ⟨h1, h2, h3⟩ := h
            subst h1 h2 h3
            simp [hnb]

theorem readLengthEncodedString_ok {b : List Byte} {r : LenEncString}
    (h : readLengthEncodedString b = some r) (he : r.err = none) :
    ∃ num w, readLengthEncodedInteger b = some (num, r.isNull, w) ∧ 1 ≤ w ∧
      r.n = w + num ∧ r.val = (b.drop w).take num ∧ w + num ≤ b.length ∧
      (r.isNull = true ↔ b[0]? = some 0xfb) := by
  unfold readLengthEncodedString at h
  cases hint : readLengthEncodedInteger b with
  | none => rw [hint] at h; cases h
  | some t =>
    obtain ⟨num, isNull, w⟩ := t
    rw [hint] at h
    obtain ⟨hw1, hwlen, hnull, hiff, hempty⟩ := readLengthEncodedInteger_spec hint
    simp only at h
    split at h
    · rename_i hnum
      have hsl := slice_natCast b w w
      rw [hsl] at h
      by_cases hc : w ≤ w ∧ w ≤ b.length
      · rw [if_pos hc] at h
        simp only [Option.some.injEq] at h
        subst h
        have hne : b ≠ [] := by
          intro hb
          rw [hb] at hc
          simp only [List.length_nil] at hc
          omega
        have hn0 : num = 0 := by omega
        subst hn0
        refine ⟨0, w, rfl, hw1, rfl, ?_, hc.2, hiff hne⟩
        simp
      · rw [if_neg hc] at h
        cases h
    · split at h
      · rename_i hnum hle
        simp only [Option.some.injEq] at h
        subst h
        have hne : b ≠ [] := by
          intro hb
          rw [hb] at hle
          simp only [List.length_nil] at hle
          omega
        have hnn : isNull = false := by
          cases isNull with
          | false => rfl
          | true => have := (hnull rfl).1; omega
        subst hnn
        refine ⟨num, w, rfl, hw1, rfl, ?_, hle, hiff hne⟩
        simp only
        rw [List.drop_take]
        congr 2
        omega
      · simp only [Option.some.injEq] at h
        subst h
        cases he

/-! ## Binary wire encodings and their decoding -/

theorem leBytes_length (w v : Nat) : (leBytes w v).length = w := by
  induction w generalizing v with
  | zero => rfl
  | succ w ih => simp [leBytes, ih]

theorem leUint_leBytes (w v : Nat) : leUint (leBytes w v) = v % 256 ^ w := by
  induction w generalizing v with
  | zero => simp [leBytes, leUint, Nat.mod_one]
  | succ w ih =>
    have h1 : ((Fin.ofNat (v % 256) : Byte) : Nat) = v % 256 := by
      show (v % 256) % 256 = v % 256
      exact Nat.mod_mod _ _
    simp only [leBytes, leUint, ih, h1]
    rw [pow_succ, Nat.mul_comm (256 ^ w) 256, Nat.mod_mul]

theorem take_append_length {α : Type} (a b : List α) (n : Nat) (hn : a.length = n) :
    (a ++ b).take n = a := by
  subst hn
  simp

theorem readLengthEncodedInteger_lenEncInt (n : Nat) (tail : List Byte) (hn : n < 2 ^ 64) :
    readLengthEncodedInteger (lenEncInt n ++ tail) = some (n, false, (lenEncInt n).length) := by
  unfold lenEncInt
  by_cases h1 : n < 251
  · have hv : ((Fin.ofNat n : Byte) : Nat) = n := by
      show n % 256 = n
      omega
    simp only [if_pos h1, List.singleton_append, readLengthEncodedInteger, hv, List.length_singleton]
    rw [if_neg (by omega), if_neg (by omega), if_neg (by omega), if_neg (by omega)]
  · rw [if_neg h1]
    by_cases h2 : n < 2 ^ 16
    · rw [if_pos h2]
      have hl : (leBytes 2 n ++ tail).take 2 = leBytes 2 n :=
        take_append_length _ _ 2 (leBytes_length 2 n)
      have hlen : 2 ≤ (leBytes 2 n ++ tail).length := by
        rw [List.length_append, leBytes_length]; omega
      have hu : leUint (leBytes 2 n) = n := by
        rw [leUint_leBytes]; exact Nat.mod_eq_of_lt h2
      simp only [List.cons_append, readLengthEncodedInteger, List.length_cons, leBytes_length]
      rw [if_neg (by decide), if_pos (by decide), if_pos hlen, hl, hu]
    · rw [if_neg h2]
      by_cases h3 : n < 2 ^ 24
      · rw [if_pos h3]
        have hl : (leBytes 3 n ++ tail).take 3 = leBytes 3 n :=
          take_append_length _ _ 3 (leBytes_length 3 n)
        have hlen : 3 ≤ (leBytes 3 n ++ tail).length := by
          rw [List.length_append, leBytes_length]; omega
        have hu : leUint (leBytes 3 n) = n := by
          rw [leUint_leBytes]; exact Nat.mod_eq_of_lt h3
        simp only [List.cons_append, readLengthEncodedInteger, List.length_cons, leBytes_length]
        rw [if_neg (by decide), if_neg (by decide), if_pos (by decide), if_pos hlen, hl, hu]
      · rw [if_neg h3]
        have hl : (leBytes 8 n ++ tail).take 8 = leBytes 8 n :=
          take_append_length _ _ 8 (leBytes_length 8 n)
        have hlen : 8 ≤ (leBytes 8 n ++ tail).length := by
          rw [List.length_append, leBytes_length]; omega
        have hu : leUint (leBytes 8 n) = n := by
          rw [leUint_leBytes]; exact Nat.mod_eq_of_lt hn
        simp only [List.cons_append, readLengthEncodedInteger, List.length_cons, leBytes_length]
        rw [if_neg (by decide), if_neg (by decide), if_neg (by decide), if_pos (by decide),
          if_pos hlen, hl, hu]

theorem readLengthEncodedString_of_int {b : List Byte} {num w : Nat} {isNull : Bool}
    (hint : readLengthEncodedInteger b = some (num, isNull, w)) (hlen : w + num ≤ b.length) :
    readLengthEncodedString b = some ⟨(b.drop w).take num, isNull, w + num, none⟩ := by
  obtain ⟨_, _, hnull, _, _⟩ := readLengthEncodedInteger_spec hint
  unfold readLengthEncodedString
  rw [hint]
  simp only
  by_cases hnum : num < 1
  · have hn0 : num = 0 := by omega
    subst hn0
    have hsl := slice_natCast b w w
    rw [if_pos ⟨Nat.le_refl w, by omega⟩] at hsl
    rw [if_pos hnum, hsl]
    simp
  · have hnn : isNull = false := by
      cases isNull with
      | false => rfl
      | true => have := (hnull rfl).1; omega
    subst hnn
    rw [if_neg hnum, if_pos hlen, List.drop_take]
    congr 3
    omega

theorem readLengthEncodedString_truncated {b : List Byte} {num w : Nat} {isNull : Bool}
    (hint : readLengthEncodedInteger b = some (num, isNull, w)) (hnum : 1 ≤ num)
    (hlen : b.length < w + num) :
    readLengthEncodedString b = some ⟨[], false, w + num, some .eof⟩ := by
  unfold readLengthEncodedString
  rw [hint]
  simp only
  rw [if_neg (by omega), if_neg (by omega)]

theorem BinaryRow.decodeColumn_string {h : Helpers} {content nullMask : List Byte} {i : Nat}
    {field : Field} {p num w : Nat} {isNull : Bool}
    (hbit : nullBit nullMask i = some false) (hty : isLenEncString field.fieldType = true)
    (hint : readLengthEncodedInteger (content.drop p) = some (num, isNull, w))
    (hlen : p + w + num ≤ content.length) :
    BinaryRow.decodeColumn h content nullMask i field (p : Int) =
      .ok (some (field.value (w + num)
          (if isNull then .nil else .bytes ((content.drop (p + w)).take num))
          ((content.drop p).take (w + num))),
        ((p + w + num : Nat) : Int)) := by
  have hsf := sliceFrom_natCast content p
  rw [if_pos (by omega)] at hsf
  have hstr := readLengthEncodedString_of_int hint (by rw [List.length_drop]; omega)
  have hsl := slice_add content p (w + num) (by omega)
  rw [Nat.cast_add, ← add_assoc] at hsl
  obtain ⟨table, name, ft, flags, dec⟩ := field
  unfold BinaryRow.decodeColumn
  rw [hbit]
  cases ft <;> simp only [isLenEncString, Bool.false_eq_true] at hty <;>
    simp only [hsf, hstr, List.drop_drop, Nat.cast_add, ← add_assoc, hsl] <;>
    cases isNull <;> simp

theorem BinaryRow.decodeColumn_string_truncated {h : Helpers} {content nullMask : List Byte}
    {i : Nat} {field : Field} {p num w : Nat} {isNull : Bool}
    (hbit : nullBit nullMask i = some false) (hty : isLenEncString field.fieldType = true)
    (hp : p ≤ content.length)
    (hint : readLengthEncodedInteger (content.drop p) = some (num, isNull, w))
    (hnum : 1 ≤ num) (hlen : content.length < p + w + num) :
    BinaryRow.decodeColumn h content nullMask i field (p : Int) = .panic := by
  have hsf := sliceFrom_natCast content p
  rw [if_pos hp] at hsf
  have hstr := readLengthEncodedString_truncated hint hnum (by rw [List.length_drop]; omega)
  have hsl := slice_add_none content p (w + num) (by omega)
  rw [Nat.cast_add, ← add_assoc] at hsl
  obtain ⟨table, name, ft, flags, dec⟩ := field
  unfold BinaryRow.decodeColumn
  rw [hbit]
  cases ft <;> simp only [isLenEncString, Bool.false_eq_true] at hty <;>
    simp only [hsf, hstr, Nat.cast_add, ← add_assoc, hsl]

theorem BinaryRow.decodeColumn_int {h : Helpers} {content nullMask : List Byte} {i : Nat}
    {field : Field} {p w : Nat}
    (hbit : nullBit nullMask i = some false) (hw : intWidth field.fieldType = some w)
    (hlen : p + w ≤ content.length) :
    BinaryRow.decodeColumn h content nullMask i field (p : Int) =
      .ok (some
        { Typ := field.fieldType, Flags := field.flags, Len := w,
          Val := .int64 (if field.flags &&& mysql.UnsignedFlag ≠ 0
                   then ((leUint ((content.drop p).take w) : Nat) : Int)
                   else toSigned (8 * w) (leUint ((content.drop p).take w))),
          Raw := (content.drop p).take (intRawWidth w) },
        ((p + w : Nat) : Int)) := by
  obtain ⟨table, name, ft, flags, dec⟩ := field
  unfold BinaryRow.decodeColumn
  rw [hbit]
  cases ft <;> simp only [intWidth, Option.some.injEq, reduceCtorEq] at hw <;> subst hw
  · -- TINY
    obtain ⟨c, hc, hcs⟩ := getByte_take_one content p hlen
    have hsl := slice_add content p 1 hlen
    simp only [Nat.cast_one] at hsl
    simp only [hc, hsl, hcs, leUint, intRawWidth, Field.isUnsigned, Field.value, bne_iff_ne, ne_eq, ite_not,
      Nat.cast_add, Nat.cast_one]
    by_cases hu : flags &&& mysql.UnsignedFlag = 0 <;> simp [hu, hcs]
  · -- SHORT
    have hsl := slice_add content p 2 hlen
    have hsl1 := slice_add content p 1 (by omega)
    simp only [Nat.cast_one, Nat.cast_ofNat] at hsl hsl1
    simp only [hsl, hsl1, intRawWidth, Field.isUnsigned, Field.value, bne_iff_ne, ne_eq, ite_not, Nat.cast_add, Nat.cast_ofNat]
    by_cases hu : flags &&& mysql.UnsignedFlag = 0 <;> simp [hu]
  · -- LONG
    have hsl := slice_add content p 4 hlen
    simp only [Nat.cast_ofNat] at hsl
    simp only [hsl, intRawWidth, Field.isUnsigned, Field.value, bne_iff_ne, ne_eq, ite_not, Nat.cast_add, Nat.cast_ofNat]
    by_cases hu : flags &&& mysql.UnsignedFlag = 0 <;> simp [hu]
  · -- INT24
    have hsl := slice_add content p 4 hlen
    simp only [Nat.cast_ofNat] at hsl
    simp only [hsl, intRawWidth, Field.isUnsigned, Field.value, bne_iff_ne, ne_eq, ite_not, Nat.cast_add, Nat.cast_ofNat]
    by_cases hu : flags &&& mysql.UnsignedFlag = 0 <;> simp [hu]
  · -- YEAR
    have hsl := slice_add content p 2 hlen
    have hsl1 := slice_add content p 1 (by omega)
    simp only [Nat.cast_one, Nat.cast_ofNat] at hsl hsl1
    simp only [hsl, hsl1, intRawWidth, Field.isUnsigned, Field.value, bne_iff_ne, ne_eq, ite_not, Nat.cast_add, Nat.cast_ofNat]
    by_cases hu : flags &&& mysql.UnsignedFlag = 0 <;> simp [hu]

theorem intWidth_pos {t : FieldType} {w : Nat} (hw : intWidth t = some w) : 0 < w := by
  cases t <;> simp only [intWidth, Option.some.injEq, reduceCtorEq] at hw <;> omega

theorem BinaryRow.decodeColumn_longlong {h : Helpers} {content nullMask : List Byte} {i : Nat}
    {field : Field} {p : Nat}
    (hbit : nullBit nullMask i = some false) (hty : field.fieldType = .LongLong)
    (hlen : p + 8 ≤ content.length) :
    BinaryRow.decodeColumn h content nullMask i field (p : Int) =
      .ok (some
        { Typ := field.fieldType, Flags := field.flags, Len := 8,
          Val := if field.flags &&& mysql.UnsignedFlag ≠ 0 ∧
                    maxInt64 < leUint ((content.drop p).take 8)
                 then .str (uint64ToString (leUint ((content.drop p).take 8)))
                 else .int64 (toSigned 64 (leUint ((content.drop p).take 8))),
          Raw := (content.drop p).take 8 },
        ((p + 8 : Nat) : Int)) := by
  obtain ⟨table, name, ft, flags, dec⟩ := field
  simp only at hty
  subst hty
  unfold BinaryRow.decodeColumn
  rw [hbit]
  have hsl := slice_add content p 8 hlen
  simp only [Nat.cast_ofNat] at hsl
  simp only [hsl, Field.isUnsigned, Field.value, bne_iff_ne, ne_eq, ite_not, Nat.cast_add,
    Nat.cast_ofNat, gt_iff_lt]
  by_cases hu : flags &&& mysql.UnsignedFlag = 0
  · simp [hu]
  · by_cases hm : maxInt64 < leUint ((content.drop p).take 8) <;> simp [hu, hm]

theorem toSigned_of_lt_half (w v : Nat) (hv : v < 2 ^ (w - 1)) :
    toSigned w v = (v : Int) := by
  have hle : (2 : Nat) ^ (w - 1) ≤ 2 ^ w := Nat.pow_le_pow_right (by decide) (Nat.sub_le w 1)
  have hmod : v % 2 ^ w = v := Nat.mod_eq_of_lt (Nat.lt_of_lt_of_le hv hle)
  unfold toSigned
  rw [hmod, if_pos hv]

theorem dstlenOf_1f (base : Nat) : dstlenOf base 0x1f = some base := by
  simp [dstlenOf]

theorem dstlenOf_zero (base : Nat) : dstlenOf base 0x00 = some base := by
  simp [dstlenOf]

theorem BinaryRow.decodeColumn_decimals (h : Helpers) (content nullMask : List Byte) (i : Nat)
    (f : Field) (pos : Int) (hd : f.decimals = 0x1f) :
    BinaryRow.decodeColumn h content nullMask i { f with decimals := 0x00 } pos
      = BinaryRow.decodeColumn h content nullMask i f pos := by
  obtain ⟨table, name, ft, flags, dec⟩ := f
  simp only at hd
  subst hd
  unfold BinaryRow.decodeColumn
  cases ft <;>
    simp only [dstlenOf_1f, dstlenOf_zero, Field.value, Field.isUnsigned, finishTemporal,
      reduceCtorEq, ↓reduceIte]

theorem forall₂_getElem? {α β : Type} {R : α → β → Prop} {l : List α} {l1 : List β}
    (hrel : List.Forall₂ R l l1) :
    ∀ k : Nat, (l[k]? = none ∧ l1[k]? = none) ∨
      ∃ a b, l[k]? = some a ∧ l1[k]? = some b ∧ R a b := by
  induction hrel with
  | nil => intro k; left; simp
  | cons hab _ ih =>
    intro k
    cases k with
    | zero => right; exact ⟨_, _, by simp, by simp, hab⟩
    | succ k => simpa using ih k

theorem decodeLoop_congr {step step1 : Nat → Field → Int → Outcome (Option Value × Int)}
    {cols cols1 : List Field} (pos0 : Int)
    (hcols : ∀ k : Nat, (cols[k]? = none ∧ cols1[k]? = none) ∨
      ∃ a b, cols[k]? = some a ∧ cols1[k]? = some b ∧ ∀ p, step1 k b p = step k a p) :
    ∀ k, decodeLoop step1 cols1 pos0 k = decodeLoop step cols pos0 k := by
  intro k
  induction k with
  | zero => rfl
  | succ k ih =>
    rw [decodeLoop, decodeLoop, ih]
    cases decodeLoop step cols pos0 k with
    | error e => rfl
    | panic => rfl
    | ok s =>
      obtain ⟨d, p⟩ := s
      rcases hcols k with ⟨h1, h2⟩ | ⟨a, b, h1, h2, h3⟩
      · simp only [h1, h2]
      · simp only [h1, h2, h3]

/-! ## Decoding a wire-encoded value -/

theorem intWidth64_cases {t : FieldType} {w : Nat} (hw : intWidth64 t = some w) :
    intWidth t = some w ∨ (t = .LongLong ∧ w = 8) := by
  cases t <;> simp only [intWidth64, Option.some.injEq, reduceCtorEq] at hw <;>
    simp [intWidth, hw]

theorem intWidth64_pos {t : FieldType} {w : Nat} (hw : intWidth64 t = some w) : 0 < w := by
  cases t <;> simp only [intWidth64, Option.some.injEq, reduceCtorEq] at hw <;> omega

theorem toSigned_emod (W : Nat) (x : Int) (hW : 0 < W)
    (hlo : -((2 : Int) ^ (W - 1)) ≤ x) (hhi : x < (2 : Int) ^ (W - 1)) :
    toSigned W (x % (2 : Int) ^ W).toNat = x := by
  have hpow : (2 : Int) ^ W = 2 * (2 : Int) ^ (W - 1) := by
    obtain ⟨k, rfl⟩ : ∃ k, W = k + 1 := ⟨W - 1, by omega⟩
    rw [pow_succ]; simp [mul_comm]
  have hpos : (0 : Int) < (2 : Int) ^ (W - 1) := by positivity
  have hnat : ((2 ^ W : Nat) : Int) = (2 : Int) ^ W := by push_cast; rfl
  have hnat1 : ((2 ^ (W - 1) : Nat) : Int) = (2 : Int) ^ (W - 1) := by push_cast; rfl
  by_cases hx : 0 ≤ x
  · have he : x % (2 : Int) ^ W = x := Int.emod_eq_of_lt hx (by omega)
    have hv : ((x.toNat : Nat) : Int) = x := Int.toNat_of_nonneg hx
    have hvlt : x.toNat < 2 ^ (W - 1) := by
      have : ((x.toNat : Nat) : Int) < ((2 ^ (W - 1) : Nat) : Int) := by
        rw [hv, hnat1]; exact hhi
      exact_mod_cast this
    rw [he, toSigned_of_lt_half W _ hvlt, hv]
  · have he : x % (2 : Int) ^ W = x + (2 : Int) ^ W := by
      rw [← Int.add_emod_self]
      exact Int.emod_eq_of_lt (by omega) (by omega)
    have hv : (((x + (2 : Int) ^ W).toNat : Nat) : Int) = x + (2 : Int) ^ W :=
      Int.toNat_of_nonneg (by omega)
    have hvlt : (x + (2 : Int) ^ W).toNat < 2 ^ W := by
      have : (((x + (2 : Int) ^ W).toNat : Nat) : Int) < ((2 ^ W : Nat) : Int) := by
        rw [hv, hnat]; omega
      exact_mod_cast this
    have hge : ¬ (x + (2 : Int) ^ W).toNat < 2 ^ (W - 1) := by
      intro hc
      have : (((x + (2 : Int) ^ W).toNat : Nat) : Int) < ((2 ^ (W - 1) : Nat) : Int) := by
        exact_mod_cast hc
      rw [hv, hnat1] at this
      omega
    rw [he]
    unfold toSigned
    rw [Nat.mod_eq_of_lt hvlt, if_neg hge, hv, hnat]
    omega

theorem isUnsigned_iff (f : Field) : f.isUnsigned = true ↔ f.flags &&& mysql.UnsignedFlag ≠ 0 := by
  simp [Field.isUnsigned]

theorem take_of_drop_eq_append {content raw rest : List Byte} {p w : Nat}
    (hdrop : content.drop p = raw ++ rest) (hw : raw.length = w) :
    (content.drop p).take w = raw := by
  rw [hdrop]
  exact take_append_length raw rest w hw

/-- Decoding, at offset `p`, a column whose wire encoding `v.Raw` lies at `p`:
the decoded `Val` is `v.Val` and the position moves past `v.Raw`. -/
theorem BinaryRow.decodeColumn_encodes {h : Helpers} {content nullMask rest : List Byte}
    {i p : Nat} {f : Field} {v : Value}
    (hbit : nullBit nullMask i = some false) (henc : Encodes f v)
    (hdrop : content.drop p = v.Raw ++ rest) (hp : p ≤ content.length) :
    ∃ v1 : Value, BinaryRow.decodeColumn h content nullMask i f (p : Int)
        = .ok (some v1, ((p + v.Raw.length : Nat) : Int)) ∧ v1.Val = v.Val := by
  have hlen : p + v.Raw.length ≤ content.length := by
    have := congrArg List.length hdrop
    rw [List.length_drop, List.length_append] at this
    omega
  cases henc with
  | unsignedInt w x hw hu hx hmax hval hraw =>
    have hrl : v.Raw.length = w := by rw [hraw, leBytes_length]
    have hbytes := take_of_drop_eq_append hdrop hrl
    have hle : leUint v.Raw = x := by
      rw [hraw, leUint_leBytes]
      apply Nat.mod_eq_of_lt
      have : (256 : Nat) ^ w = 2 ^ (8 * w) := by rw [pow_mul]; rfl
      omega
    rw [hrl] at hlen ⊢
    rcases intWidth64_cases hw with hw1 | ⟨hty, hw8⟩
    · refine ⟨_, BinaryRow.decodeColumn_int hbit hw1 hlen, ?_⟩
      simp only [hbytes, hle, if_pos ((isUnsigned_iff f).mp hu), hval]
    · subst hw8
      refine ⟨_, BinaryRow.decodeColumn_longlong hbit hty hlen, ?_⟩
      have hnot : ¬ (f.flags &&& mysql.UnsignedFlag ≠ 0 ∧ maxInt64 < x) := by
        intro hc; omega
      simp only [hbytes, hle, if_neg hnot, hval]
      rw [toSigned_of_lt_half 64 x (by unfold maxInt64 at hmax; omega)]
  | unsignedBig x hty hu hmax hx hval hraw =>
    have hrl : v.Raw.length = 8 := by rw [hraw, leBytes_length]
    have hbytes := take_of_drop_eq_append hdrop hrl
    have hle : leUint v.Raw = x := by
      rw [hraw, leUint_leBytes]
      exact Nat.mod_eq_of_lt hx
    rw [hrl] at hlen ⊢
    refine ⟨_, BinaryRow.decodeColumn_longlong hbit hty hlen, ?_⟩
    have hyes : f.flags &&& mysql.UnsignedFlag ≠ 0 ∧ maxInt64 < x :=
      ⟨(isUnsigned_iff f).mp hu, hmax⟩
    simp only [hbytes, hle, if_pos hyes, hval]
    rfl
  | signedInt w x hw hu hlo hhi hval hraw =>
    have hrl : v.Raw.length = w := by rw [hraw, leBytes_length]
    have hbytes := take_of_drop_eq_append hdrop hrl
    have hwpos := intWidth64_pos hw
    have hnonneg : 0 ≤ x % (2 : Int) ^ (8 * w) := Int.emod_nonneg _ (by positivity)
    have hnatlt : (x % (2 : Int) ^ (8 * w)).toNat < 2 ^ (8 * w) := by
      have hlt : x % (2 : Int) ^ (8 * w) < (2 : Int) ^ (8 * w) :=
        Int.emod_lt_of_pos _ (by positivity)
      have : (((x % (2 : Int) ^ (8 * w)).toNat : Nat) : Int) < ((2 ^ (8 * w) : Nat) : Int) := by
        rw [Int.toNat_of_nonneg hnonneg]; push_cast; exact hlt
      exact_mod_cast this
    have hle : leUint v.Raw = (x % (2 : Int) ^ (8 * w)).toNat := by
      rw [hraw, leUint_leBytes]
      apply Nat.mod_eq_of_lt
      have : (256 : Nat) ^ w = 2 ^ (8 * w) := by rw [pow_mul]; rfl
      omega
    have hsig := toSigned_emod (8 * w) x (by omega) hlo hhi
    have hnu : ¬ f.flags &&& mysql.UnsignedFlag ≠ 0 := by
      intro hc
      rw [(isUnsigned_iff f).mpr hc] at hu
      cases hu
    rw [hrl] at hlen ⊢
    rcases intWidth64_cases hw with hw1 | ⟨hty, hw8⟩
    · refine ⟨_, BinaryRow.decodeColumn_int hbit hw1 hlen, ?_⟩
      simp only [hbytes, hle, if_neg hnu, hsig, hval]
    · subst hw8
      refine ⟨_, BinaryRow.decodeColumn_longlong hbit hty hlen, ?_⟩
      have hnot : ¬ (f.flags &&& mysql.UnsignedFlag ≠ 0 ∧
          maxInt64 < (x % (2 : Int) ^ (8 * 8)).toNat) := fun hc => hnu hc.1
      simp only [hbytes, hle, if_neg hnot, hval]
      rw [show (64 : Nat) = 8 * 8 from rfl, hsig]
  | string s hty hslen hval hraw =>
    have hd : content.drop p = lenEncInt s.length ++ (s ++ rest) := by
      rw [hdrop, hraw, lenEncString, List.append_assoc]
    have hint : readLengthEncodedInteger (content.drop p)
        = some (s.length, false, (lenEncInt s.length).length) := by
      rw [hd]; exact readLengthEncodedInteger_lenEncInt s.length _ hslen
    have hrl : v.Raw.length = (lenEncInt s.length).length + s.length := by
      rw [hraw, lenEncString, List.length_append]
    have hlen2 : p + (lenEncInt s.length).length + s.length ≤ content.length := by omega
    refine ⟨f.value ((lenEncInt s.length).length + s.length)
      (if false = true then GoVal.nil
        else GoVal.bytes ((content.drop (p + (lenEncInt s.length).length)).take s.length))
      ((content.drop p).take ((lenEncInt s.length).length + s.length)), ?_, ?_⟩
    · have := BinaryRow.decodeColumn_string (h := h) hbit hty hint hlen2
      rw [this, hrl]
      congr 3
      omega
    · have hpay : (content.drop (p + (lenEncInt s.length).length)).take s.length = s := by
        rw [← List.drop_drop, hd, List.drop_left]
        exact take_append_length s rest s.length rfl
      simp only [Field.value, Bool.false_eq_true, if_false, hpay, hval]

theorem BinaryRow.decodeColumn_fixed_not_null {h : Helpers} {content nullMask : List Byte}
    {i : Nat} {field : Field} {pos p1 : Int} {v : Option Value}
    (hbit : nullBit nullMask i = some false) (hty : isFixedWidth field.fieldType = true)
    (hcol : BinaryRow.decodeColumn h content nullMask i field pos = .ok (v, p1)) :
    ∃ val, v = some val ∧ val.Val ≠ .nil := by
  unfold BinaryRow.decodeColumn at hcol
  rw [hbit] at hcol
  obtain ⟨table, name, ft, flags, dec⟩ := field
  cases ft <;> simp only [isFixedWidth, Bool.false_eq_true] at hty <;> simp only at hcol
  all_goals (split at hcol)
  all_goals (try split at hcol)
  all_goals (try split at hcol)
  all_goals first
    | (simp only [Outcome.ok.injEq, Prod.mk.injEq] at hcol
       exact ⟨_, hcol.1.symm, by simp [Field.value]⟩)
    | cases hcol

theorem writeRaws_map_some (vals : List Value) :
    writeRaws (vals.map some) = some ((vals.map Value.Raw).flatten) := by
  induction vals with
  | nil => rfl
  | cons v vs ih => simp [writeRaws, ih]

theorem nullBit_replicate_zero (m i : Nat) (hi : (i + 2) / 8 < m) :
    nullBit (List.replicate m (0x00 : Byte)) i = some false := by
  rw [nullBit_eq, List.getElem?_replicate, if_pos hi]
  simp

/-- The loop of `BinaryRow.Decode` over a content that holds, from `pos0` on,
the wire encodings of `vals` one after the other. -/
theorem BinaryRow.decodeLoop_encodes {h : Helpers} {content nullMask : List Byte}
    {cols : List Field} {vals : List Value} {pos0 : Nat}
    (hbits : ∀ i, i < cols.length → nullBit nullMask i = some false)
    (henc : List.Forall₂ Encodes cols vals)
    (hcontent : content.drop pos0 = (vals.map Value.Raw).flatten)
    (hpos0 : pos0 ≤ content.length) :
    ∀ k, k ≤ cols.length → ∃ dk,
      decodeLoop (BinaryRow.decodeColumn h content nullMask) cols (pos0 : Int) k
        = .ok (dk, ((pos0 + ((vals.take k).map Value.Raw).flatten.length : Nat) : Int)) ∧
      dk.map (Option.map Value.Val) = (vals.take k).map (fun v => some v.Val) := by
  intro k
  induction k with
  | zero => intro _; exact ⟨[], by simp [decodeLoop], by simp⟩
  | succ k ih =>
    intro hk
    obtain ⟨dk, hloop, hvals⟩ := ih (Nat.le_of_succ_le hk)
    have hkc : k < cols.length := hk
    rcases forall₂_getElem? henc k with ⟨hnone, _⟩ | ⟨f, v, hf, hv, hfv⟩
    · rw [List.getElem?_eq_getElem hkc] at hnone; cases hnone
    · have hkv : k < vals.length := getElem?_some_lt hv
      have hvk : vals[k] = v := by
        rw [List.getElem?_eq_getElem hkv] at hv
        exact Option.some.inj hv
      have htotal : content.length = pos0 + (vals.map Value.Raw).flatten.length := by
        have := congrArg List.length hcontent
        rw [List.length_drop] at this
        omega
      have hsplit : (vals.map Value.Raw).flatten
          = ((vals.take k).map Value.Raw).flatten ++ ((vals.drop k).map Value.Raw).flatten := by
        rw [← List.flatten_append, ← List.map_append, List.take_append_drop]
      have hdropk : vals.drop k = v :: vals.drop (k + 1) := by
        rw [List.drop_eq_getElem_cons hkv, hvk]
      have hdrop : content.drop (pos0 + ((vals.take k).map Value.Raw).flatten.length)
          = v.Raw ++ ((vals.drop (k + 1)).map Value.Raw).flatten := by
        rw [← List.drop_drop, hcontent]
        conv_lhs => rw [hsplit]
        rw [List.drop_left, hdropk, List.map_cons, List.flatten_cons]
      have hple : pos0 + ((vals.take k).map Value.Raw).flatten.length ≤ content.length := by
        rw [htotal, hsplit, List.length_append]
        omega
      obtain ⟨v1, hstep, hv1⟩ :=
        BinaryRow.decodeColumn_encodes (h := h) (hbits k hkc) hfv hdrop hple
      have htake : vals.take (k + 1) = vals.take k ++ [v] := by
        rw [List.take_succ, hv]; rfl
      refine ⟨dk ++ [some v1], ?_, ?_⟩
      · have := decodeLoop_succ_of_step hloop hf hstep
        rw [this, htake, List.map_append, List.flatten_append, List.length_append]
        simp only [List.map_cons, List.map_nil, List.flatten_cons, List.flatten_nil,
          List.append_nil]
        congr 3
        omega
      · rw [List.map_append, hvals, htake, List.map_append]
        simp [hv1]

theorem TextRow.Decode_ok_state {h : Helpers} {rows : Row} {dest : List (Option Value)}
    (hd : TextRow.Decode h rows = .ok dest) :
    ∃ q, TextRow.stateAt h rows rows.ResultSet.Columns.length = .ok (dest, q) := by
  unfold TextRow.Decode at hd
  cases hs : TextRow.stateAt h rows rows.ResultSet.Columns.length with
  | error e => rw [hs] at hd; cases hd
  | panic => rw [hs] at hd; cases hd
  | ok s =>
    obtain ⟨d, q⟩ := s
    rw [hs] at hd
    simp only [Outcome.ok.injEq] at hd
    exact ⟨q, by rw [hd]⟩

theorem sliceFrom_some {b c : List Byte} {pos : Int} (h : sliceFrom b pos = some c) :
    ∃ p : Nat, pos = (p : Int) ∧ p ≤ b.length ∧ c = b.drop p := by
  unfold sliceFrom at h
  split at h
  · rename_i hc
    simp only [Option.some.injEq] at h
    refine ⟨pos.toNat, (Int.toNat_of_nonneg hc.1).symm, ?_, h.symm⟩
    have := hc.2
    omega
  · cases h

theorem TextRow.decodeColumn_ok {h : Helpers} {content : List Byte} {field : Field}
    {pos pos1 : Int} {v : Option Value}
    (hcol : TextRow.decodeColumn h content field pos = .ok (v, pos1)) :
    ∃ (p : Nat) (r : LenEncString) (val : Value),
      pos = (p : Int) ∧ p ≤ content.length ∧
      readLengthEncodedString (content.drop p) = some r ∧ r.err = none ∧
      pos1 = ((p + r.n : Nat) : Int) ∧ v = some val ∧
      val.Typ = field.fieldType ∧ val.Flags = field.flags ∧ val.Len = r.n ∧ val.Raw = r.val ∧
      (r.isNull = true → val.Val = .nil) ∧
      (r.isNull = false → isTextTemporal field.fieldType = false → val.Val = .bytes r.val) ∧
      (r.isNull = false → val.Val ≠ .nil) := by
  unfold TextRow.decodeColumn at hcol
  cases hsl : sliceFrom content pos with
  | none => rw [hsl] at hcol; cases hcol
  | some b =>
    rw [hsl] at hcol
    obtain ⟨p, hp, hple, hb⟩ := sliceFrom_some hsl
    subst hb
    simp only at hcol
    cases hr : readLengthEncodedString (content.drop p) with
    | none => rw [hr] at hcol; cases hcol
    | some r =>
      rw [hr] at hcol
      obtain ⟨rv, rnull, rn, rerr⟩ := r
      simp only at hcol
      have hpos : pos + (rn : Int) = ((p + rn : Nat) : Int) := by
        rw [hp]; push_cast; rfl
      rw [hpos] at hcol
      cases rerr with
      | some e => cases hcol
      | none =>
        simp only at hcol
        cases rnull with
        | true =>
          simp only [Bool.not_true, Bool.false_eq_true, if_false, Outcome.ok.injEq,
            Prod.mk.injEq] at hcol
          exact ⟨p, _, _, hp, hple, hr, rfl, hcol.2.symm, hcol.1.symm, rfl, rfl, rfl, rfl,
            fun _ => rfl, fun hh => (by cases hh), fun hh => (by cases hh)⟩
        | false =>
          simp only [Bool.not_false, if_true] at hcol
          obtain ⟨table, name, ft, flags, dec⟩ := field
          cases hpd : h.parseDateTime rv <;> cases ft <;> simp only [hpd] at hcol <;>
            first
            | (simp only [Outcome.ok.injEq, Prod.mk.injEq] at hcol
               exact ⟨p, _, _, hp, hple, hr, rfl, hcol.2.symm, hcol.1.symm, rfl, rfl, rfl, rfl,
                 fun hh => (by cases hh), fun _ _ => rfl, fun _ => (by simp)⟩)
            | (simp only [Outcome.ok.injEq, Prod.mk.injEq] at hcol
               exact ⟨p, _, _, hp, hple, hr, rfl, hcol.2.symm, hcol.1.symm, rfl, rfl, rfl, rfl,
                 fun hh => (by cases hh), fun _ hh => (by simp [isTextTemporal] at hh),
                 fun _ => (by simp)⟩)
            | cases hcol

theorem readLengthEncodedString_err {b : List Byte} {r : LenEncString} {e : GoError}
    (h : readLengthEncodedString b = some r) (he : r.err = some e) : e = .eof := by
  unfold readLengthEncodedString at h
  repeat' split at h
  all_goals first
    | contradiction
    | (simp only [Option.some.injEq] at h
       subst h
       simp only [Option.some.injEq] at he
       exact he.symm)
    | (simp only [Option.some.injEq] at h
       subst h
       contradiction)

/-- The errors one iteration of the binary loop can return. -/
theorem BinaryRow.decodeColumn_error {h : Helpers} {content nullMask : List Byte} {i : Nat}
    {field : Field} {pos : Int} {e : GoError}
    (hcol : BinaryRow.decodeColumn h content nullMask i field pos = .error e) :
    e = .eof ∨ e = .illegalDecimals field.decimals ∨ e = .unknownFieldType field.fieldType ∨
      ∃ msg, e = .helper msg := by
  unfold BinaryRow.decodeColumn at hcol
  repeat' (first | split at hcol | dsimp only at hcol)
  all_goals first
    | contradiction
    | (simp only [Outcome.error.injEq] at hcol
       subst hcol
       first
         | (left; exact readLengthEncodedString_err (by assumption) (by assumption))
         | (right; left; rfl)
         | (right; right; left; simp only [*]))
    | (unfold finishTemporal at hcol
       split at hcol
       · contradiction
       · simp only [Outcome.error.injEq] at hcol
         exact Or.inr (Or.inr (Or.inr ⟨_, hcol.symm⟩))
       · contradiction)

theorem decodeLoop_error {step : Nat → Field → Int → Outcome (Option Value × Int)}
    {cols : List Field} {pos0 : Int} {e : GoError} :
    ∀ {k : Nat}, decodeLoop step cols pos0 k = .error e →
      ∃ i f p, cols[i]? = some f ∧ step i f p = .error e := by
  intro k
  induction k with
  | zero => intro hk; simp [decodeLoop] at hk
  | succ k ih =>
    intro hk
    rw [decodeLoop] at hk
    cases hl : decodeLoop step cols pos0 k with
    | error e1 =>
      rw [hl] at hk
      simp only [Outcome.error.injEq] at hk
      subst hk
      exact ih hl
    | panic => rw [hl] at hk; cases hk
    | ok s =>
      obtain ⟨d, p⟩ := s
      rw [hl] at hk
      simp only at hk
      cases hc : cols[k]? with
      | none => rw [hc] at hk; cases hk
      | some f =>
        rw [hc] at hk
        simp only at hk
        cases hst : step k f p with
        | ok r => rw [hst] at hk; cases hk
        | panic => rw [hst] at hk; cases hk
        | error e1 =>
          rw [hst] at hk
          simp only [Outcome.error.injEq] at hk
          subst hk
          exact ⟨k, f, p, hc, hst⟩

/-! ## Fixed-width layout and error propagation -/

theorem consumedWidths_mono (content : List Byte) (cols : List Field) :
    ∀ {i j : Nat}, i ≤ j → consumedWidths content cols i ≤ consumedWidths content cols j := by
  intro i j hij
  induction hij with
  | refl => exact Nat.le_refl _
  | step _ ih => exact Nat.le_trans ih (Nat.le_add_right _ _)

theorem BinaryRow.decodeColumn_fixed_ok {h : Helpers} {content nullMask : List Byte} {i : Nat}
    {field : Field} {p w : Nat}
    (hbit : nullBit nullMask i = some false) (hw : fixedWidth field.fieldType = some w)
    (hlen : p + w ≤ content.length) :
    ∃ v : Value, BinaryRow.decodeColumn h content nullMask i field (p : Int)
      = .ok (some v, ((p + w : Nat) : Int)) := by
  by_cases hint : intWidth64 field.fieldType = some w
  · rcases intWidth64_cases hint with hw1 | ⟨hty, hw8⟩
    · exact ⟨_, BinaryRow.decodeColumn_int hbit hw1 hlen⟩
    · subst hw8
      exact ⟨_, BinaryRow.decodeColumn_longlong hbit hty hlen⟩
  · obtain ⟨table, name, ft, flags, dec⟩ := field
    cases ft <;> simp only [fixedWidth, Option.some.injEq, reduceCtorEq] at hw <;>
      simp only [intWidth64, hw, not_true_eq_false] at hint
    · -- FLOAT
      subst hw
      have hsl := slice_add content p 4 hlen
      simp only [Nat.cast_ofNat] at hsl
      unfold BinaryRow.decodeColumn
      rw [hbit]
      simp only [hsl, Nat.cast_add, Nat.cast_ofNat]
      exact ⟨_, rfl⟩
    · -- DOUBLE
      subst hw
      have hsl := slice_add content p 8 hlen
      simp only [Nat.cast_ofNat] at hsl
      unfold BinaryRow.decodeColumn
      rw [hbit]
      simp only [hsl, Nat.cast_add, Nat.cast_ofNat]
      exact ⟨_, rfl⟩

theorem BinaryRow.decodeColumn_fixed_pos {h : Helpers} {content nullMask : List Byte} {i : Nat}
    {field : Field} {pos p1 : Int} {w : Nat} {v : Option Value}
    (hbit : nullBit nullMask i = some false) (hw : fixedWidth field.fieldType = some w)
    (hcol : BinaryRow.decodeColumn h content nullMask i field pos = .ok (v, p1)) :
    p1 = pos + (w : Int) := by
  unfold BinaryRow.decodeColumn at hcol
  rw [hbit] at hcol
  obtain ⟨table, name, ft, flags, dec⟩ := field
  cases ft <;> simp only [fixedWidth, Option.some.injEq, reduceCtorEq] at hw <;>
    subst hw <;> simp only at hcol
  all_goals (split at hcol)
  all_goals (try split at hcol)
  all_goals (try split at hcol)
  all_goals first
    | (simp only [Outcome.ok.injEq, Prod.mk.injEq] at hcol
       rw [← hcol.2]
       rfl)
    | contradiction

/-- Once the body of the loop has returned an error for a column, every later
state of the loop is that error. -/
theorem decodeLoop_error_of_step {step : Nat → Field → Int → Outcome (Option Value × Int)}
    {cols : List Field} {pos0 : Int} {k : Nat} {d : List (Option Value)} {p : Int}
    {f : Field} {e : GoError}
    (hl : decodeLoop step cols pos0 k = .ok (d, p)) (hf : cols[k]? = some f)
    (hst : step k f p = .error e) :
    ∀ n, k < n → decodeLoop step cols pos0 n = .error e := by
  intro n hn
  induction n with
  | zero => omega
  | succ n ih =>
    rw [decodeLoop]
    rcases Nat.lt_or_ge k n with hlt | hge
    · rw [ih hlt]
    · have hkn : k = n := by omega
      subst hkn
      rw [hl]
      simp only [hf, hst]

theorem splitFirst_none {c : Char} {s : List Char} (h : c ∉ s) : splitFirst c s = none := by
  induction s with
  | nil => rfl
  | cons x xs ih =>
    have hx : x ≠ c := fun e => h (e ▸ List.mem_cons_self _ _)
    have hxs : c ∉ xs := fun m => h (List.mem_cons_of_mem _ m)
    simp only [splitFirst, if_neg hx, ih hxs]

theorem splitFirst_append {c : Char} {a : List Char} (b : List Char) (h : c ∉ a) :
    splitFirst c (a ++ c :: b) = some (a, b) := by
  induction a with
  | nil => simp only [List.nil_append, splitFirst, if_pos]
  | cons x xs ih =>
    have hx : x ≠ c := fun e => h (e ▸ List.mem_cons_self _ _)
    have hxs : c ∉ xs := fun m => h (List.mem_cons_of_mem _ m)
    show splitFirst c (x :: (xs ++ c :: b)) = some (x :: xs, b)
    simp only [splitFirst, if_neg hx, ih hxs]

theorem splitLast_none {c : Char} {s : List Char} (h : c ∉ s) : splitLast c s = none := by
  have h2 : c ∉ s.reverse := fun m => h (List.mem_reverse.1 m)
  simp only [splitLast, splitFirst_none h2]

theorem splitLast_append {c : Char} (a : List Char) {b : List Char} (h : c ∉ b) :
    splitLast c (a ++ c :: b) = some (a, b) := by
  have h2 : c ∉ b.reverse := fun m => h (List.mem_reverse.1 m)
  have hr : (a ++ c :: b).reverse = b.reverse ++ c :: a.reverse := by
    simp only [List.reverse_append, List.reverse_cons, List.append_assoc, List.singleton_append]
  simp only [splitLast, hr, splitFirst_append _ h2, List.reverse_reverse]

theorem parseNetloc_bare {net : List Char} (h : '(' ∉ net) :
    parseNetloc net = some (net, none) := by
  simp only [parseNetloc, splitFirst_none h]

theorem parseNetloc_addr {net : List Char} (addr : List Char) (h : '(' ∉ net) :
    parseNetloc (net ++ '(' :: (addr ++ [')']))
      = some (net, if addr = [] then none else some addr) := by
  have hl : (addr ++ [')']).getLast? = some ')' := by
    simp only [List.getLast?_append, List.getLast?_singleton]
    rfl
  simp only [parseNetloc, splitFirst_append _ h, hl, if_true, List.dropLast_concat]

theorem parseDSNChars_parts (user passwd netloc dbname : List Char) (hu : ':' ∉ user)
    (hn : '@' ∉ netloc) (hd1 : '/' ∉ dbname) (hd2 : '?' ∉ dbname) :
    parseDSNChars (user ++ ':' :: (passwd ++ '@' :: (netloc ++ '/' :: dbname)))
      = match parseNetloc netloc with
        | none => .error .unterminatedAddr
        | some (net, addr) =>
          match normalizeAddr net addr with
          | none => .error (.unknownNet (String.mk net))
          | some a =>
            .ok { User := String.mk user, Passwd := String.mk passwd, Net := String.mk net,
                  Addr := String.mk a, DBName := String.mk dbname, Params := [] } := by
  have e1 : user ++ ':' :: (passwd ++ '@' :: (netloc ++ '/' :: dbname))
      = (user ++ ':' :: passwd ++ '@' :: netloc) ++ '/' :: dbname := by
    simp only [List.append_assoc, List.cons_append]
  have e2 : user ++ ':' :: passwd ++ '@' :: netloc = (user ++ ':' :: passwd) ++ '@' :: netloc := rfl
  unfold parseDSNChars
  rw [e1, splitLast_append _ hd1]
  simp only [e2, splitLast_append _ hn, splitFirst_append _ hu, splitFirst_none hd2]

theorem ParseDSN_mk (l : List Char) : ParseDSN (String.mk l) = parseDSNChars l := rfl

theorem parseInitialHandshakePacket_test_vectors :
    (parseInitialHandshakePacket [ProtocolVersion - 1, 0x90, 0x01, 65]
        = .error (.unsupportedProtocol 9)) ∧
      parseInitialHandshakePacket (exHandshake 2) = .error .noServerVersion ∧
      parseInitialHandshakePacket (exHandshake 6) = .error .noConnectionId ∧
      parseInitialHandshakePacket (exHandshake 14) = .error .noAuthPart1 ∧
      parseInitialHandshakePacket (exHandshake 15) = .error .noFiller ∧
      parseInitialHandshakePacket (exHandshake 16) = .error .noCapabilityLower ∧
      parseInitialHandshakePacket (exHandshake 18)
        = .ok { capabilities := 0, authData := List.replicate 8 0, authName := [] } ∧
      parseInitialHandshakePacket (exHandshake 19) = .error .noStatusFlags ∧
      parseInitialHandshakePacket (exHandshake 21) = .error .noCapabilityUpper ∧
      parseInitialHandshakePacket (exHandshake 23) = .error .noAuthDataLengthFiller ∧
      parseInitialHandshakePacket (exHandshake 24)
        = .ok { capabilities := 0, authData := List.replicate 8 0,
                authName := MysqlNativePassword } ∧
      exHandshakeFull.length = 37 ∧
      parseInitialHandshakePacket exHandshakeFull
        = .ok { capabilities := 0xffff00, authData := List.replicate 8 0, authName := [65] } := by
  decide

theorem addToGroup_lengths (sh : Nat) (r : InsertRow) (acc : List (Nat × List InsertRow)) :
    ((addToGroup sh r acc).map (fun sg => sg.2.length)).sum
      = (acc.map (fun sg => sg.2.length)).sum + 1 := by
  induction acc with
  | nil => simp [addToGroup]
  | cons a rest ih =>
    obtain ⟨s, g⟩ := a
    unfold addToGroup
    split
    · simp only [List.map_cons, List.sum_cons, List.length_append, List.length_singleton]
      omega
    · simp only [List.map_cons, List.sum_cons, ih]
      omega

theorem groupByShard_lengths (alg : InsertRow → Nat) (rows : List InsertRow) :
    ∀ acc : List (Nat × List InsertRow),
      ((groupByShard alg rows acc).map (fun sg => sg.2.length)).sum
        = (acc.map (fun sg => sg.2.length)).sum + rows.length := by
  induction rows with
  | nil => intro acc; simp [groupByShard]
  | cons r rest ih =>
    intro acc
    have h := ih (addToGroup (alg r) r acc)
    simp only [groupByShard, List.foldl_cons, List.length_cons] at h ⊢
    rw [h, addToGroup_lengths]
    omega

theorem addToGroup_shards (alg : InsertRow → Nat) (r : InsertRow)
    (acc : List (Nat × List InsertRow))
    (hacc : ∀ sg, sg ∈ acc → ∀ x, x ∈ sg.2 → alg x = sg.1) :
    ∀ sg, sg ∈ addToGroup (alg r) r acc → ∀ x, x ∈ sg.2 → alg x = sg.1 := by
  induction acc with
  | nil =>
    intro sg hsg x hx
    simp only [addToGroup, List.mem_singleton] at hsg
    subst hsg
    simp only [List.mem_singleton] at hx
    subst hx
    rfl
  | cons a rest ih =>
    obtain ⟨s, g⟩ := a
    intro sg hsg x hx
    unfold addToGroup at hsg
    split at hsg
    · next hs =>
      rcases List.mem_cons.1 hsg with h1 | h1
      · subst h1
        rcases List.mem_append.1 hx with h2 | h2
        · exact hacc (s, g) (List.mem_cons_self _ _) x h2
        · simp only [List.mem_singleton] at h2
          subst h2
          exact hs.symm
      · exact hacc sg (List.mem_cons_of_mem _ h1) x hx
    · rcases List.mem_cons.1 hsg with h1 | h1
      · subst h1
        exact hacc (s, g) (List.mem_cons_self _ _) x hx
      · exact ih (fun sg2 h2 => hacc sg2 (List.mem_cons_of_mem _ h2)) sg h1 x hx

theorem groupByShard_shards (alg : InsertRow → Nat) (rows : List InsertRow) :
    ∀ acc : List (Nat × List InsertRow),
      (∀ sg, sg ∈ acc → ∀ x, x ∈ sg.2 → alg x = sg.1) →
      ∀ sg, sg ∈ groupByShard alg rows acc → ∀ x, x ∈ sg.2 → alg x = sg.1 := by
  induction rows with
  | nil => intro acc hacc; simpa [groupByShard] using hacc
  | cons r rest ih =>
    intro acc hacc
    have h := ih (addToGroup (alg r) r acc) (addToGroup_shards alg r acc hacc)
    simpa only [groupByShard, List.foldl_cons] using h

/-- For the integer types of width 1, 4 and 8 the decoder stores in `Raw` the
bytes it consumes, and their number is `Len`. -/
theorem BinaryRow.decodeColumn_raw_is_consumed_range {h : Helpers}
    {content nullMask : List Byte} {i : Nat} {field : Field} {p w : Nat}
    (hbit : nullBit nullMask i = some false) (hw : intWidth64 field.fieldType = some w)
    (hw2 : w ≠ 2) (hlen : p + w ≤ content.length) :
    ∃ v : Value, BinaryRow.decodeColumn h content nullMask i field (p : Int)
        = .ok (some v, ((p + w : Nat) : Int)) ∧
      v.Raw = (content.drop p).take w ∧ v.Raw.length = w ∧ v.Len = w := by
  have hl : ((content.drop p).take w).length = w := by
    rw [List.length_take, List.length_drop]; omega
  rcases intWidth64_cases hw with hw1 | ⟨hty, hw8⟩
  · refine ⟨_, BinaryRow.decodeColumn_int hbit hw1 hlen, ?_, ?_, rfl⟩
    · simp [intRawWidth, hw2]
    · simp only [intRawWidth, if_neg hw2]; exact hl
  · subst hw8
    exact ⟨_, BinaryRow.decodeColumn_longlong hbit hty hlen, rfl, hl, rfl⟩

theorem BinaryRow.decodeColumn_unknown {h : Helpers} {content nullMask : List Byte} {i : Nat}
    {field : Field} {pos : Int} {c : Nat} (hbit : nullBit nullMask i = some false)
    (ht : field.fieldType = .unknown c) :
    BinaryRow.decodeColumn h content nullMask i field pos
      = .error (.unknownFieldType (.unknown c)) := by
  unfold BinaryRow.decodeColumn
  simp only [hbit, ht]

theorem string_length_pos_iff (s : String) : s.length > 0 ↔ s ≠ "" := by
  obtain ⟨l⟩ := s
  cases l with
  | nil => simp [String.length]
  | cons c cs =>
    simp only [String.length, List.length_cons, gt_iff_lt, Nat.zero_lt_succ, ne_eq, true_iff]
    intro hh
    have h2 : (c :: cs).length = 0 := congrArg String.length hh
    exact absurd h2 (Nat.succ_ne_zero _)

theorem HeapRow.Columns_names (content : Option (List Byte)) (cols : List Field) :
    (if content != none then
        cols.map (fun field =>
          if field.table.length > 0 then field.table ++ "." ++ field.name else field.name)
      else cols.map (fun field => field.name))
      = cols.map (specColumnName content) := by
  cases content with
  | none =>
    simp only [bne_self_eq_false, Bool.false_eq_true, if_false]
    apply List.map_congr_left
    intro f _
    simp [specColumnName]
  | some b =>
    have hb : (some b != none) = true := by simp
    simp only [hb, if_true]
    apply List.map_congr_left
    intro f _
    by_cases ht : f.table = ""
    · have hl : ¬ f.table.length > 0 := fun hp => (string_length_pos_iff _).1 hp ht
      simp [specColumnName, ht, hl]
    · have hl : f.table.length > 0 := (string_length_pos_iff _).2 ht
      simp [specColumnName, ht, hl]

theorem writeRaws_some (vals : List Value) :
    writeRaws (vals.map some) = some (vals.map (fun v => v.Raw)).flatten := by
  induction vals with
  | nil => rfl
  | cons v vs ih => simp only [List.map_cons, writeRaws, ih, List.flatten_cons]

theorem dropWhile_append_of_all {p : Char → Bool} {pre : List Char} (l : List Char)
    (h : ∀ c ∈ pre, p c = true) : (pre ++ l).dropWhile p = l.dropWhile p := by
  induction pre with
  | nil => rfl
  | cons x xs ih =>
    have hx : p x = true := h x (List.mem_cons_self _ _)
    simp only [List.cons_append, List.dropWhile_cons, hx, if_true]
    exact ih (fun c hc => h c (List.mem_cons_of_mem _ hc))

theorem dropWhile_of_head {p : Char → Bool} {l : List Char}
    (h : l.head?.map p ≠ some true) : l.dropWhile p = l := by
  cases l with
  | nil => rfl
  | cons x xs =>
    have hx : p x = false := by
      cases hp : p x with
      | false => rfl
      | true => exact absurd (by simp only [List.head?_cons, Option.map_some', hp]) h
    simp only [List.dropWhile_cons, hx, Bool.false_eq_true, if_false]

theorem strings.TrimSpace_surrounded {pre mid post : List Char}
    (hpre : ∀ c ∈ pre, unicode.IsSpace c = true) (hpost : ∀ c ∈ post, unicode.IsSpace c = true)
    (hne : mid ≠ []) (hhead : mid.head?.map unicode.IsSpace ≠ some true)
    (hlast : mid.getLast?.map unicode.IsSpace ≠ some true) :
    strings.TrimSpace (pre ++ mid ++ post) = mid := by
  have h1 : (pre ++ mid ++ post).dropWhile unicode.IsSpace = mid ++ post := by
    rw [List.append_assoc, dropWhile_append_of_all _ hpre]
    apply dropWhile_of_head
    cases mid with
    | nil => exact absurd rfl hne
    | cons x xs => exact hhead
  have hpr : ∀ c ∈ post.reverse, unicode.IsSpace c = true :=
    fun c hc => hpost c (List.mem_reverse.1 hc)
  have h2 : mid.reverse.head?.map unicode.IsSpace ≠ some true := by
    rw [List.head?_reverse]
    exact hlast
  unfold strings.TrimSpace
  rw [h1, List.reverse_append, dropWhile_append_of_all _ hpr, dropWhile_of_head h2,
    List.reverse_reverse]

theorem strings.Split_not_mem {c : Char} {a : List Char} (h : c ∉ a) :
    strings.Split a c = [a] := by
  induction a with
  | nil => rfl
  | cons x xs ih =>
    have hx : x ≠ c := fun e => h (e ▸ List.mem_cons_self _ _)
    have hxs : c ∉ xs := fun m => h (List.mem_cons_of_mem _ m)
    simp only [strings.Split, if_neg hx, ih hxs]

theorem strings.Split_append {c : Char} {a : List Char} (b : List Char) (h : c ∉ a) :
    strings.Split (a ++ c :: b) c = a :: strings.Split b c := by
  induction a with
  | nil => simp only [List.nil_append, strings.Split, if_true]
  | cons x xs ih =>
    have hx : x ≠ c := fun e => h (e ▸ List.mem_cons_self _ _)
    have hxs : c ∉ xs := fun m => h (List.mem_cons_of_mem _ m)
    show strings.Split (x :: (xs ++ c :: b)) c = (x :: xs) :: strings.Split b c
    simp only [strings.Split, if_neg hx, ih hxs]

theorem strings.Split_commaSeparated (texts : List (List Char)) (hne : texts ≠ [])
    (h : ∀ t ∈ texts, ',' ∉ t) : strings.Split (commaSeparated texts) ',' = texts := by
  induction texts with
  | nil => exact absurd rfl hne
  | cons t ts ih =>
    cases ts with
    | nil =>
      simp only [commaSeparated]
      exact strings.Split_not_mem (h t (List.mem_cons_self _ _))
    | cons t2 ts2 =>
      show strings.Split (t ++ ',' :: commaSeparated (t2 :: ts2)) ',' = t :: t2 :: ts2
      rw [strings.Split_append _ (h t (List.mem_cons_self _ _))]
      rw [ih (List.cons_ne_nil _ _) (fun u hu => h u (List.mem_cons_of_mem _ hu))]

theorem decimalValueFrom_le (ds : List Char) : ∀ n, n ≤ decimalValueFrom n ds := by
  induction ds with
  | nil => intro n; exact Nat.le_refl _
  | cons c cs ih =>
    intro n
    have h := ih (n * 10 + (c.toNat - 48))
    simp only [decimalValueFrom, List.foldl_cons] at h ⊢
    omega

theorem strconv.ParseUint.loop_digits (ds rest : List Char)
    (hd : ∀ c ∈ ds, strconv.isDigit c = true) :
    ∀ n, decimalValueFrom n ds < 2 ^ 64 →
      strconv.ParseUint.loop (ds ++ rest) n
        = strconv.ParseUint.loop rest (decimalValueFrom n ds) := by
  induction ds with
  | nil => intro n _; rfl
  | cons c cs ih =>
    intro n hn
    have hc : strconv.isDigit c = true := hd c (List.mem_cons_self _ _)
    have hcs : ∀ x ∈ cs, strconv.isDigit x = true :=
      fun x hx => hd x (List.mem_cons_of_mem _ hx)
    have hstep : decimalValueFrom n (c :: cs) = decimalValueFrom (n * 10 + (c.toNat - 48)) cs :=
      rfl
    rw [hstep] at hn ⊢
    have hle := decimalValueFrom_le cs (n * 10 + (c.toNat - 48))
    have h1 : ¬ (n ≥ strconv.maxUint64 / 10 + 1) := by
      simp only [strconv.maxUint64]
      omega
    have h2 : ¬ (n * 10 + (c.toNat - 48) > strconv.maxUint64) := by
      simp only [strconv.maxUint64]
      omega
    show strconv.ParseUint.loop (c :: (cs ++ rest)) n = _
    simp only [strconv.ParseUint.loop, hc, if_true, if_neg h1, if_neg h2]
    exact ih hcs _ hn

theorem strconv.ParseInt_decimal {s : List Char} (hs : isDecimal s)
    (hv : decimalValue s < 2 ^ 63) :
    strconv.ParseInt s = ((decimalValue s : Int), none) := by
  obtain ⟨hne, hd⟩ := hs
  have hloop : strconv.ParseUint.loop s 0 = (decimalValue s, none) := by
    have h := strconv.ParseUint.loop_digits s [] hd 0 (by unfold decimalValue at hv; omega)
    rw [List.append_nil] at h
    rw [h]
    rfl
  have hpu : strconv.ParseUint s = (decimalValue s, none) := by
    simp only [strconv.ParseUint, if_neg hne, hloop]
  cases s with
  | nil => exact absurd rfl hne
  | cons c cs =>
    have hc : strconv.isDigit c = true := hd c (List.mem_cons_self _ _)
    have hplus : c ≠ '+' := by
      intro e; rw [e] at hc; exact absurd hc (by decide)
    have hminus : c ≠ '-' := by
      intro e; rw [e] at hc; exact absurd hc (by decide)
    have hlt : ¬ (decimalValue (c :: cs) ≥ 2 ^ 63) := by omega
    simp only [strconv.ParseInt, if_neg hplus, if_neg hminus, hpu, strconv.ParseInt.finish,
      Bool.not_false, Bool.true_and, decide_eq_true_eq, hlt, if_false, Bool.false_and,
      Bool.false_eq_true]

theorem strconv.ParseUint_rejects {s : List Char}
    (hs : s = [] ∨ (s.takeWhile strconv.isDigit ≠ s ∧
      decimalValue (s.takeWhile strconv.isDigit) < 2 ^ 64)) :
    strconv.ParseUint s = (0, some .ErrSyntax) := by
  rcases hs with h | ⟨h1, h2⟩
  · simp only [strconv.ParseUint, h, if_true]
  · have hne : s ≠ [] := by
      intro e; rw [e] at h1; exact h1 rfl
    have hsplit : s = s.takeWhile strconv.isDigit ++ s.dropWhile strconv.isDigit :=
      (List.takeWhile_append_dropWhile _ _).symm
    have hd : ∀ c ∈ s.takeWhile strconv.isDigit, strconv.isDigit c = true :=
      fun c hc => List.mem_takeWhile_imp hc
    cases hdw : s.dropWhile strconv.isDigit with
    | nil =>
      rw [hdw, List.append_nil] at hsplit
      exact absurd hsplit.symm h1
    | cons x xs =>
      have hx : strconv.isDigit x = false := by
        have h3 := List.head_dropWhile_not strconv.isDigit s (by rw [hdw]; exact List.cons_ne_nil _ _)
        simp only [hdw, List.head_cons] at h3
        exact h3
      have hl := strconv.ParseUint.loop_digits (s.takeWhile strconv.isDigit) (x :: xs) hd 0
        (by unfold decimalValue at h2; exact h2)
      rw [← hdw, ← hsplit] at hl
      simp only [strconv.ParseUint, if_neg hne, hl, hdw, strconv.ParseUint.loop, hx,
        Bool.false_eq_true, if_false]

theorem strconv.ParseInt_not_integer {s : List Char} (hs : notDecimalInteger s) :
    (strconv.ParseInt s).1 = 0 := by
  cases s with
  | nil => rfl
  | cons c cs =>
    unfold notDecimalInteger at hs
    by_cases hp : c = '+'
    · have e : stripSign (c :: cs) = cs := by simp only [stripSign, hp, true_or, if_true]
      rw [e] at hs
      simp only [strconv.ParseInt, hp, if_true, strconv.ParseUint_rejects hs,
        strconv.ParseInt.finish]
    · by_cases hm : c = '-'
      · have e : stripSign (c :: cs) = cs := by simp only [stripSign, hm, or_true, if_true]
        rw [e] at hs
        have hpm : ¬ ('-' = '+') := by decide
        simp only [strconv.ParseInt, hm, hpm, if_false, if_true, strconv.ParseUint_rejects hs,
          strconv.ParseInt.finish]
      · have e : stripSign (c :: cs) = c :: cs := by
          simp only [stripSign, hp, hm, or_self, if_false]
        rw [e] at hs
        simp only [strconv.ParseInt, if_neg hp, if_neg hm, strconv.ParseUint_rejects hs,
          strconv.ParseInt.finish]

theorem Endpoint.trim_split {e : Endpoint} (h : e.wellFormed) :
    strings.Split (strings.TrimSpace e.text) ':' = [e.ip, e.port] := by
  obtain ⟨hpre, hpost, -, hip, -, hport, hhead, hlast⟩ := h
  have hne : e.ip ++ ':' :: e.port ≠ [] := by
    cases e.ip with
    | nil => exact List.cons_ne_nil _ _
    | cons x xs => exact List.cons_ne_nil _ _
  have hh : (e.ip ++ ':' :: e.port).head?.map unicode.IsSpace ≠ some true := by
    cases hi : e.ip with
    | nil =>
      simp only [List.nil_append, List.head?_cons, Option.map_some']
      decide
    | cons x xs =>
      rw [hi] at hhead
      exact hhead
  have hl : (e.ip ++ ':' :: e.port).getLast?.map unicode.IsSpace ≠ some true := by
    cases hpo : e.port.getLast? with
    | none =>
      have hnil : e.port = [] := List.getLast?_eq_none_iff.1 hpo
      have e1 : (e.ip ++ [':']).getLast? = some ':' := List.getLast?_concat _
      rw [hnil, e1]
      decide
    | some y =>
      have e2 : (e.ip ++ ':' :: e.port).getLast? = some y := by
        rw [List.getLast?_append, List.getLast?_cons, hpo]
        rfl
      rw [e2, ← hpo]
      exact hlast
  unfold Endpoint.text
  rw [strings.TrimSpace_surrounded hpre hpost hne hh hl, strings.Split_append _ hip,
    strings.Split_not_mem hport]

theorem Endpoint.text_no_comma {e : Endpoint} (h : e.wellFormed) : ',' ∉ e.text := by
  obtain ⟨hpre, hpost, hip, -, hport, -, -, -⟩ := h
  unfold Endpoint.text
  intro hm
  rcases List.mem_append.1 hm with h1 | h1
  · rcases List.mem_append.1 h1 with h2 | h2
    · exact absurd (hpre _ h2) (by decide)
    · rcases List.mem_append.1 h2 with h3 | h3
      · exact hip h3
      · rcases List.mem_cons.1 h3 with h4 | h4
        · exact absurd h4 (by decide)
        · exact hport h4
  · exact absurd (hpost _ h1) (by decide)

theorem parseServerConfig.loop_endpoints (scheme contextPath : String) (entries : List Endpoint)
    (h : ∀ e ∈ entries, e.wellFormed) :
    parseServerConfig.loop scheme contextPath (entries.map Endpoint.text)
      = some (entries.map (fun e =>
          { Scheme := scheme, ContextPath := contextPath, IpAddr := String.mk e.ip,
            Port := Int.toNat ((strconv.ParseInt e.port).1 % 2 ^ 64) })) := by
  induction entries with
  | nil => rfl
  | cons e es ih =>
    have he := Endpoint.trim_split (h e (List.mem_cons_self _ _))
    have hes := ih (fun x hx => h x (List.mem_cons_of_mem _ hx))
    simp only [List.map_cons, parseServerConfig.loop, he, hes]

theorem sliceCap_nil (b : List Byte) (lo hi : Int) : sliceCap b [] lo hi = slice b lo hi := by
  simp only [sliceCap, slice, List.length_nil, Nat.add_zero, List.append_nil]

theorem readLengthEncodedStringCap_nil (b : List Byte) :
    readLengthEncodedStringCap b [] = readLengthEncodedString b := by
  unfold readLengthEncodedStringCap readLengthEncodedString
  cases readLengthEncodedInteger b with
  | none => rfl
  | some t =>
    obtain ⟨num, isNull, n⟩ := t
    by_cases hnum : num < 1
    · simp only [hnum, if_true, sliceCap_nil]
    · simp only [hnum, if_false]

theorem TextRow.iteration_text_nil (h : Helpers) (content : List Byte) (field : Field) (pos : Int) :
    TextRow.iteration h content [] field pos
      = (TextRow.decodeColumn h content field pos).toIteration := by
  unfold TextRow.iteration TextRow.decodeColumn
  simp only [readLengthEncodedStringCap_nil]
  repeat' split
  all_goals first
    | rfl
    | simp_all [Outcome.toIteration, Field.value]

theorem finishTemporalRet_eq (r : HelperResult) (field : Field) (n : Nat) (raw : List Byte)
    (pos : Int) (num : Nat) :
    finishTemporalRet r field n raw pos num
      = (finishTemporal r field n raw pos num).toIteration := by
  cases r <;> rfl

theorem BinaryRow.iteration_nil (h : Helpers) (content nullMask : List Byte) (i : Nat)
    (field : Field) (pos : Int) :
    BinaryRow.iteration h content [] nullMask i field pos
      = (BinaryRow.decodeColumn h content nullMask i field pos).toIteration := by
  unfold BinaryRow.iteration BinaryRow.decodeColumn
  simp only [readLengthEncodedStringCap_nil, sliceCap_nil, finishTemporalRet_eq]
  cases nullBit nullMask i with
  | none => rfl
  | some bit =>
    cases bit with
    | true => rfl
    | false =>
      obtain ⟨table, name, ft, flags, dec⟩ := field
      cases ft <;> dsimp only
      all_goals
        repeat' (first | rfl | (split <;> try simp only [*, Outcome.toIteration]))
      all_goals (exfalso; exact (by assumption : ¬ True) trivial)

theorem iterate_toOutcome (step : Nat → Field → Int → Iteration) (cols : List Field)
    (pos0 : Int) (k : Nat) :
    (iterate step cols pos0 k).toOutcome
      = decodeLoop (fun i f p => (step i f p).toOutcome) cols pos0 k := by
  induction k with
  | zero => rfl
  | succ k ih =>
    rw [iterate, decodeLoop, ← ih]
    cases iterate step cols pos0 k with
    | running dest pos =>
      simp only [LoopState.toOutcome]
      cases cols[k]? with
      | none => rfl
      | some f =>
        simp only
        cases step k f pos <;> rfl
    | returned r => rfl
    | panic => rfl

theorem LoopState.toOutcome_ok {s : LoopState} {d : List (Option Value)} {p : Int} :
    s.toOutcome = .ok (d, p) ↔ s = .running d p := by
  cases s <;> simp [LoopState.toOutcome]

theorem Iteration.toOutcome_next_iff {s : Iteration} {v : Option Value} {p : Int} :
    s.toOutcome = .ok (v, p) ↔ s = .next v p := by
  cases s <;> simp [Iteration.toOutcome]

theorem iterate_running_iff {step : Nat → Field → Int → Iteration} {cols : List Field}
    {pos0 : Int} {k : Nat} {d : List (Option Value)} {p : Int} :
    iterate step cols pos0 k = .running d p
      ↔ decodeLoop (fun i f q => (step i f q).toOutcome) cols pos0 k = .ok (d, p) := by
  rw [← iterate_toOutcome, LoopState.toOutcome_ok]

theorem iterate_of_decodeLoop (step : Nat → Field → Int → Outcome (Option Value × Int))
    (cols : List Field) (pos0 : Int) (k : Nat) :
    iterate (fun i f p => (step i f p).toIteration) cols pos0 k
      = (decodeLoop step cols pos0 k).toLoopState := by
  induction k with
  | zero => rfl
  | succ k ih =>
    rw [iterate, decodeLoop, ih]
    cases decodeLoop step cols pos0 k with
    | ok s =>
      obtain ⟨dest, pos⟩ := s
      simp only [Outcome.toLoopState]
      cases cols[k]? with
      | none => rfl
      | some f =>
        simp only
        cases step k f pos with
        | ok t => obtain ⟨v, p1⟩ := t; rfl
        | error e => rfl
        | panic => rfl
    | error e => rfl
    | panic => rfl

theorem TextRow.stateAtCap_text_nil (h : Helpers) (rows : Row) (k : Nat) :
    TextRow.stateAtCap h rows [] k = (TextRow.stateAt h rows k).toLoopState := by
  unfold TextRow.stateAtCap TextRow.stateAt
  simp only [TextRow.iteration_text_nil]
  exact iterate_of_decodeLoop _ _ _ _

theorem BinaryRow.stateAtCap_nil (h : Helpers) (rows : Row) (k : Nat) :
    BinaryRow.stateAtCap h rows [] k = (BinaryRow.stateAt h rows k).toLoopState := by
  unfold BinaryRow.stateAtCap BinaryRow.stateAt BinaryRow.loop
  simp only [sliceCap_nil]
  cases getByte rows.bytes 0 with
  | none => rfl
  | some b0 =>
    simp only
    by_cases hb : b0 ≠ mysql.OKPacket
    · simp only [if_pos hb]
      rfl
    · simp only [if_neg hb]
      cases slice rows.bytes 1
          ((1 + (rows.ResultSet.Columns.length + 7 + 2) >>> 3 : Nat) : Int) with
      | none => rfl
      | some nullMask =>
        simp only
        have hfun : BinaryRow.iteration h rows.bytes [] nullMask
            = fun i f p => (BinaryRow.decodeColumn h rows.bytes nullMask i f p).toIteration := by
          funext i f p
          exact BinaryRow.iteration_nil h rows.bytes nullMask i f p
        rw [hfun]
        exact iterate_of_decodeLoop _ _ _ _

/-- Without spare capacity the decoder with its `return` statements returns
what the outcome of `TextRow.Decode` stands for. -/
theorem TextRow.DecodeCap_text_nil (h : Helpers) (rows : Row) :
    TextRow.DecodeCap h rows [] = (TextRow.Decode h rows).returned := by
  unfold TextRow.DecodeCap TextRow.Decode
  rw [TextRow.stateAtCap_text_nil]
  cases TextRow.stateAt h rows rows.ResultSet.Columns.length with
  | ok s => obtain ⟨d, p⟩ := s; rfl
  | error e => rfl
  | panic => rfl

/-- Without spare capacity the decoder with its `return` statements returns
what the outcome of `BinaryRow.Decode` stands for. -/
theorem BinaryRow.DecodeCap_nil (h : Helpers) (rows : Row) :
    BinaryRow.DecodeCap h rows [] = (BinaryRow.Decode h rows).returned := by
  unfold BinaryRow.DecodeCap BinaryRow.Decode
  rw [BinaryRow.stateAtCap_nil]
  cases BinaryRow.stateAt h rows rows.ResultSet.Columns.length with
  | ok s => obtain ⟨d, p⟩ := s; rfl
  | error e => rfl
  | panic => rfl

theorem TextRow.iteration_text_ret {h : Helpers} {content spare : List Byte} {field : Field}
    {pos : Int} {r : DecodeReturn}
    (hit : TextRow.iteration h content spare field pos = .ret r) :
    r.values = none ∧ r.err ≠ none := by
  unfold TextRow.iteration at hit
  repeat' (first | split at hit | dsimp only at hit)
  all_goals first
    | contradiction
    | (simp only [Iteration.ret.injEq] at hit
       subst hit
       exact ⟨rfl, by simp⟩)

theorem BinaryRow.iteration_ret {h : Helpers} {content spare nullMask : List Byte} {i : Nat}
    {field : Field} {pos : Int} {r : DecodeReturn}
    (hit : BinaryRow.iteration h content spare nullMask i field pos = .ret r) :
    r.values = none ∧ r.err ≠ none := by
  unfold BinaryRow.iteration at hit
  repeat' (first | split at hit | dsimp only at hit)
  all_goals first
    | contradiction
    | (simp only [Iteration.ret.injEq] at hit
       subst hit
       exact ⟨rfl, by simp⟩)
    | (unfold finishTemporalRet at hit
       split at hit
       · contradiction
       · simp only [Iteration.ret.injEq] at hit
         subst hit
         exact ⟨rfl, by simp⟩
       · contradiction)

theorem iterate_returned {step : Nat → Field → Int → Iteration} {cols : List Field}
    {pos0 : Int} {r : DecodeReturn} :
    ∀ {k : Nat}, iterate step cols pos0 k = .returned r →
      ∃ i f d p, i < k ∧ cols[i]? = some f ∧ iterate step cols pos0 i = .running d p ∧
        step i f p = .ret r := by
  intro k
  induction k with
  | zero => intro hk; cases hk
  | succ k ih =>
    intro hk
    rw [iterate] at hk
    cases hl : iterate step cols pos0 k with
    | returned r1 =>
      rw [hl] at hk
      simp only [LoopState.returned.injEq] at hk
      subst hk
      obtain ⟨i, f, d, p, hi, h1, h2, h3⟩ := ih hl
      exact ⟨i, f, d, p, Nat.lt_succ_of_lt hi, h1, h2, h3⟩
    | panic => rw [hl] at hk; cases hk
    | running d p =>
      rw [hl] at hk
      simp only at hk
      cases hc : cols[k]? with
      | none => rw [hc] at hk; cases hk
      | some f =>
        rw [hc] at hk
        simp only at hk
        cases hs : step k f p with
        | next v p1 => rw [hs] at hk; cases hk
        | panic => rw [hs] at hk; cases hk
        | ret r1 =>
          rw [hs] at hk
          simp only [LoopState.returned.injEq] at hk
          subst hk
          exact ⟨k, f, d, p, Nat.lt_succ_self k, hc, hl, hs⟩

theorem iterate_ret_of_step {step : Nat → Field → Int → Iteration} {cols : List Field}
    {pos0 : Int} {k : Nat} {d : List (Option Value)} {p : Int} {f : Field} {r : DecodeReturn}
    (hl : iterate step cols pos0 k = .running d p) (hf : cols[k]? = some f)
    (hst : step k f p = .ret r) :
    ∀ n, k < n → iterate step cols pos0 n = .returned r := by
  intro n hn
  induction n with
  | zero => omega
  | succ n ih =>
    rw [iterate]
    by_cases hkn : k = n
    · subst hkn
      rw [hl]
      simp only [hf, hst]
    · rw [ih (by omega)]

theorem TextRow.stateAtCap_text_returned {h : Helpers} {rows : Row} {spare : List Byte} {k : Nat}
    {r : DecodeReturn} (hs : TextRow.stateAtCap h rows spare k = .returned r) :
    r.values = none ∧ r.err ≠ none := by
  obtain ⟨i, f, d, p, _, _, _, hst⟩ := iterate_returned hs
  exact TextRow.iteration_text_ret hst

theorem BinaryRow.stateAtCap_returned {h : Helpers} {rows : Row} {spare : List Byte} {k : Nat}
    {r : DecodeReturn} (hs : BinaryRow.stateAtCap h rows spare k = .returned r) :
    r.values = none ∧ r.err ≠ none := by
  unfold BinaryRow.stateAtCap at hs
  split at hs
  · cases hs
  · split at hs
    · simp only [LoopState.returned.injEq] at hs
      subst hs
      exact ⟨rfl, by simp⟩
    · split at hs
      · cases hs
      · obtain ⟨i, f, d, p, _, _, _, hst⟩ := iterate_returned hs
        exact BinaryRow.iteration_ret hst

theorem readLengthEncodedStringCap_of_ne_nil {b : List Byte} (spare : List Byte) (hb : b ≠ []) :
    readLengthEncodedStringCap b spare = readLengthEncodedString b := by
  unfold readLengthEncodedStringCap readLengthEncodedString
  cases hint : readLengthEncodedInteger b with
  | none => rfl
  | some t =>
    obtain ⟨num, isNull, n⟩ := t
    obtain ⟨_, hwlen, _, _, _⟩ := readLengthEncodedInteger_spec hint
    have hn : n ≤ b.length := hwlen hb
    by_cases hnum : num < 1
    · have h1 : sliceCap b spare n n = some [] := by
        unfold sliceCap
        rw [if_pos ⟨by omega, by omega, by push_cast; omega⟩]
        simp
      have h2 : slice b n n = some [] := by
        unfold slice
        rw [if_pos ⟨by omega, by omega, by omega⟩]
        simp
      simp only [hnum, if_true, h1, h2]
    · simp only [hnum, if_false]

theorem readLengthEncodedStringCap_empty (spare : List Byte) :
    readLengthEncodedStringCap [] spare
      = if spare = [] then none else some ⟨[], true, 1, none⟩ := by
  unfold readLengthEncodedStringCap
  simp only [readLengthEncodedInteger, Nat.lt_one_iff, if_true]
  cases spare with
  | nil => rfl
  | cons x xs =>
    have h1 : sliceCap [] (x :: xs) ((1 : Nat) : Int) ((1 : Nat) : Int) = some [] := by
      unfold sliceCap
      rw [if_pos ⟨by omega, by omega, by simp⟩]
      simp
    simp only [h1]
    rfl

theorem readLengthEncodedStringCap_ok {b spare : List Byte} {r : LenEncString}
    (h : readLengthEncodedStringCap b spare = some r) (he : r.err = none) :
    ∃ num w, readLengthEncodedInteger b = some (num, r.isNull, w) ∧ 1 ≤ w ∧
      r.n = w + num ∧ r.val = (b.drop w).take num ∧
      (w + num ≤ b.length ∨ (b = [] ∧ spare ≠ [] ∧ w = 1 ∧ num = 0)) ∧
      (r.isNull = true ↔ (b[0]? = some 0xfb ∨ b = [])) := by
  by_cases hb : b = []
  · subst hb
    rw [readLengthEncodedStringCap_empty] at h
    by_cases hs : spare = []
    · rw [if_pos hs] at h; cases h
    · rw [if_neg hs] at h
      simp only [Option.some.injEq] at h
      subst h
      exact ⟨0, 1, rfl, Nat.le_refl 1, rfl, rfl, Or.inr ⟨rfl, hs, rfl, rfl⟩,
        ⟨fun _ => Or.inr rfl, fun _ => rfl⟩⟩
  · rw [readLengthEncodedStringCap_of_ne_nil spare hb] at h
    obtain ⟨num, w, h1, h2, h3, h4, h5, h6⟩ := readLengthEncodedString_ok h he
    refine ⟨num, w, h1, h2, h3, h4, Or.inl h5, ?_⟩
    constructor
    · intro hn; exact Or.inl (h6.mp hn)
    · intro hn
      rcases hn with hn | hn
      · exact h6.mpr hn
      · exact absurd hn hb

theorem TextRow.iteration_next {h : Helpers} {content spare : List Byte} {field : Field}
    {pos pos1 : Int} {v : Option Value}
    (hit : TextRow.iteration h content spare field pos = .next v pos1) :
    ∃ (p : Nat) (r : LenEncString) (val : Value),
      pos = (p : Int) ∧ p ≤ content.length ∧
      readLengthEncodedStringCap (content.drop p) spare = some r ∧ r.err = none ∧
      pos1 = ((p + r.n : Nat) : Int) ∧ v = some val ∧
      val.Typ = field.fieldType ∧ val.Flags = field.flags ∧ val.Len = r.n ∧ val.Raw = r.val ∧
      (r.isNull = true → val.Val = .nil) ∧
      (r.isNull = false → isTextTemporal field.fieldType = false → val.Val = .bytes r.val) ∧
      (r.isNull = false → val.Val ≠ .nil) := by
  unfold TextRow.iteration at hit
  cases hsl : sliceFrom content pos with
  | none => rw [hsl] at hit; cases hit
  | some b =>
    rw [hsl] at hit
    obtain ⟨p, hp, hple, hb⟩ := sliceFrom_some hsl
    subst hb
    simp only at hit
    cases hr : readLengthEncodedStringCap (content.drop p) spare with
    | none => rw [hr] at hit; cases hit
    | some r =>
      rw [hr] at hit
      obtain ⟨rv, rnull, rn, rerr⟩ := r
      simp only at hit
      have hpos : pos + (rn : Int) = ((p + rn : Nat) : Int) := by
        rw [hp]; push_cast; rfl
      rw [hpos] at hit
      cases rerr with
      | some e => cases hit
      | none =>
        simp only at hit
        cases rnull with
        | true =>
          simp only [Bool.not_true, Bool.false_eq_true, if_false, Iteration.next.injEq] at hit
          exact ⟨p, _, _, hp, hple, hr, rfl, hit.2.symm, hit.1.symm, rfl, rfl, rfl, rfl,
            fun _ => rfl, fun hh => (by cases hh), fun hh => (by cases hh)⟩
        | false =>
          simp only [Bool.not_false, if_true] at hit
          obtain ⟨table, name, ft, flags, dec⟩ := field
          cases hpd : h.parseDateTime rv <;> cases ft <;> simp only [hpd] at hit <;>
            first
            | (simp only [Iteration.next.injEq] at hit
               exact ⟨p, _, _, hp, hple, hr, rfl, hit.2.symm, hit.1.symm, rfl, rfl, rfl, rfl,
                 fun hh => (by cases hh), fun _ _ => rfl, fun _ => (by simp [Field.value])⟩)
            | (simp only [Iteration.next.injEq] at hit
               exact ⟨p, _, _, hp, hple, hr, rfl, hit.2.symm, hit.1.symm, rfl, rfl, rfl, rfl,
                 fun hh => (by cases hh), fun _ hh => (by simp [isTextTemporal] at hh),
                 fun _ => (by simp [Field.value])⟩)
            | cases hit

theorem iterate_column_step {step : Nat → Field → Int → Iteration} {cols : List Field}
    {pos0 : Int} {n : Nat} {dest : List (Option Value)} {q : Int}
    (hn : n ≤ cols.length) (hs : iterate step cols pos0 n = .running dest q)
    (i : Nat) (hi : i < n) :
    ∃ d p v p1, iterate step cols pos0 i = .running d p ∧
      step i (cols[i]) p = .next v p1 ∧
      iterate step cols pos0 (i + 1) = .running (d ++ [v]) p1 ∧
      d.length = i ∧ dest[i]? = some v := by
  obtain ⟨d, p, v, p1, h1, h2, h3, h4, h5⟩ :=
    decodeLoop_column_step hn (iterate_running_iff.1 hs) i hi
  exact ⟨d, p, v, p1, iterate_running_iff.2 h1, Iteration.toOutcome_next_iff.1 h2,
    iterate_running_iff.2 h3, h4, h5⟩

theorem TextRow.DecodeCap_text_ok {h : Helpers} {rows : Row} {spare : List Byte}
    {dest : List (Option Value)}
    (hd : TextRow.DecodeCap h rows spare = some { values := some dest, err := none }) :
    ∃ q, TextRow.stateAtCap h rows spare rows.ResultSet.Columns.length = .running dest q := by
  unfold TextRow.DecodeCap at hd
  cases hs : TextRow.stateAtCap h rows spare rows.ResultSet.Columns.length with
  | running d q =>
    rw [hs] at hd
    simp only [Option.some.injEq, DecodeReturn.mk.injEq, and_true] at hd
    exact ⟨q, by rw [hd]⟩
  | returned r =>
    rw [hs] at hd
    simp only [Option.some.injEq] at hd
    obtain ⟨hv, _⟩ := TextRow.stateAtCap_text_returned hs
    rw [hd] at hv
    cases hv
  | panic => rw [hs] at hd; cases hd

theorem BinaryRow.DecodeCap_ok {h : Helpers} {rows : Row} {spare : List Byte}
    {dest : List (Option Value)}
    (hd : BinaryRow.DecodeCap h rows spare = some { values := some dest, err := none }) :
    ∃ q, BinaryRow.stateAtCap h rows spare rows.ResultSet.Columns.length = .running dest q := by
  unfold BinaryRow.DecodeCap at hd
  cases hs : BinaryRow.stateAtCap h rows spare rows.ResultSet.Columns.length with
  | running d q =>
    rw [hs] at hd
    simp only [Option.some.injEq, DecodeReturn.mk.injEq, and_true] at hd
    exact ⟨q, by rw [hd]⟩
  | returned r =>
    rw [hs] at hd
    simp only [Option.some.injEq] at hd
    obtain ⟨hv, _⟩ := BinaryRow.stateAtCap_returned hs
    rw [hd] at hv
    cases hv
  | panic => rw [hs] at hd; cases hd

theorem BinaryRow.iteration_null {h : Helpers} {content spare nullMask : List Byte} {i : Nat}
    {field : Field} {pos : Int} (hbit : nullBit nullMask i = some true) :
    BinaryRow.iteration h content spare nullMask i field pos = .next none pos := by
  unfold BinaryRow.iteration
  rw [hbit]

theorem BinaryRow.iteration_bit {h : Helpers} {content spare nullMask : List Byte} {i : Nat}
    {field : Field} {pos pos1 : Int} {v : Option Value}
    (hit : BinaryRow.iteration h content spare nullMask i field pos = .next v pos1) :
    ∃ bit, nullBit nullMask i = some bit := by
  unfold BinaryRow.iteration at hit
  cases hb : nullBit nullMask i with
  | none => rw [hb] at hit; cases hit
  | some bit => exact ⟨bit, rfl⟩

theorem BinaryRow.iteration_fixed_not_null {h : Helpers} {content spare nullMask : List Byte}
    {i : Nat} {field : Field} {pos p1 : Int} {v : Option Value}
    (hbit : nullBit nullMask i = some false) (hty : isFixedWidth field.fieldType = true)
    (hit : BinaryRow.iteration h content spare nullMask i field pos = .next v p1) :
    ∃ val, v = some val ∧ val.Val ≠ .nil := by
  unfold BinaryRow.iteration at hit
  rw [hbit] at hit
  obtain ⟨table, name, ft, flags, dec⟩ := field
  cases ft <;> simp only [isFixedWidth, Bool.false_eq_true] at hty <;> simp only at hit
  all_goals (split at hit)
  all_goals (try split at hit)
  all_goals (try split at hit)
  all_goals first
    | (simp only [Iteration.next.injEq] at hit
       exact ⟨_, hit.1.symm, by simp [Field.value]⟩)
    | cases hit

theorem BinaryRow.iteration_null_type {h : Helpers} {content spare nullMask : List Byte}
    {i : Nat} {field : Field} {pos : Int}
    (hbit : nullBit nullMask i = some false) (hty : field.fieldType = .NULL) :
    BinaryRow.iteration h content spare nullMask i field pos
      = .next (some (field.value 1 .nil [])) pos := by
  unfold BinaryRow.iteration
  rw [hbit]
  simp only [hty]

theorem BinaryRow.iteration_unknown {h : Helpers} {content spare nullMask : List Byte}
    {i : Nat} {field : Field} {pos : Int} {c : Nat}
    (hbit : nullBit nullMask i = some false) (hty : field.fieldType = .unknown c) :
    BinaryRow.iteration h content spare nullMask i field pos
      = .ret { values := none, err := some (.unknownFieldType (.unknown c)) } := by
  unfold BinaryRow.iteration
  rw [hbit]
  simp only [hty]

theorem BinaryRow.iteration_string {h : Helpers} {content spare nullMask : List Byte}
    {i : Nat} {field : Field} {pos pos1 : Int} {v : Option Value}
    (hbit : nullBit nullMask i = some false) (hty : isLenEncString field.fieldType = true)
    (hit : BinaryRow.iteration h content spare nullMask i field pos = .next v pos1) :
    ∃ (p : Nat) (val : Value), pos = (p : Int) ∧ p ≤ content.length ∧ v = some val ∧
      (val.Val = .nil ↔ (content[p]? = some 0xfb ∨ p = content.length)) := by
  have hcommon : (match sliceFrom content pos with
      | none => Iteration.panic
      | some b =>
        match readLengthEncodedStringCap b spare with
        | none => .panic
        | some r =>
          match sliceCap content spare pos (pos + (r.n : Int)) with
          | none => .panic
          | some raw =>
            match r.err with
            | none =>
              if !r.isNull then
                .next (some (field.value r.n (.bytes r.val) raw)) (pos + (r.n : Int))
              else .next (some (field.value r.n .nil raw)) (pos + (r.n : Int))
            | some e => .ret { values := none, err := some e }) = .next v pos1 := by
    unfold BinaryRow.iteration at hit
    rw [hbit] at hit
    obtain ⟨table, name, ft, flags, dec⟩ := field
    cases ft <;> simp only [isLenEncString, Bool.false_eq_true] at hty <;> exact hit
  cases hsl : sliceFrom content pos with
  | none => rw [hsl] at hcommon; cases hcommon
  | some b =>
    rw [hsl] at hcommon
    obtain ⟨p, hp, hple, hb⟩ := sliceFrom_some hsl
    subst hb
    simp only at hcommon
    cases hr : readLengthEncodedStringCap (content.drop p) spare with
    | none => rw [hr] at hcommon; cases hcommon
    | some r =>
      rw [hr] at hcommon
      simp only at hcommon
      cases hraw : sliceCap content spare pos (pos + (r.n : Int)) with
      | none => rw [hraw] at hcommon; cases hcommon
      | some raw =>
        rw [hraw] at hcommon
        simp only at hcommon
        cases herr : r.err with
        | some e => rw [herr] at hcommon; cases hcommon
        | none =>
          rw [herr] at hcommon
          simp only at hcommon
          obtain ⟨num, w, _, _, _, _, _, hiff⟩ := readLengthEncodedStringCap_ok hr herr
          have hb0 : (content.drop p)[0]? = content[p]? := by
            rw [List.getElem?_drop]; rfl
          have hnil : content.drop p = [] ↔ p = content.length := by
            rw [List.drop_eq_nil_iff]
            omega
          rw [hb0, hnil] at hiff
          cases hnull : r.isNull with
          | true =>
            rw [hnull] at hcommon
            simp only [Bool.not_true, Bool.false_eq_true, if_false, Iteration.next.injEq]
              at hcommon
            refine ⟨p, _, hp, hple, hcommon.1.symm, ?_⟩
            exact ⟨fun _ => hiff.mp hnull, fun _ => rfl⟩
          | false =>
            rw [hnull] at hcommon
            simp only [Bool.not_false, if_true, Iteration.next.injEq] at hcommon
            refine ⟨p, _, hp, hple, hcommon.1.symm, ?_⟩
            constructor
            · intro hv
              simp [Field.value] at hv
            · intro hfb
              have := hiff.mpr hfb
              rw [hnull] at this
              cases this

theorem finishTemporalRet_next {r : HelperResult} {field : Field} {n : Nat} {raw : List Byte}
    {pos pos1 : Int} {num : Nat} {v : Option Value}
    (hfin : finishTemporalRet r field n raw pos num = .next v pos1) :
    ∃ val, v = some val ∧ r = .value val.Val := by
  unfold finishTemporalRet at hfin
  split at hfin
  · simp only [Iteration.next.injEq] at hfin
    exact ⟨_, hfin.1.symm, rfl⟩
  · cases hfin
  · cases hfin

theorem BinaryRow.iteration_temporal {h : Helpers} {content spare nullMask : List Byte}
    {i : Nat} {field : Field} {pos pos1 : Int} {v : Option Value}
    (hbit : nullBit nullMask i = some false) (hty : isBinaryTemporal field.fieldType = true)
    (hit : BinaryRow.iteration h content spare nullMask i field pos = .next v pos1) :
    ∃ p : Nat, pos = (p : Int) ∧ p ≤ content.length ∧
      (v = none ↔ (content[p]? = some 0xfb ∨ p = content.length)) ∧
      (v ≠ none → ∃ val, v = some val ∧
        ((∃ src dstlen, h.formatBinaryTime src dstlen = .value val.Val) ∨
          (∃ num data, h.parseBinaryDateTime num data = .value val.Val) ∨
          (∃ src dstlen, h.formatBinaryDateTime src dstlen = .value val.Val))) := by
  unfold BinaryRow.iteration at hit
  rw [hbit] at hit
  obtain ⟨table, name, ft, flags, dec⟩ := field
  cases ft <;> simp only [isBinaryTemporal, Bool.false_eq_true] at hty <;> simp only at hit
  all_goals
    cases hsl : sliceFrom content pos with
    | none => rw [hsl] at hit; cases hit
    | some b =>
      rw [hsl] at hit
      obtain ⟨p, hp, hple, hb⟩ := sliceFrom_some hsl
      subst hb
      simp only at hit
      cases hint : readLengthEncodedInteger (content.drop p) with
      | none => rw [hint] at hit; cases hit
      | some t =>
        obtain ⟨num, isNull, n⟩ := t
        rw [hint] at hit
        simp only at hit
        obtain ⟨_, _, _, hiff, hempty⟩ := readLengthEncodedInteger_spec hint
        have hb0 : (content.drop p)[0]? = content[p]? := by
          rw [List.getElem?_drop]; rfl
        have hnil : content.drop p = [] ↔ p = content.length := by
          rw [List.drop_eq_nil_iff]
          omega
        refine ⟨p, hp, hple, ?_⟩
        cases isNull with
        | true =>
          simp only [if_true, Iteration.next.injEq] at hit
          refine ⟨⟨fun _ => ?_, fun _ => hit.1.symm⟩, fun hne => absurd hit.1.symm hne⟩
          by_cases hd : content.drop p = []
          · exact Or.inr (hnil.mp hd)
          · exact Or.inl (by rw [← hb0]; exact (hiff hd).mp rfl)
        | false =>
          have hrhs : ¬ (content[p]? = some 0xfb ∨ p = content.length) := by
            intro hh
            rcases hh with hh | hh
            · have hd : content.drop p ≠ [] := by
                intro he
                have := hempty he
                cases this
              have := (hiff hd).mpr (by rw [hb0]; exact hh)
              cases this
            · have := hempty (hnil.mpr hh)
              cases this
          have hval : ∃ val, v = some val ∧
              ((∃ src dstlen, h.formatBinaryTime src dstlen = .value val.Val) ∨
                (∃ num data, h.parseBinaryDateTime num data = .value val.Val) ∨
                (∃ src dstlen, h.formatBinaryDateTime src dstlen = .value val.Val)) := by
            simp only [Bool.false_eq_true, if_false] at hit
            repeat' (first | split at hit | dsimp only at hit)
            all_goals first
              | contradiction
              | (obtain ⟨val, hv1, hv2⟩ := finishTemporalRet_next hit
                 first
                   | exact ⟨val, hv1, Or.inl ⟨_, _, hv2⟩⟩
                   | exact ⟨val, hv1, Or.inr (Or.inl ⟨_, _, hv2⟩)⟩
                   | exact ⟨val, hv1, Or.inr (Or.inr ⟨_, _, hv2⟩)⟩)
          obtain ⟨val, hv1, hv2⟩ := hval
          refine ⟨⟨fun hv => ?_, fun hh => absurd hh hrhs⟩, fun _ => ⟨val, hv1, hv2⟩⟩
          rw [hv1] at hv
          cases hv

theorem BinaryRow.stateAtCap_running {h : Helpers} {rows : Row} {spare : List Byte} {k : Nat}
    {d : List (Option Value)} {p : Int}
    (hs : BinaryRow.stateAtCap h rows spare k = .running d p) :
    rows.bytes[0]? = some mysql.OKPacket ∧
      ∃ nullMask, sliceCap rows.bytes spare 1
          ((1 + (rows.ResultSet.Columns.length + 7 + 2) >>> 3 : Nat) : Int) = some nullMask ∧
        ∀ n, BinaryRow.stateAtCap h rows spare n
          = iterate (BinaryRow.iteration h rows.bytes spare nullMask) rows.ResultSet.Columns
              ((1 + (rows.ResultSet.Columns.length + 7 + 2) >>> 3 : Nat) : Int) n := by
  unfold BinaryRow.stateAtCap at hs
  cases hg : getByte rows.bytes 0 with
  | none => rw [hg] at hs; cases hs
  | some b0 =>
    rw [hg] at hs
    simp only at hs
    by_cases hb : b0 ≠ mysql.OKPacket
    · rw [if_pos hb] at hs; cases hs
    · rw [if_neg hb] at hs
      have hb0 : b0 = mysql.OKPacket := not_not.mp hb
      subst hb0
      cases hm : sliceCap rows.bytes spare 1
          ((1 + (rows.ResultSet.Columns.length + 7 + 2) >>> 3 : Nat) : Int) with
      | none => rw [hm] at hs; cases hs
      | some nullMask =>
        refine ⟨hg, nullMask, rfl, ?_⟩
        intro n
        unfold BinaryRow.stateAtCap
        simp only [hg, ne_eq, not_true_eq_false, if_false, hm]

theorem sliceCap_nullMask {rows : Row} {spare nullMask : List Byte}
    (hm : sliceCap rows.bytes spare 1
      ((1 + (rows.ResultSet.Columns.length + 7 + 2) >>> 3 : Nat) : Int) = some nullMask) :
    nullMask = BinaryRow.nullMask
      { Content := some (rows.bytes ++ spare), ResultSet := rows.ResultSet } := by
  have h3 : (rows.ResultSet.Columns.length + 7 + 2) >>> 3
      = (rows.ResultSet.Columns.length + 9) / 8 := by
    rw [Nat.shiftRight_eq_div_pow]
  unfold sliceCap at hm
  split at hm
  · simp only [Option.some.injEq] at hm
    rw [← hm, h3]
    rfl
  · cases hm

/-! # Properties of the program -/

/-- C1: in a binary row that decodes successfully, a column whose null-bitmap
bit (bit `(i+2) mod 8` of the byte at content offset `1 + (i+2) div 8`) is 1
has a nil entry in the result, and the position is the same before and after
the column, so the column consumes no byte of the value area. The content of
such a row starts with the 0x00 marker. -/
theorem C1_set_null_bit_gives_nil_entry (h : Helpers) (rows : Row)
    (dest : List (Option Value)) (i : Nat) (b : Byte)
    (hdec : BinaryRow.Decode h rows = .ok dest)
    (hi : i < rows.ResultSet.Columns.length)
    (hb : rows.bytes[1 + (i + 2) / 8]? = some b)
    (hbit : b.val / 2 ^ ((i + 2) % 8) % 2 = 1) :
    rows.bytes[0]? = some 0x00 ∧ dest[i]? = some none ∧
      ∃ d p, BinaryRow.stateAt h rows i = .ok (d, p) ∧
        BinaryRow.stateAt h rows (i + 1) = .ok (d ++ [none], p) := by
  obtain ⟨q, hq⟩ := BinaryRow.Decode_ok hdec
  obtain ⟨h0, _, _⟩ := BinaryRow.stateAt_ok hq
  obtain ⟨d, p, v, p1, hsi, hcol, hsi1, _, hv⟩ := BinaryRow.column_step (Nat.le_refl _) hq i hi
  have hnb : nullBit (BinaryRow.nullMask rows) i = some true := by
    rw [BinaryRow.nullBit_nullMask rows i hi, specNullBit, hb]
    simp [hbit]
  rw [BinaryRow.decodeColumn_null hnb] at hcol
  simp only [Outcome.ok.injEq, Prod.mk.injEq] at hcol
  obtain ⟨hv0, hp⟩ := hcol
  subst hv0
  subst hp
  exact ⟨h0, hv, d, p, hsi, hsi1⟩

theorem C1_set_null_bit_gives_nil_entry_witness :
    BinaryRow.Decode Helpers.rejecting exRowNullFirst
        = .ok [none, some { Typ := .Tiny, Flags := 0, Len := 1, Val := .int64 7, Raw := [0x07] }] ∧
      exRowNullFirst.bytes[1 + (0 + 2) / 8]? = some 0x04 ∧
      (exRowNullFirst.bytes[0]? = some 0x00 ∧
        [none, some { Typ := .Tiny, Flags := 0, Len := 1, Val := .int64 7, Raw := [0x07] }][0]?
          = some (none : Option Value) ∧
        ∃ d p, BinaryRow.stateAt Helpers.rejecting exRowNullFirst 0 = .ok (d, p) ∧
          BinaryRow.stateAt Helpers.rejecting exRowNullFirst (0 + 1) = .ok (d ++ [none], p)) :=
  ⟨by decide, by decide,
    C1_set_null_bit_gives_nil_entry Helpers.rejecting exRowNullFirst _ 0 0x04
      (by decide) (by decide) (by decide) (by decide)⟩

/-- C2 (as stated, refuted): a column of type NULL whose null-bitmap bit is
clear decodes to a value whose `Val` is nil. So does a VARCHAR column with a
clear bit that starts where the content ends, when the content has a byte of
spare capacity; and a DATE column with a clear bit that starts where the
content ends decodes to a nil entry. -/
theorem C2_counterexample :
    (BinaryRow.Decode Helpers.rejecting exRowNullType
        = .ok [some { Typ := .NULL, Flags := 0, Len := 1, Val := .nil, Raw := [] }] ∧
      specNullBit exRowNullType.bytes 0 = some false ∧
      isNullEntry (some { Typ := .NULL, Flags := 0, Len := 1, Val := .nil, Raw := [] }) = true) ∧
      (BinaryRow.DecodeCap Helpers.rejecting exRowStringAtEnd [0x00]
          = some { err := none,
                   values := some [
                     some { Typ := .VarChar, Flags := 1, Len := 1, Val := .nil,
                            Raw := [0x00] }] } ∧
        specNullBit (exRowStringAtEnd.bytes ++ [0x00]) 0 = some false ∧
        BinaryRow.stateAtCap Helpers.rejecting exRowStringAtEnd [0x00] 0 = .running [] 2 ∧
        exRowStringAtEnd.bytes[2]? = none) ∧
      (BinaryRow.Decode Helpers.rejecting exRowDateAtEnd = .ok [none] ∧
        BinaryRow.DecodeCap Helpers.rejecting exRowDateAtEnd []
          = some { err := none, values := some [none] } ∧
        specNullBit exRowDateAtEnd.bytes 0 = some false ∧
        BinaryRow.stateAt Helpers.rejecting exRowDateAtEnd 0 = .ok ([], 2) ∧
        exRowDateAtEnd.bytes[2]? = none) := by
  decide

/-- C2 (amended): in a binary row that decodes successfully, with any spare
capacity of its `Content`, every column has a null-bitmap bit. A column whose
bit is set has a nil entry. A column whose bit is clear has a type the decoder
handles, and: with a fixed-width type (TINY, SHORT, YEAR, INT24, LONG,
LONGLONG, FLOAT, DOUBLE) its entry and its `Val` are not nil; with the type
NULL its `Val` is nil; with a length-encoded string type its entry is not nil
and its `Val` is nil exactly when the byte at the column's offset p is 0xFB or
the content ends at p; with a temporal type (DATE, NEWDATE, TIME, TIMESTAMP,
DATETIME) its entry is nil exactly when the byte at p is 0xFB or the content
ends at p, and otherwise its `Val` is a value that one of the time helpers
`formatBinaryTime`, `parseBinaryDateTime` and `formatBinaryDateTime`
returned. -/
theorem C2_null_bit_amended (h : Helpers) (rows : Row) (spare : List Byte)
    (dest : List (Option Value)) (i : Nat)
    (hdec : BinaryRow.DecodeCap h rows spare = some { values := some dest, err := none })
    (hi : i < rows.ResultSet.Columns.length) :
    ∃ bit, specNullBit (rows.bytes ++ spare) i = some bit ∧
      (bit = true → dest[i]? = some none) ∧
      (bit = false →
        (∀ c, (rows.ResultSet.Columns[i]).fieldType ≠ .unknown c) ∧
        (isFixedWidth (rows.ResultSet.Columns[i]).fieldType = true →
          ∃ val, dest[i]? = some (some val) ∧ val.Val ≠ .nil ∧
            isNullEntry (some val) = false) ∧
        ((rows.ResultSet.Columns[i]).fieldType = .NULL →
          ∃ val, dest[i]? = some (some val) ∧ val.Val = .nil) ∧
        (isLenEncString (rows.ResultSet.Columns[i]).fieldType = true →
          ∃ (d : List (Option Value)) (p : Nat) (val : Value),
            BinaryRow.stateAtCap h rows spare i = .running d (p : Int) ∧
            dest[i]? = some (some val) ∧
            (val.Val = .nil ↔ (rows.bytes[p]? = some 0xfb ∨ p = rows.bytes.length))) ∧
        (isBinaryTemporal (rows.ResultSet.Columns[i]).fieldType = true →
          ∃ (d : List (Option Value)) (p : Nat),
            BinaryRow.stateAtCap h rows spare i = .running d (p : Int) ∧
            (dest[i]? = some none ↔
              (rows.bytes[p]? = some 0xfb ∨ p = rows.bytes.length)) ∧
            (dest[i]? ≠ some none → ∃ val, dest[i]? = some (some val) ∧
              ((∃ src dstlen, h.formatBinaryTime src dstlen = .value val.Val) ∨
                (∃ num data, h.parseBinaryDateTime num data = .value val.Val) ∨
                (∃ src dstlen, h.formatBinaryDateTime src dstlen = .value val.Val))))) := by
  obtain ⟨q, hq⟩ := BinaryRow.DecodeCap_ok hdec
  obtain ⟨_, nullMask, hm, hstate⟩ := BinaryRow.stateAtCap_running hq
  rw [hstate] at hq
  obtain ⟨d, pos, v, p1, hsi, hcol, _, _, hv⟩ := iterate_column_step (Nat.le_refl _) hq i hi
  rw [← hstate] at hsi
  obtain ⟨bit, hbit⟩ := BinaryRow.iteration_bit hcol
  have hspec : specNullBit (rows.bytes ++ spare) i = some bit := by
    have hnb := BinaryRow.nullBit_nullMask
      { Content := some (rows.bytes ++ spare), ResultSet := rows.ResultSet } i hi
    rw [← sliceCap_nullMask hm, hbit] at hnb
    exact hnb.symm
  refine ⟨bit, hspec, ?_, ?_⟩
  · intro hb
    subst hb
    rw [BinaryRow.iteration_null hbit] at hcol
    simp only [Iteration.next.injEq] at hcol
    rw [hv, ← hcol.1]
  · intro hb
    subst hb
    refine ⟨?_, ?_, ?_, ?_, ?_⟩
    · intro c hc
      rw [BinaryRow.iteration_unknown hbit hc] at hcol
      cases hcol
    · intro hty
      obtain ⟨val, hval, hnn⟩ := BinaryRow.iteration_fixed_not_null hbit hty hcol
      refine ⟨val, by rw [hv, hval], hnn, ?_⟩
      simp [isNullEntry, hnn]
    · intro hty
      rw [BinaryRow.iteration_null_type hbit hty] at hcol
      simp only [Iteration.next.injEq] at hcol
      exact ⟨_, by rw [hv, ← hcol.1], rfl⟩
    · intro hty
      obtain ⟨p, val, hp, _, hval, hiff⟩ := BinaryRow.iteration_string hbit hty hcol
      subst hp
      exact ⟨d, p, val, hsi, by rw [hv, hval], hiff⟩
    · intro hty
      obtain ⟨p, hp, _, hiff, hval⟩ := BinaryRow.iteration_temporal hbit hty hcol
      subst hp
      refine ⟨d, p, hsi, ?_, ?_⟩
      · rw [hv]
        constructor
        · intro hn
          exact hiff.mp (Option.some.inj hn)
        · intro hr
          rw [hiff.mpr hr]
      · intro hne
        have hvn : v ≠ none := fun hvn => hne (by rw [hv, hvn])
        obtain ⟨val, hv1, hv2⟩ := hval hvn
        exact ⟨val, by rw [hv, hv1], hv2⟩

theorem C2_null_bit_amended_witness :
    BinaryRow.DecodeCap Helpers.rejecting exRowNullFirst []
        = some { err := none,
                 values := some [
                   none,
                   some { Typ := .Tiny, Flags := 0, Len := 1, Val := .int64 7, Raw := [0x07] }] } ∧
      1 < exRowNullFirst.ResultSet.Columns.length ∧
      (∃ bit, specNullBit (exRowNullFirst.bytes ++ []) 0 = some bit ∧
        (bit = true →
          [none, some { Typ := .Tiny, Flags := 0, Len := 1, Val := .int64 7, Raw := [0x07] }][0]?
            = some (none : Option Value))) ∧
      (∃ bit, specNullBit (exRowNullFirst.bytes ++ []) 1 = some bit ∧
        (bit = false → isFixedWidth (exRowNullFirst.ResultSet.Columns[1]).fieldType = true →
          ∃ val,
            [none, some { Typ := .Tiny, Flags := 0, Len := 1, Val := .int64 7, Raw := [0x07] }][1]?
              = some (some val) ∧ val.Val ≠ .nil ∧ isNullEntry (some val) = false)) ∧
      (∃ bit, specNullBit (exRowStringAtEnd.bytes ++ [0x00]) 0 = some bit ∧
        (bit = false → isLenEncString (exRowStringAtEnd.ResultSet.Columns[0]).fieldType = true →
          ∃ (d : List (Option Value)) (p : Nat) (val : Value),
            BinaryRow.stateAtCap Helpers.rejecting exRowStringAtEnd [0x00] 0
              = .running d (p : Int) ∧
            [some { Typ := FieldType.VarChar, Flags := 1, Len := 1, Val := GoVal.nil,
                    Raw := [0x00] }][0]? = some (some val) ∧
            (val.Val = .nil ↔
              (exRowStringAtEnd.bytes[p]? = some 0xfb ∨ p = exRowStringAtEnd.bytes.length)))) :=
  ⟨by decide, by decide,
    (C2_null_bit_amended Helpers.rejecting exRowNullFirst [] _ 0 (by decide) (by decide)).elim
      (fun bit hb => ⟨bit, hb.1, hb.2.1⟩),
    (C2_null_bit_amended Helpers.rejecting exRowNullFirst [] _ 1 (by decide) (by decide)).elim
      (fun bit hb => ⟨bit, hb.1, fun hf => (hb.2.2 hf).2.1⟩),
    (C2_null_bit_amended Helpers.rejecting exRowStringAtEnd [0x00] _ 0 (by decide)
      (by decide)).elim
      (fun bit hb => ⟨bit, hb.1, fun hf => (hb.2.2 hf).2.2.2.1⟩)⟩

/-- C3 (as stated, refuted): for one column the rounded-up size is 2, so the
first value would be read at offset 3; the decoder takes a bitmap of one byte
and reads the first value at offset 2, where the row below holds its only
value byte. -/
theorem C3_counterexample :
    exRowTiny.ResultSet.Columns.length = 1 ∧ ceilDiv (1 + 9) 8 = 2 ∧
      BinaryRow.stateAt Helpers.rejecting exRowTiny 0 = .ok ([], 2) ∧
      (2 : Int) ≠ ((1 + ceilDiv (1 + 9) 8 : Nat) : Int) ∧
      BinaryRow.Decode Helpers.rejecting exRowTiny
        = .ok [some { Typ := .Tiny, Flags := 0, Len := 1, Val := .int64 7, Raw := [0x07] }] ∧
      exRowTiny.bytes[2]? = some 0x07 ∧ exRowTiny.bytes[1 + ceilDiv (1 + 9) 8]? = none := by
  decide

/-- C3 (amended): for a binary row with n columns whose content starts with
the 0x00 marker and holds at least `1 + (n+9) div 8` bytes, the null-bitmap
consulted by the loop is the `(n+9) div 8` bytes (rounded down) that follow the
marker, and column 0 is entered at content offset `1 + (n+9) div 8`. -/
theorem C3_bitmap_size_rounds_down (h : Helpers) (rows : Row)
    (h0 : rows.bytes[0]? = some 0x00)
    (hlen : 1 + (rows.ResultSet.Columns.length + 9) / 8 ≤ rows.bytes.length) :
    BinaryRow.nullMask rows = (rows.bytes.drop 1).take ((rows.ResultSet.Columns.length + 9) / 8) ∧
      (BinaryRow.nullMask rows).length = (rows.ResultSet.Columns.length + 9) / 8 ∧
      BinaryRow.stateAt h rows 0
        = .ok ([], ((1 + (rows.ResultSet.Columns.length + 9) / 8 : Nat) : Int)) ∧
      ∀ k, BinaryRow.stateAt h rows k
        = decodeLoop (BinaryRow.decodeColumn h rows.bytes (BinaryRow.nullMask rows))
            rows.ResultSet.Columns
            ((1 + (rows.ResultSet.Columns.length + 9) / 8 : Nat) : Int) k := by
  have h3 : (rows.ResultSet.Columns.length + 7 + 2) >>> 3
      = (rows.ResultSet.Columns.length + 9) / 8 := by
    rw [Nat.shiftRight_eq_div_pow]
  have hmask : BinaryRow.nullMask rows
      = (rows.bytes.drop 1).take ((rows.ResultSet.Columns.length + 9) / 8) := by
    unfold BinaryRow.nullMask
    rw [List.drop_take]
    congr 1
    omega
  have hloop : ∀ k, BinaryRow.stateAt h rows k
      = decodeLoop (BinaryRow.decodeColumn h rows.bytes (BinaryRow.nullMask rows))
          rows.ResultSet.Columns
          ((1 + (rows.ResultSet.Columns.length + 9) / 8 : Nat) : Int) k := by
    intro k
    rw [BinaryRow.stateAt_eq_loop h rows k h0 hlen]
    unfold BinaryRow.loop
    rw [h3]
  refine ⟨hmask, ?_, ?_, hloop⟩
  · rw [hmask, List.length_take, List.length_drop]
    omega
  · rw [hloop 0]
    rfl

theorem C3_bitmap_size_rounds_down_witness :
    exRowTiny.bytes[0]? = some 0x00 ∧
      1 + (exRowTiny.ResultSet.Columns.length + 9) / 8 ≤ exRowTiny.bytes.length ∧
      (BinaryRow.nullMask exRowTiny
          = (exRowTiny.bytes.drop 1).take ((exRowTiny.ResultSet.Columns.length + 9) / 8) ∧
        (BinaryRow.nullMask exRowTiny).length = (exRowTiny.ResultSet.Columns.length + 9) / 8 ∧
        BinaryRow.stateAt Helpers.rejecting exRowTiny 0
          = .ok ([], ((1 + (exRowTiny.ResultSet.Columns.length + 9) / 8 : Nat) : Int)) ∧
        ∀ k, BinaryRow.stateAt Helpers.rejecting exRowTiny k
          = decodeLoop
              (BinaryRow.decodeColumn Helpers.rejecting exRowTiny.bytes (BinaryRow.nullMask exRowTiny))
              exRowTiny.ResultSet.Columns
              ((1 + (exRowTiny.ResultSet.Columns.length + 9) / 8 : Nat) : Int) k) :=
  ⟨by decide, by decide,
    C3_bitmap_size_rounds_down Helpers.rejecting exRowTiny (by decide) (by decide)⟩

/-- C4 (as stated, refuted): a TINY value 5 with `Raw = [0x05]` is encoded to
the content `[0x05]`, which has neither marker nor null-bitmap, and decoding
that row fails with the malformed-packet error instead of returning the
value. -/
theorem C4_counterexample :
    Row.Encode exEmptyRow [some exTinyValue] [exTiny] none
        = some { Content := some [0x05],
                 ResultSet := { Columns := [exTiny], ColumnNames := none } } ∧
      BinaryRow.Decode Helpers.rejecting
          { Content := some [0x05], ResultSet := { Columns := [exTiny], ColumnNames := none } }
        = .error (.sqlError mysql.CRMalformedPacket mysql.SSUnknownSQLState) := by
  decide

/-- C4 (amended): `Row.Encode` writes the `Raw` bytes of the values one after
the other and nothing else. When the list of values starts with an entry whose
`Raw` is the row header (0x00 and `(n+9) div 8` zero bytes for n columns) and
each value after it carries in `Raw` the wire encoding of its `Val` for its
column (a numeric type TINY, SHORT, YEAR, INT24, LONG, LONGLONG, or a
length-encoded string type), `Row.Encode` followed by `BinaryRow.Decode`
succeeds and returns, column by column, the `Val` of the encoded values. -/
theorem C4_round_trip_with_header (h : Helpers) (row0 : Row) (cols : List Field)
    (vals : List Value) (names : Option (List String)) (hdr : Value)
    (hhdr : hdr.Raw = binaryRowHeader cols.length)
    (henc : List.Forall₂ Encodes cols vals) :
    ∃ row dest, Row.Encode row0 (some hdr :: vals.map some) cols names = some row ∧
      row.bytes = hdr.Raw ++ (vals.map Value.Raw).flatten ∧
      BinaryRow.Decode h row = .ok dest ∧
      dest.map (Option.map Value.Val) = vals.map (fun v => some v.Val) := by
  have hwr : writeRaws (some hdr :: vals.map some)
      = some (hdr.Raw ++ (vals.map Value.Raw).flatten) := by
    simp [writeRaws, writeRaws_map_some]
  have hne : hdr.Raw ++ (vals.map Value.Raw).flatten ≠ [] := by
    rw [hhdr]; simp [binaryRowHeader]
  have hEnc : Row.Encode row0 (some hdr :: vals.map some) cols names
      = some { Content := some (hdr.Raw ++ (vals.map Value.Raw).flatten),
               ResultSet := { Columns := cols, ColumnNames := names } } := by
    unfold Row.Encode
    rw [hwr]
    simp only [if_neg hne]
  have hhl : hdr.Raw.length = 1 + (cols.length + 9) / 8 := by
    rw [hhdr]; simp [binaryRowHeader]; omega
  have hgen : ∀ row : Row, row.bytes = hdr.Raw ++ (vals.map Value.Raw).flatten →
      row.ResultSet.Columns = cols → ∃ dest, BinaryRow.Decode h row = .ok dest ∧
        dest.map (Option.map Value.Val) = vals.map (fun v => some v.Val) := by
    intro row hbytes hcols
    have h0 : row.bytes[0]? = some mysql.OKPacket := by
      rw [hbytes, hhdr]; simp [binaryRowHeader, mysql.OKPacket]
    have hlen : 1 + (row.ResultSet.Columns.length + 9) / 8 ≤ row.bytes.length := by
      rw [hbytes, hcols, List.length_append, hhl]; omega
    have hmask : BinaryRow.nullMask row = List.replicate ((cols.length + 9) / 8) (0x00 : Byte) := by
      unfold BinaryRow.nullMask
      rw [hbytes, hcols, ← hhl, List.take_left, hhdr]
      rfl
    have hbits : ∀ i, i < cols.length → nullBit (BinaryRow.nullMask row) i = some false := by
      intro i hi
      rw [hmask]
      exact nullBit_replicate_zero _ i (by omega)
    have hdrop : row.bytes.drop (1 + (cols.length + 9) / 8) = (vals.map Value.Raw).flatten := by
      rw [hbytes, ← hhl, List.drop_left]
    have hpos0 : 1 + (cols.length + 9) / 8 ≤ row.bytes.length := by
      rw [← hcols]; exact hlen
    obtain ⟨dk, hloop, hdk⟩ :=
      BinaryRow.decodeLoop_encodes (h := h) hbits henc hdrop hpos0 cols.length (Nat.le_refl _)
    have hall : vals.take cols.length = vals := by
      rw [henc.length_eq]; exact List.take_length vals
    have h3 : (cols.length + 7 + 2) >>> 3 = (cols.length + 9) / 8 := by
      rw [Nat.shiftRight_eq_div_pow]
    have hstate : BinaryRow.stateAt h row row.ResultSet.Columns.length
        = .ok (dk, ((1 + (cols.length + 9) / 8
            + ((vals.take cols.length).map Value.Raw).flatten.length : Nat) : Int)) := by
      rw [BinaryRow.stateAt_eq_loop h row _ h0 hlen]
      unfold BinaryRow.loop
      rw [hcols, h3]
      exact hloop
    refine ⟨dk, ?_, ?_⟩
    · unfold BinaryRow.Decode
      rw [hstate]
    · rw [hdk, hall]
  obtain ⟨dest, hdec, hvals⟩ := hgen
    { Content := some (hdr.Raw ++ (vals.map Value.Raw).flatten),
      ResultSet := { Columns := cols, ColumnNames := names } } rfl rfl
  exact ⟨_, dest, hEnc, rfl, hdec, hvals⟩

theorem C4_round_trip_with_header_witness :
    exHeaderValue.Raw = binaryRowHeader [exTiny, exVarChar].length ∧
      List.Forall₂ Encodes [exTiny, exVarChar] [exTinyValue, exStringValue] ∧
      Row.Encode exEmptyRow [some exHeaderValue, some exTinyValue, some exStringValue]
          [exTiny, exVarChar] none
        = some { Content := some [0x00, 0x00, 0x05, 0x02, 0x68, 0x69],
                 ResultSet := { Columns := [exTiny, exVarChar], ColumnNames := none } } ∧
      BinaryRow.Decode Helpers.rejecting
          { Content := some [0x00, 0x00, 0x05, 0x02, 0x68, 0x69],
            ResultSet := { Columns := [exTiny, exVarChar], ColumnNames := none } }
        = .ok [some { Typ := .Tiny, Flags := 0, Len := 1, Val := .int64 5, Raw := [0x05] },
               some { Typ := .VarChar, Flags := 1, Len := 3, Val := .bytes [0x68, 0x69],
                      Raw := [0x02, 0x68, 0x69] }] ∧
      ∃ row dest,
        Row.Encode exEmptyRow (some exHeaderValue :: [exTinyValue, exStringValue].map some)
            [exTiny, exVarChar] none = some row ∧
        row.bytes = exHeaderValue.Raw ++ ([exTinyValue, exStringValue].map Value.Raw).flatten ∧
        BinaryRow.Decode Helpers.rejecting row = .ok dest ∧
        dest.map (Option.map Value.Val)
          = [exTinyValue, exStringValue].map (fun v => some v.Val) :=
  ⟨by decide,
    List.Forall₂.cons
      (Encodes.signedInt 1 5 rfl rfl (by decide) (by decide) rfl (by decide))
      (List.Forall₂.cons (Encodes.string [0x68, 0x69] rfl (by decide) rfl (by decide))
        List.Forall₂.nil),
    by decide, by decide,
    C4_round_trip_with_header Helpers.rejecting exEmptyRow [exTiny, exVarChar]
      [exTinyValue, exStringValue] none exHeaderValue (by decide)
      (List.Forall₂.cons
        (Encodes.signedInt 1 5 rfl rfl (by decide) (by decide) rfl (by decide))
        (List.Forall₂.cons (Encodes.string [0x68, 0x69] rfl (by decide) rfl (by decide))
          List.Forall₂.nil))⟩

/-- C5: a non-null column of type TINY, SHORT/YEAR or INT24/LONG (width w = 1,
2 or 4) that the decoder enters at offset p, with the w bytes present, decodes
to the integer x given little-endian by `Content[p..p+w)`: read as unsigned
(x is that value, in `0..2^(8w)-1`) when the UNSIGNED flag is set, and as
two's complement (x is congruent to it modulo `2^(8w)` and lies in
`-2^(8w-1)..2^(8w-1)-1`) otherwise; the next column is entered at `p+w`. -/
theorem C5_small_integers_little_endian (h : Helpers) (rows : Row) (i : Nat)
    (d : List (Option Value)) (p w : Nat) (f : Field)
    (hreach : BinaryRow.stateAt h rows i = .ok (d, (p : Int)))
    (hf : rows.ResultSet.Columns[i]? = some f)
    (hbit : specNullBit rows.bytes i = some false)
    (hw : intWidth f.fieldType = some w)
    (hlen : p + w ≤ rows.bytes.length) :
    ∃ (v : Value) (x : Int),
      BinaryRow.stateAt h rows (i + 1) = .ok (d ++ [some v], ((p + w : Nat) : Int)) ∧
      v.Val = .int64 x ∧ v.Typ = f.fieldType ∧ v.Flags = f.flags ∧ v.Len = w ∧
      (f.flags &&& mysql.UnsignedFlag ≠ 0 →
        x = ((leUint ((rows.bytes.drop p).take w) : Nat) : Int) ∧
          0 ≤ x ∧ x < (2 : Int) ^ (8 * w)) ∧
      (f.flags &&& mysql.UnsignedFlag = 0 →
        (x - ((leUint ((rows.bytes.drop p).take w) : Nat) : Int)) % (2 : Int) ^ (8 * w) = 0 ∧
          -((2 : Int) ^ (8 * w - 1)) ≤ x ∧ x < (2 : Int) ^ (8 * w - 1)) := by
  have hi : i < rows.ResultSet.Columns.length := getElem?_some_lt hf
  have hnb : nullBit (BinaryRow.nullMask rows) i = some false := by
    rw [BinaryRow.nullBit_nullMask rows i hi, hbit]
  have hcol := BinaryRow.decodeColumn_int (h := h) hnb hw hlen
  have hu := leUint_take_lt (rows.bytes.drop p) w
  refine ⟨_, _, BinaryRow.stateAt_succ hreach hf hcol, rfl, rfl, rfl, rfl, ?_, ?_⟩
  · intro hflag
    rw [if_pos hflag]
    refine ⟨rfl, by positivity, ?_⟩
    exact_mod_cast hu
  · intro hflag
    rw [if_neg (by simp [hflag])]
    exact toSigned_spec (8 * w) _ (by have := intWidth_pos hw; omega) hu

theorem C5_small_integers_little_endian_witness :
    BinaryRow.stateAt Helpers.rejecting exRowShort 1
        = .ok ([some { Typ := .Short, Flags := 0, Len := 2, Val := .int64 (-2), Raw := [0xfe] }],
            ((4 : Nat) : Int)) ∧
      exRowShort.ResultSet.Columns[1]? = some exShortUnsigned ∧
      specNullBit exRowShort.bytes 1 = some false ∧
      intWidth exShortUnsigned.fieldType = some 2 ∧
      4 + 2 ≤ exRowShort.bytes.length ∧
      ∃ (v : Value) (x : Int),
        BinaryRow.stateAt Helpers.rejecting exRowShort (1 + 1)
          = .ok ([some { Typ := .Short, Flags := 0, Len := 2, Val := .int64 (-2), Raw := [0xfe] }]
              ++ [some v], ((4 + 2 : Nat) : Int)) ∧
        v.Val = .int64 x ∧ v.Typ = exShortUnsigned.fieldType ∧ v.Flags = exShortUnsigned.flags ∧
        v.Len = 2 ∧
        (exShortUnsigned.flags &&& mysql.UnsignedFlag ≠ 0 →
          x = ((leUint ((exRowShort.bytes.drop 4).take 2) : Nat) : Int) ∧
            0 ≤ x ∧ x < (2 : Int) ^ (8 * 2)) ∧
        (exShortUnsigned.flags &&& mysql.UnsignedFlag = 0 →
          (x - ((leUint ((exRowShort.bytes.drop 4).take 2) : Nat) : Int)) % (2 : Int) ^ (8 * 2) = 0 ∧
            -((2 : Int) ^ (8 * 2 - 1)) ≤ x ∧ x < (2 : Int) ^ (8 * 2 - 1)) :=
  ⟨by decide, by decide, by decide, by decide, by decide,
    C5_small_integers_little_endian Helpers.rejecting exRowShort 1 _ 4 2 exShortUnsigned
      (by decide) (by decide) (by decide) (by decide) (by decide)⟩

/-- C6: a non-null LONGLONG column that the decoder enters at offset p, with
its 8 bytes present, consumes 8 bytes; with u the unsigned little-endian value
of the bytes, `Val` is the two's-complement signed 64-bit integer of the bytes
when the UNSIGNED flag is clear, the integer u when the flag is set and
`u ≤ 2^63-1`, and the decimal string of u when the flag is set and
`u > 2^63-1`. -/
theorem C6_longlong_unsigned_above_int64_is_string (h : Helpers) (rows : Row) (i : Nat)
    (d : List (Option Value)) (p : Nat) (f : Field)
    (hreach : BinaryRow.stateAt h rows i = .ok (d, (p : Int)))
    (hf : rows.ResultSet.Columns[i]? = some f)
    (hbit : specNullBit rows.bytes i = some false)
    (hty : f.fieldType = .LongLong)
    (hlen : p + 8 ≤ rows.bytes.length) :
    ∃ v : Value,
      BinaryRow.stateAt h rows (i + 1) = .ok (d ++ [some v], ((p + 8 : Nat) : Int)) ∧
      v.Len = 8 ∧
      (f.flags &&& mysql.UnsignedFlag = 0 →
        ∃ x : Int, v.Val = .int64 x ∧
          (x - ((leUint ((rows.bytes.drop p).take 8) : Nat) : Int)) % (2 : Int) ^ 64 = 0 ∧
          -((2 : Int) ^ 63) ≤ x ∧ x < (2 : Int) ^ 63) ∧
      (f.flags &&& mysql.UnsignedFlag ≠ 0 → leUint ((rows.bytes.drop p).take 8) ≤ 2 ^ 63 - 1 →
        v.Val = .int64 ((leUint ((rows.bytes.drop p).take 8) : Nat) : Int)) ∧
      (f.flags &&& mysql.UnsignedFlag ≠ 0 → 2 ^ 63 - 1 < leUint ((rows.bytes.drop p).take 8) →
        v.Val = .str (Nat.toDigits 10 (leUint ((rows.bytes.drop p).take 8))).asString) := by
  have hi : i < rows.ResultSet.Columns.length := getElem?_some_lt hf
  have hnb : nullBit (BinaryRow.nullMask rows) i = some false := by
    rw [BinaryRow.nullBit_nullMask rows i hi, hbit]
  have hcol := BinaryRow.decodeColumn_longlong (h := h) hnb hty hlen
  have hu : leUint ((rows.bytes.drop p).take 8) < 2 ^ 64 :=
    leUint_take_lt (rows.bytes.drop p) 8
  refine ⟨_, BinaryRow.stateAt_succ hreach hf hcol, rfl, ?_, ?_, ?_⟩
  · intro hflag
    refine ⟨toSigned 64 (leUint ((rows.bytes.drop p).take 8)), ?_, ?_⟩
    · simp [hflag]
    · exact toSigned_spec 64 _ (by decide) hu
  · intro hflag hle
    have hnot : ¬ (f.flags &&& mysql.UnsignedFlag ≠ 0 ∧
        maxInt64 < leUint ((rows.bytes.drop p).take 8)) := by
      intro hc
      have := hc.2
      unfold maxInt64 at this
      omega
    simp only [if_neg hnot]
    rw [toSigned_of_lt_half 64 _ (by omega)]
  · intro hflag hgt
    have hyes : f.flags &&& mysql.UnsignedFlag ≠ 0 ∧
        maxInt64 < leUint ((rows.bytes.drop p).take 8) := ⟨hflag, hgt⟩
    simp only [if_pos hyes]
    rfl

theorem C6_longlong_unsigned_above_int64_is_string_witness :
    BinaryRow.stateAt Helpers.rejecting exRowLongLong 0 = .ok ([], ((2 : Nat) : Int)) ∧
      exRowLongLong.ResultSet.Columns[0]? = some exLongLongUnsigned ∧
      specNullBit exRowLongLong.bytes 0 = some false ∧
      exLongLongUnsigned.fieldType = .LongLong ∧
      2 + 8 ≤ exRowLongLong.bytes.length ∧
      BinaryRow.Decode Helpers.rejecting exRowLongLong
        = .ok [some { Typ := .LongLong, Flags := 32, Len := 8,
                      Val := .str "18446744073709551615",
                      Raw := [0xff, 0xff, 0xff, 0xff, 0xff, 0xff, 0xff, 0xff] }] ∧
      ∃ v : Value,
        BinaryRow.stateAt Helpers.rejecting exRowLongLong (0 + 1)
          = .ok ([] ++ [some v], ((2 + 8 : Nat) : Int)) ∧
        v.Len = 8 ∧
        (exLongLongUnsigned.flags &&& mysql.UnsignedFlag = 0 →
          ∃ x : Int, v.Val = .int64 x ∧
            (x - ((leUint ((exRowLongLong.bytes.drop 2).take 8) : Nat) : Int)) % (2 : Int) ^ 64 = 0 ∧
            -((2 : Int) ^ 63) ≤ x ∧ x < (2 : Int) ^ 63) ∧
        (exLongLongUnsigned.flags &&& mysql.UnsignedFlag ≠ 0 →
          leUint ((exRowLongLong.bytes.drop 2).take 8) ≤ 2 ^ 63 - 1 →
          v.Val = .int64 ((leUint ((exRowLongLong.bytes.drop 2).take 8) : Nat) : Int)) ∧
        (exLongLongUnsigned.flags &&& mysql.UnsignedFlag ≠ 0 →
          2 ^ 63 - 1 < leUint ((exRowLongLong.bytes.drop 2).take 8) →
          v.Val = .str (Nat.toDigits 10 (leUint ((exRowLongLong.bytes.drop 2).take 8))).asString) :=
  ⟨by decide, by decide, by decide, by decide, by decide, by decide,
    C6_longlong_unsigned_above_int64_is_string Helpers.rejecting exRowLongLong 0 [] 2
      exLongLongUnsigned (by decide) (by decide) (by decide) (by decide) (by decide)⟩

/-- C7 (counterexample): the content 01 41 with two VARCHAR columns and one
byte of spare capacity decodes without error; column 1 is read at offset 2,
where the content ends, so that there is no byte 0xFB at that offset, and its
`Val` is nil. Without spare capacity the same content panics. -/
theorem C7_counterexample :
    TextRow.DecodeCap Helpers.rejecting exTextRowEndsEarly [0x00]
        = some { err := none,
                 values := some [
                   some { Typ := .VarChar, Flags := 1, Len := 2, Val := .bytes [0x41],
                          Raw := [0x41] },
                   some { Typ := .VarChar, Flags := 1, Len := 1, Val := .nil, Raw := [] }] } ∧
      TextRow.stateAtCap Helpers.rejecting exTextRowEndsEarly [0x00] 1
        = .running [some { Typ := .VarChar, Flags := 1, Len := 2, Val := .bytes [0x41],
                           Raw := [0x41] }] 2 ∧
      exTextRowEndsEarly.bytes[2]? = none ∧
      exTextRowEndsEarly.bytes[2]? ≠ some 0xfb ∧
      TextRow.DecodeCap Helpers.rejecting exTextRowEndsEarly [] = none ∧
      TextRow.Decode Helpers.rejecting exTextRowEndsEarly = .panic := by
  decide

/-- C7 (amended): in a text row that decodes successfully, with any spare
capacity of its `Content`, column 0 is read at offset 0 and column i is read,
as a length-encoded string, at the offset p where the strings of columns
0..i-1 end; the next column is read at p plus the bytes of that string (its
length prefix of w bytes and its num payload bytes), which lie inside the
content unless the content ends at p, and then the content has spare
capacity. The decoded `Val` is nil exactly when
the byte at offset p is the sentinel 0xFB or the content ends at p; for a
non-null column whose type is not TIMESTAMP, DATETIME, DATE or NEWDATE `Val`
is the payload, the num bytes that follow the length prefix; `Raw` is the
payload, and `Typ` and `Flags` are those of the column descriptor. -/
theorem C7_text_row_amended (h : Helpers) (rows : Row) (spare : List Byte)
    (dest : List (Option Value)) (i : Nat) (f : Field)
    (hdec : TextRow.DecodeCap h rows spare = some { values := some dest, err := none })
    (hf : rows.ResultSet.Columns[i]? = some f) :
    TextRow.stateAtCap h rows spare 0 = .running [] 0 ∧
    ∃ (d : List (Option Value)) (p num w : Nat) (isNull : Bool) (v : Value),
      TextRow.stateAtCap h rows spare i = .running d (p : Int) ∧ d.length = i ∧
      readLengthEncodedInteger (rows.bytes.drop p) = some (num, isNull, w) ∧
      (p + w + num ≤ rows.bytes.length ∨
        (p = rows.bytes.length ∧ spare ≠ [] ∧ w = 1 ∧ num = 0)) ∧
      (p = rows.bytes.length → spare ≠ []) ∧
      TextRow.stateAtCap h rows spare (i + 1)
        = .running (d ++ [some v]) ((p + w + num : Nat) : Int) ∧
      dest[i]? = some (some v) ∧
      v.Typ = f.fieldType ∧ v.Flags = f.flags ∧
      v.Raw = (rows.bytes.drop (p + w)).take num ∧
      (v.Val = .nil ↔ (rows.bytes[p]? = some 0xfb ∨ p = rows.bytes.length)) ∧
      (rows.bytes[p]? ≠ some 0xfb → p ≠ rows.bytes.length →
        isTextTemporal f.fieldType = false →
        v.Val = .bytes ((rows.bytes.drop (p + w)).take num)) := by
  refine ⟨rfl, ?_⟩
  have hi : i < rows.ResultSet.Columns.length := getElem?_some_lt hf
  obtain ⟨q, hq⟩ := TextRow.DecodeCap_text_ok hdec
  obtain ⟨d, pos, v, pos1, hsi, hcol, hsi1, hdl, hv⟩ :=
    iterate_column_step (Nat.le_refl _) hq i hi
  have hfi : rows.ResultSet.Columns[i] = f := by
    rw [List.getElem?_eq_getElem hi] at hf
    exact Option.some.inj hf
  rw [hfi] at hcol
  obtain ⟨p, r, val, hp, hple, hr, herr, hp1, hval, hty, hfl, _, hraw, hn1, hn2, hn3⟩ :=
    TextRow.iteration_next hcol
  obtain ⟨num, w, hint, hw1, hn, hrv, hlen, hiff⟩ := readLengthEncodedStringCap_ok hr herr
  subst hp hp1 hval
  rw [List.length_drop] at hlen
  have hb0 : (rows.bytes.drop p)[0]? = rows.bytes[p]? := by
    rw [List.getElem?_drop]; rfl
  have hnil : rows.bytes.drop p = [] ↔ p = rows.bytes.length := by
    rw [List.drop_eq_nil_iff]
    omega
  rw [hb0, hnil] at hiff
  rw [hnil] at hlen
  have hpay : r.val = (rows.bytes.drop (p + w)).take num := by
    rw [hrv, List.drop_drop]
  have hpos : p + r.n = p + w + num := by rw [hn]; omega
  refine ⟨d, p, num, w, r.isNull, val, hsi, hdl, hint, ?_, ?_, ?_, hv, hty, hfl, ?_, ?_, ?_⟩
  · rcases hlen with hl | hl
    · exact Or.inl (by omega)
    · exact Or.inr hl
  · intro hpe
    rcases hlen with hl | hl
    · omega
    · exact hl.2.1
  · rw [← hpos]; exact hsi1
  · rw [hraw, hpay]
  · constructor
    · intro hvn
      cases hnull : r.isNull with
      | true => exact hiff.mp hnull
      | false => exact absurd hvn (hn3 hnull)
    · intro hfb
      exact hn1 (hiff.mpr hfb)
  · intro hnfb hnend htemp
    have hnull : r.isNull = false := by
      cases hnull : r.isNull with
      | true =>
        rcases hiff.mp hnull with h1 | h1
        · exact absurd h1 hnfb
        · exact absurd h1 hnend
      | false => rfl
    rw [hn2 hnull htemp, hpay]

theorem C7_text_row_amended_witness :
    TextRow.DecodeCap Helpers.rejecting exTextRow []
        = some { err := none,
                 values := some [
                   some { Typ := .VarChar, Flags := 1, Len := 3, Val := .bytes [0x68, 0x69],
                          Raw := [0x68, 0x69] },
                   some { Typ := .VarChar, Flags := 1, Len := 1, Val := .nil, Raw := [] },
                   some { Typ := .VarChar, Flags := 1, Len := 1, Val := .bytes [], Raw := [] }] } ∧
      exTextRow.ResultSet.Columns[1]? = some exVarChar ∧
      (TextRow.stateAtCap Helpers.rejecting exTextRow [] 0 = .running [] 0 ∧
      ∃ (d : List (Option Value)) (p num w : Nat) (isNull : Bool) (v : Value),
        TextRow.stateAtCap Helpers.rejecting exTextRow [] 1 = .running d (p : Int) ∧
        d.length = 1 ∧
        readLengthEncodedInteger (exTextRow.bytes.drop p) = some (num, isNull, w) ∧
        (p + w + num ≤ exTextRow.bytes.length ∨
          (p = exTextRow.bytes.length ∧ ([] : List Byte) ≠ [] ∧ w = 1 ∧ num = 0)) ∧
        (p = exTextRow.bytes.length → ([] : List Byte) ≠ []) ∧
        TextRow.stateAtCap Helpers.rejecting exTextRow [] (1 + 1)
          = .running (d ++ [some v]) ((p + w + num : Nat) : Int) ∧
        [some { Typ := .VarChar, Flags := 1, Len := 3, Val := .bytes [0x68, 0x69],
                Raw := [0x68, 0x69] },
         some { Typ := .VarChar, Flags := 1, Len := 1, Val := .nil, Raw := [] },
         some { Typ := FieldType.VarChar, Flags := 1, Len := 1, Val := GoVal.bytes [],
                Raw := [] }][1]? = some (some v) ∧
        v.Typ = exVarChar.fieldType ∧ v.Flags = exVarChar.flags ∧
        v.Raw = (exTextRow.bytes.drop (p + w)).take num ∧
        (v.Val = .nil ↔ (exTextRow.bytes[p]? = some 0xfb ∨ p = exTextRow.bytes.length)) ∧
        (exTextRow.bytes[p]? ≠ some 0xfb → p ≠ exTextRow.bytes.length →
          isTextTemporal exVarChar.fieldType = false →
          v.Val = .bytes ((exTextRow.bytes.drop (p + w)).take num))) ∧
      (TextRow.stateAtCap Helpers.rejecting exTextRowEndsEarly [0x00] 0 = .running [] 0 ∧
      ∃ (d : List (Option Value)) (p num w : Nat) (isNull : Bool) (v : Value),
        TextRow.stateAtCap Helpers.rejecting exTextRowEndsEarly [0x00] 1 = .running d (p : Int) ∧
        d.length = 1 ∧
        readLengthEncodedInteger (exTextRowEndsEarly.bytes.drop p) = some (num, isNull, w) ∧
        (p + w + num ≤ exTextRowEndsEarly.bytes.length ∨
          (p = exTextRowEndsEarly.bytes.length ∧ ([0x00] : List Byte) ≠ [] ∧ w = 1 ∧ num = 0)) ∧
        (p = exTextRowEndsEarly.bytes.length → ([0x00] : List Byte) ≠ []) ∧
        TextRow.stateAtCap Helpers.rejecting exTextRowEndsEarly [0x00] (1 + 1)
          = .running (d ++ [some v]) ((p + w + num : Nat) : Int) ∧
        [some { Typ := .VarChar, Flags := 1, Len := 2, Val := .bytes [0x41], Raw := [0x41] },
         some { Typ := FieldType.VarChar, Flags := 1, Len := 1, Val := GoVal.nil,
                Raw := [] }][1]? = some (some v) ∧
        v.Typ = exVarChar.fieldType ∧ v.Flags = exVarChar.flags ∧
        v.Raw = (exTextRowEndsEarly.bytes.drop (p + w)).take num ∧
        (v.Val = .nil ↔
          (exTextRowEndsEarly.bytes[p]? = some 0xfb ∨ p = exTextRowEndsEarly.bytes.length)) ∧
        (exTextRowEndsEarly.bytes[p]? ≠ some 0xfb → p ≠ exTextRowEndsEarly.bytes.length →
          isTextTemporal exVarChar.fieldType = false →
          v.Val = .bytes ((exTextRowEndsEarly.bytes.drop (p + w)).take num))) :=
  ⟨by decide, by decide,
    C7_text_row_amended Helpers.rejecting exTextRow [] _ 1 exVarChar (by decide) (by decide),
    C7_text_row_amended Helpers.rejecting exTextRowEndsEarly [0x00] _ 1 exVarChar (by decide)
      (by decide)⟩

/-- C8 (the code at the failing input): a VARCHAR column whose null bit is
clear is entered at offset 2, where the length-encoded string declares 5
payload bytes and 1 is present. The string reader reports `io.EOF` with
`n = 6`; the slice `rows.Content[pos : pos+n]` for `Raw` is then out of range,
so `BinaryRow.Decode` panics and the `return nil, err` is not reached.
`TextRow.Decode` returns `io.EOF` for the same string. -/
theorem C8_truncated_string_panics :
    specNullBit exRowTruncated.bytes 0 = some false ∧
      BinaryRow.stateAt Helpers.rejecting exRowTruncated 0 = .ok ([], 2) ∧
      readLengthEncodedInteger (exRowTruncated.bytes.drop 2) = some (5, false, 1) ∧
      readLengthEncodedString (exRowTruncated.bytes.drop 2)
        = some { val := [], isNull := false, n := 6, err := some .eof } ∧
      slice exRowTruncated.bytes 2 (2 + 6) = none ∧
      BinaryRow.Decode Helpers.rejecting exRowTruncated = .panic ∧
      TextRow.Decode Helpers.rejecting exTextRowTruncated = .error .eof := by
  decide

/-- C9: replacing, in any of the column descriptors of a binary row, a
`decimals` of 0x1F by 0x00 and leaving the content and everything else as it
is does not change the result of the call: the same values, the same error or
the same panic. In particular this holds for TIME, DATETIME and TIMESTAMP
columns. -/
theorem C9_decimals_1f_same_as_zero (h : Helpers) (rows : Row) (cols1 : List Field)
    (hrel : List.Forall₂ decimalsRelaxed rows.ResultSet.Columns cols1) :
    BinaryRow.Decode h { rows with ResultSet := { rows.ResultSet with Columns := cols1 } }
      = BinaryRow.Decode h rows := by
  have hlen : cols1.length = rows.ResultSet.Columns.length := hrel.length_eq.symm
  have hstate : ∀ k,
      BinaryRow.stateAt h { rows with ResultSet := { rows.ResultSet with Columns := cols1 } } k
        = BinaryRow.stateAt h rows k := by
    intro k
    unfold BinaryRow.stateAt
    have hbytes : ({ rows with ResultSet := { rows.ResultSet with Columns := cols1 } } : Row).bytes
        = rows.bytes := rfl
    simp only [hbytes, hlen]
    cases getByte rows.bytes 0 with
    | none => rfl
    | some b0 =>
      simp only
      split
      · rfl
      · cases slice rows.bytes 1
            ((1 + (rows.ResultSet.Columns.length + 7 + 2) >>> 3 : Nat) : Int) with
        | none => rfl
        | some nullMask =>
          simp only
          unfold BinaryRow.loop
          rw [hlen]
          apply decodeLoop_congr
          intro j
          rcases forall₂_getElem? hrel j with hnone | ⟨a, b, ha, hb, hab⟩
          · exact Or.inl hnone
          · refine Or.inr ⟨a, b, ha, hb, ?_⟩
            intro p
            rcases hab with hab | ⟨hd, hab⟩
            · rw [hab]
            · rw [hab]
              exact BinaryRow.decodeColumn_decimals h rows.bytes nullMask j a p hd
  unfold BinaryRow.Decode
  simp only [hstate, hlen]

theorem C9_decimals_1f_same_as_zero_witness :
    List.Forall₂ decimalsRelaxed exRowTime.ResultSet.Columns [{ exTime1f with decimals := 0x00 }] ∧
      BinaryRow.Decode Helpers.echo exRowTime
        = .ok [some { Typ := .Time, Flags := 0, Len := 1,
                      Val := .bytes [0x08, 0x00, 0x01, 0x00, 0x00, 0x00, 0x02, 0x03, 0x04],
                      Raw := [0x00] }] ∧
      BinaryRow.Decode Helpers.echo
          { exRowTime with
            ResultSet := { exRowTime.ResultSet with
                           Columns := [{ exTime1f with decimals := 0x00 }] } }
        = BinaryRow.Decode Helpers.echo exRowTime :=
  ⟨List.Forall₂.cons (Or.inr ⟨rfl, rfl⟩) List.Forall₂.nil, by decide,
    C9_decimals_1f_same_as_zero Helpers.echo exRowTime [{ exTime1f with decimals := 0x00 }]
      (List.Forall₂.cons (Or.inr ⟨rfl, rfl⟩) List.Forall₂.nil)⟩

/-- C10: for a binary row with a non-empty content, if the first byte is not
the 0x00 marker the call returns no values and the SQL error with code
CRMalformedPacket, whatever the column descriptors and the remaining bytes
are; if the first byte is 0x00 the call does not return an SQL error with code
CRMalformedPacket. -/
theorem C10_marker_check (h : Helpers) (rows : Row) (b0 : Byte)
    (hb : rows.bytes[0]? = some b0) :
    (b0 ≠ 0x00 → BinaryRow.Decode h rows
        = .error (.sqlError mysql.CRMalformedPacket mysql.SSUnknownSQLState)) ∧
      (b0 = 0x00 → ∀ st, BinaryRow.Decode h rows
        ≠ .error (.sqlError mysql.CRMalformedPacket st)) := by
  have hg : getByte rows.bytes 0 = some b0 := by
    rw [← hb]; exact getByte_natCast rows.bytes 0
  constructor
  · intro hne
    have hne2 : b0 ≠ mysql.OKPacket := hne
    unfold BinaryRow.Decode BinaryRow.stateAt
    rw [hg]
    simp only [hne2, ne_eq, not_false_eq_true, if_true]
  · intro heq st hdec
    subst heq
    unfold BinaryRow.Decode BinaryRow.stateAt at hdec
    rw [hg] at hdec
    have hm : ((0x00 : Byte) ≠ mysql.OKPacket) = False := by
      simp [mysql.OKPacket]
    simp only [hm, if_false] at hdec
    split at hdec
    · rename_i d q hst
      cases hdec
    · rename_i e hst
      simp only [Outcome.error.injEq] at hdec
      subst hdec
      split at hst
      · cases hst
      · rename_i nullMask hsl
        obtain ⟨i, f, p, _, hstep⟩ := decodeLoop_error hst
        rcases BinaryRow.decodeColumn_error hstep with h1 | h1 | h1 | ⟨msg, h1⟩ <;> cases h1
    · cases hdec

theorem C10_marker_check_witness :
    exRowBadMarker.bytes[0]? = some 0x01 ∧
      (((0x01 : Byte) ≠ 0x00 → BinaryRow.Decode Helpers.rejecting exRowBadMarker
          = .error (.sqlError mysql.CRMalformedPacket mysql.SSUnknownSQLState)) ∧
        ((0x01 : Byte) = 0x00 → ∀ st, BinaryRow.Decode Helpers.rejecting exRowBadMarker
          ≠ .error (.sqlError mysql.CRMalformedPacket st))) :=
  ⟨by decide, C10_marker_check Helpers.rejecting exRowBadMarker 0x01 (by decide)⟩

/-- C11: whenever `TextRow.Decode` or `BinaryRow.Decode` succeeds on a row, the
list of values it returns has as many entries as the result set of the row has
column descriptors, for every column count, zero included. -/
theorem C11_result_has_one_entry_per_column (h : Helpers) (rows : Row)
    (dest : List (Option Value))
    (hdec : TextRow.Decode h rows = .ok dest ∨ BinaryRow.Decode h rows = .ok dest) :
    dest.length = rows.ResultSet.Columns.length := by
  rcases hdec with ht | hb
  · obtain ⟨q, hq⟩ := TextRow.Decode_ok_state ht
    exact decodeLoop_length (Nat.le_refl _) hq
  · obtain ⟨q, hq⟩ := BinaryRow.Decode_ok hb
    obtain ⟨_, _, hl⟩ := BinaryRow.stateAt_ok hq
    exact decodeLoop_length (Nat.le_refl _) hl

theorem C11_result_has_one_entry_per_column_witness :
    (TextRow.Decode Helpers.rejecting exTextRow
        = .ok [some { Typ := .VarChar, Flags := 1, Len := 3, Val := .bytes [0x68, 0x69],
                      Raw := [0x68, 0x69] },
               some { Typ := .VarChar, Flags := 1, Len := 1, Val := .nil, Raw := [] },
               some { Typ := .VarChar, Flags := 1, Len := 1, Val := .bytes [], Raw := [] }] ∧
      [some ({ Typ := .VarChar, Flags := 1, Len := 3, Val := .bytes [0x68, 0x69],
               Raw := [0x68, 0x69] } : Value),
       some { Typ := .VarChar, Flags := 1, Len := 1, Val := .nil, Raw := [] },
       some { Typ := .VarChar, Flags := 1, Len := 1, Val := .bytes [], Raw := [] }].length
        = exTextRow.ResultSet.Columns.length) ∧
    (BinaryRow.Decode Helpers.rejecting exRowNullFirst
        = .ok [none, some { Typ := .Tiny, Flags := 0, Len := 1, Val := .int64 7, Raw := [0x07] }] ∧
      [none, some ({ Typ := .Tiny, Flags := 0, Len := 1, Val := .int64 7, Raw := [0x07] } : Value)].length
        = exRowNullFirst.ResultSet.Columns.length) ∧
    (BinaryRow.Decode Helpers.rejecting exRowNoColumns = .ok [] ∧
      ([] : List (Option Value)).length = exRowNoColumns.ResultSet.Columns.length) ∧
    (TextRow.Decode Helpers.rejecting exEmptyRow = .ok [] ∧
      ([] : List (Option Value)).length = exEmptyRow.ResultSet.Columns.length) :=
  ⟨⟨by decide, C11_result_has_one_entry_per_column Helpers.rejecting exTextRow _
      (Or.inl (by decide))⟩,
    ⟨by decide, C11_result_has_one_entry_per_column Helpers.rejecting exRowNullFirst _
      (Or.inr (by decide))⟩,
    ⟨by decide, C11_result_has_one_entry_per_column Helpers.rejecting exRowNoColumns _
      (Or.inr (by decide))⟩,
    ⟨by decide, C11_result_has_one_entry_per_column Helpers.rejecting exEmptyRow _
      (Or.inl (by decide))⟩⟩

/-- C12: for every context and connection, and after any number of earlier
calls of `ExecIn` from program start, `ExecIn` returns a nil error and a
non-nil result whose struct has `AffectedRows = 0` and `InsertId = 0`, issues
no call on the connection and leaves the package variables unchanged; `Type()`
is `PlanTypeExec`. -/
theorem C12_always_empty_returns_zero_result (a : AlwaysEmptyExecPlan) (ctx : Context)
    (conn : VConn) (earlier : List (Context × VConn)) :
    (a.ExecIn ctx conn (a.globalsAfter earlier PlanGlobals.init)).err = none ∧
      (∃ p, (a.ExecIn ctx conn (a.globalsAfter earlier PlanGlobals.init)).result = some p ∧
        p.load (a.ExecIn ctx conn (a.globalsAfter earlier PlanGlobals.init)).globals
          = { AffectedRows := 0, InsertId := 0 }) ∧
      (a.ExecIn ctx conn (a.globalsAfter earlier PlanGlobals.init)).conn.calls = conn.calls ∧
      (∀ g, (a.ExecIn ctx conn g).globals = g) ∧
      a.Type = PlanType.PlanTypeExec := by
  have hg : ∀ (cs : List (Context × VConn)) (g : PlanGlobals), a.globalsAfter cs g = g := by
    intro cs
    induction cs with
    | nil => intro g; rfl
    | cons c cs ih => intro g; simp only [AlwaysEmptyExecPlan.globalsAfter]; exact ih _
  rw [hg]
  exact ⟨rfl, ⟨.emptyResultAddr, rfl, rfl⟩, rfl, fun _ => rfl, rfl⟩

/-- C13: for a DSN `user:password@net/dbname` or `user:password@net(addr)/dbname`
(the user without `:`, the network and the address without `@`, the network
without `(`, the database name without `/` and `?`): when ParseDSN accepts it
the network is tcp or unix and User, Passwd and DBName are the three given
parts; with net tcp or unix it is accepted, and Addr is 127.0.0.1:3306 (tcp) or
/tmp/mysql.sock (unix) when the address is omitted, the address followed by
:3306 for a tcp address without a port, and the address itself otherwise. -/
theorem C13_dsn_parts_and_default_addresses (user passwd dbname : List Char)
    (hu : ':' ∉ user) (hd1 : '/' ∉ dbname) (hd2 : '?' ∉ dbname) :
    (∀ net cfg, '@' ∉ net → '(' ∉ net →
        ParseDSN (String.mk (user ++ ':' :: (passwd ++ '@' :: (net ++ '/' :: dbname)))) = .ok cfg →
        (net = "tcp".toList ∨ net = "unix".toList) ∧ cfg.User = String.mk user ∧
          cfg.Passwd = String.mk passwd ∧ cfg.DBName = String.mk dbname) ∧
      (∀ net addr cfg, '@' ∉ net → '(' ∉ net → '@' ∉ addr →
        ParseDSN (String.mk (user ++ ':' :: (passwd ++ '@' ::
          ((net ++ '(' :: (addr ++ [')'])) ++ '/' :: dbname)))) = .ok cfg →
        (net = "tcp".toList ∨ net = "unix".toList) ∧ cfg.User = String.mk user ∧
          cfg.Passwd = String.mk passwd ∧ cfg.DBName = String.mk dbname) ∧
      ParseDSN (String.mk (user ++ ':' :: (passwd ++ '@' :: ("tcp".toList ++ '/' :: dbname))))
        = .ok { User := String.mk user, Passwd := String.mk passwd, Net := "tcp",
                Addr := "127.0.0.1:3306", DBName := String.mk dbname, Params := [] } ∧
      ParseDSN (String.mk (user ++ ':' :: (passwd ++ '@' :: ("unix".toList ++ '/' :: dbname))))
        = .ok { User := String.mk user, Passwd := String.mk passwd, Net := "unix",
                Addr := "/tmp/mysql.sock", DBName := String.mk dbname, Params := [] } ∧
      (∀ addr, addr ≠ [] → '@' ∉ addr → ':' ∉ addr →
        ParseDSN (String.mk (user ++ ':' :: (passwd ++ '@' ::
          (("tcp".toList ++ '(' :: (addr ++ [')'])) ++ '/' :: dbname))))
          = .ok { User := String.mk user, Passwd := String.mk passwd, Net := "tcp",
                  Addr := String.mk (addr ++ ":3306".toList), DBName := String.mk dbname,
                  Params := [] }) ∧
      (∀ addr, '@' ∉ addr → ':' ∈ addr →
        ParseDSN (String.mk (user ++ ':' :: (passwd ++ '@' ::
          (("tcp".toList ++ '(' :: (addr ++ [')'])) ++ '/' :: dbname))))
          = .ok { User := String.mk user, Passwd := String.mk passwd, Net := "tcp",
                  Addr := String.mk addr, DBName := String.mk dbname, Params := [] }) ∧
      (∀ addr, addr ≠ [] → '@' ∉ addr →
        ParseDSN (String.mk (user ++ ':' :: (passwd ++ '@' ::
          (("unix".toList ++ '(' :: (addr ++ [')'])) ++ '/' :: dbname))))
          = .ok { User := String.mk user, Passwd := String.mk passwd, Net := "unix",
                  Addr := String.mk addr, DBName := String.mk dbname, Params := [] }) := by
  have hloc : ∀ net addr : List Char, '@' ∉ net → '@' ∉ addr →
      '@' ∉ net ++ '(' :: (addr ++ [')']) := by
    intro net addr h1 h2 hm
    rcases List.mem_append.1 hm with h | h
    · exact h1 h
    · rcases List.mem_cons.1 h with h | h
      · exact absurd h (by decide)
      · rcases List.mem_append.1 h with h | h
        · exact h2 h
        · exact absurd (List.mem_singleton.1 h) (by decide)
  have hfields : ∀ (netloc net : List Char) (addr : Option (List Char)) (cfg : Config),
      '@' ∉ netloc → parseNetloc netloc = some (net, addr) →
      parseDSNChars (user ++ ':' :: (passwd ++ '@' :: (netloc ++ '/' :: dbname))) = .ok cfg →
      (net = "tcp".toList ∨ net = "unix".toList) ∧ cfg.User = String.mk user ∧
        cfg.Passwd = String.mk passwd ∧ cfg.DBName = String.mk dbname := by
    intro netloc net addr cfg hn hp hok
    rw [parseDSNChars_parts user passwd netloc dbname hu hn hd1 hd2, hp] at hok
    simp only at hok
    have hnet : net = "tcp".toList ∨ net = "unix".toList := by
      by_cases h1 : net = "tcp".toList
      · exact Or.inl h1
      · by_cases h2 : net = "unix".toList
        · exact Or.inr h2
        · simp only [normalizeAddr, if_neg h1, if_neg h2] at hok
          cases hok
    cases hna : normalizeAddr net addr with
    | none => rw [hna] at hok; cases hok
    | some a =>
      rw [hna] at hok
      simp only [DSNResult.ok.injEq] at hok
      subst hok
      exact ⟨hnet, rfl, rfl, rfl⟩
  have htcp : '@' ∉ "tcp".toList := by decide
  have hunix : '@' ∉ "unix".toList := by decide
  have htcp2 : '(' ∉ "tcp".toList := by decide
  have hunix2 : '(' ∉ "unix".toList := by decide
  refine ⟨?_, ?_, ?_, ?_, ?_, ?_, ?_⟩
  · intro net cfg h1 h2 hok
    exact hfields net net none cfg h1 (parseNetloc_bare h2) hok
  · intro net addr cfg h1 h2 h3 hok
    exact hfields _ net _ cfg (hloc net addr h1 h3) (parseNetloc_addr addr h2) hok
  · rw [ParseDSN_mk, parseDSNChars_parts user passwd _ dbname hu htcp hd1 hd2, parseNetloc_bare htcp2]
    rfl
  · rw [ParseDSN_mk, parseDSNChars_parts user passwd _ dbname hu hunix hd1 hd2, parseNetloc_bare hunix2]
    rfl
  · intro addr ha h1 h2
    rw [ParseDSN_mk, parseDSNChars_parts user passwd _ dbname hu (hloc _ addr htcp h1) hd1 hd2,
      parseNetloc_addr addr htcp2]
    simp only [if_neg ha, normalizeAddr, if_true, if_neg h2]
    rfl
  · intro addr h1 h2
    have ha : addr ≠ [] := fun e => by rw [e] at h2; cases h2
    rw [ParseDSN_mk, parseDSNChars_parts user passwd _ dbname hu (hloc _ addr htcp h1) hd1 hd2,
      parseNetloc_addr addr htcp2]
    simp only [if_neg ha, normalizeAddr, if_true, if_pos h2]
    rfl
  · intro addr ha h1
    rw [ParseDSN_mk, parseDSNChars_parts user passwd _ dbname hu (hloc _ addr hunix h1) hd1 hd2,
      parseNetloc_addr addr hunix2]
    simp only [if_neg ha, normalizeAddr]
    rfl

theorem C13_dsn_parts_and_default_addresses_witness :
    ParseDSN "admin:123456@tcp/pass"
        = .ok { User := "admin", Passwd := "123456", Net := "tcp", Addr := "127.0.0.1:3306",
                DBName := "pass", Params := [] } ∧
      ParseDSN "admin:123456@unix/pass"
        = .ok { User := "admin", Passwd := "123456", Net := "unix", Addr := "/tmp/mysql.sock",
                DBName := "pass", Params := [] } ∧
      ParseDSN "admin:123456@tcp(127.0.0.1)/pass"
        = .ok { User := "admin", Passwd := "123456", Net := "tcp", Addr := "127.0.0.1:3306",
                DBName := "pass", Params := [] } ∧
      ParseDSN "admin:123456@tcp(127.0.0.1:3306)/pass"
        = .ok { User := "admin", Passwd := "123456", Net := "tcp", Addr := "127.0.0.1:3306",
                DBName := "pass", Params := [] } ∧
      ParseDSN "admin:123456@unix(/var/run/mysql.sock)/pass"
        = .ok { User := "admin", Passwd := "123456", Net := "unix",
                Addr := "/var/run/mysql.sock", DBName := "pass", Params := [] } ∧
      ParseDSN "admin:123456@tcp(127.0.0.1:3306)/pass?allowAllFiles=true&allowCleartextPasswords=true"
        = .ok { User := "admin", Passwd := "123456", Net := "tcp", Addr := "127.0.0.1:3306",
                DBName := "pass",
                Params := [("allowAllFiles", "true"), ("allowCleartextPasswords", "true")] } :=
  have h := C13_dsn_parts_and_default_addresses "admin".toList "123456".toList "pass".toList
    (by decide) (by decide) (by decide)
  ⟨h.2.2.1, h.2.2.2.1, h.2.2.2.2.1 "127.0.0.1".toList (by decide) (by decide) (by decide),
    h.2.2.2.2.2.1 "127.0.0.1:3306".toList (by decide) (by decide),
    h.2.2.2.2.2.2 "/var/run/mysql.sock".toList (by decide) (by decide), by decide⟩

/-- C14: ParseDSN returns an error for every DSN without `/`, and for every DSN
`…@a/…` whose part `a` between the last `@` and the last `/` is a bare address:
it has no `(` and is neither `tcp` nor `unix`. -/
theorem C14_dsn_without_slash_or_net_is_rejected :
    (∀ dsn : String, '/' ∉ dsn.toList → ParseDSN dsn = .error .missingSlash) ∧
      (∀ creds a right : List Char, '@' ∉ a → '(' ∉ a → a ≠ "tcp".toList →
        a ≠ "unix".toList → '/' ∉ right →
        ∃ e, ParseDSN (String.mk (creds ++ '@' :: (a ++ '/' :: right))) = .error e) := by
  refine ⟨?_, ?_⟩
  · intro dsn h
    simp only [ParseDSN, parseDSNChars, splitLast_none h]
  · intro creds a right h1 h2 h3 h4 h5
    have e1 : creds ++ '@' :: (a ++ '/' :: right) = (creds ++ '@' :: a) ++ '/' :: right := by
      simp only [List.append_assoc, List.cons_append]
    rw [ParseDSN_mk, e1]
    unfold parseDSNChars
    simp only [splitLast_append _ h5, splitLast_append _ h1]
    cases splitFirst ':' creds with
    | none => exact ⟨_, rfl⟩
    | some p =>
      obtain ⟨user, passwd⟩ := p
      simp only [parseNetloc_bare h2, normalizeAddr, if_neg h3, if_neg h4]
      exact ⟨_, rfl⟩

theorem C14_dsn_without_slash_or_net_is_rejected_witness :
    ParseDSN "admin:123456@tcp" = .error .missingSlash ∧
      ParseDSN "admin:123456@127.0.0.1:3306/pass" = .error (.unknownNet "127.0.0.1:3306") ∧
      ∃ e, ParseDSN "admin:123456@127.0.0.1:3306/pass" = .error e :=
  ⟨C14_dsn_without_slash_or_net_is_rejected.1 "admin:123456@tcp" (by decide), by decide,
    C14_dsn_without_slash_or_net_is_rejected.2 "admin:123456".toList "127.0.0.1:3306".toList
      "pass".toList (by decide) (by decide) (by decide) (by decide) (by decide)⟩

/-- C15: for every packet that starts with the ERR marker 0xFF followed by two
bytes b1, b2 and any further bytes, parseInitialHandshakePacket fails with the
immediate-server error whose code is b1 + 256 * b2 and whose message text is
the further bytes, and the error message reads
"immediate error from server errorCode=<code> errorMsg=<text>" (code 400 and
text "A" for 0xFF, 0x90, 0x01, 'A'); every packet that starts with 0xFF fails
with an immediate-server error and never with the protocol-version error,
while any other first byte different from 10 gives the protocol-version
error. -/
theorem C15_err_packet_takes_precedence (b1 b2 : Byte) (msg : List Byte) :
    parseInitialHandshakePacket (0xff :: b1 :: b2 :: msg)
        = .error (.immediateServerError (b1.val + 256 * b2.val) msg) ∧
      (HandshakeError.immediateServerError (b1.val + 256 * b2.val) msg).Message
        = some (asciiBytes "immediate error from server errorCode="
            ++ asciiBytes (toString (b1.val + 256 * b2.val)) ++ asciiBytes " errorMsg=" ++ msg) ∧
      (∃ e, parseInitialHandshakePacket [0xff, 0x90, 0x01, 65] = .error e ∧
        e = .immediateServerError 400 [65] ∧
        e.Message = some (asciiBytes "immediate error from server errorCode=400 errorMsg=A")) ∧
      (∀ data : List Byte, data[0]? = some 0xff →
        (∃ code text, parseInitialHandshakePacket data = .error (.immediateServerError code text)) ∧
          ∀ pver, parseInitialHandshakePacket data ≠ .error (.unsupportedProtocol pver)) ∧
      (∀ data : List Byte, ∀ b : Byte, data[0]? = some b → b ≠ 0xff → b ≠ 10 →
        parseInitialHandshakePacket data = .error (.unsupportedProtocol b)) := by
  refine ⟨?_, rfl, ⟨_, rfl, by decide, by decide⟩, ?_, ?_⟩
  · simp only [parseInitialHandshakePacket, readByte, List.getElem?_cons_zero, ErrPacket,
      if_true, readUint16, readBytes, List.length_cons, readEOFString, List.drop_succ_cons,
      List.drop_zero, List.take_succ_cons, List.take_zero, leUint]
    have hle : 1 + 2 ≤ msg.length + 1 + 1 + 1 := by omega
    simp only [if_pos hle]
    congr 2
  · intro data h0
    have hex : ∃ code text,
        parseInitialHandshakePacket data = .error (.immediateServerError code text) := by
      simp only [parseInitialHandshakePacket, readByte, h0, ErrPacket, if_true]
      cases readUint16 data 1 with
      | none => exact ⟨_, _, rfl⟩
      | some p => exact ⟨_, _, rfl⟩
    refine ⟨hex, ?_⟩
    intro pver hp
    obtain ⟨code, text, he⟩ := hex
    rw [he] at hp
    cases hp
  · intro data b h0 h1 h2
    have h1b : ¬ (b = ErrPacket) := h1
    have h2b : b ≠ ProtocolVersion := h2
    simp only [parseInitialHandshakePacket, readByte, h0, if_neg h1b, h2b, ne_eq,
      not_false_eq_true, if_true]

theorem C15_err_packet_takes_precedence_witness :
    parseInitialHandshakePacket [0xff, 0x90, 0x01, 65]
        = .error (.immediateServerError 400 [65]) ∧
      parseInitialHandshakePacket [0xff, 10, 1, 0, 0, 0, 0]
        = .error (.immediateServerError 266 [0, 0, 0, 0]) ∧
      ((∃ code text, parseInitialHandshakePacket [0xff]
          = .error (.immediateServerError code text)) ∧
        ∀ pver, parseInitialHandshakePacket [0xff] ≠ .error (.unsupportedProtocol pver)) ∧
      parseInitialHandshakePacket [9, 0x90, 0x01, 65] = .error (.unsupportedProtocol 9) :=
  ⟨(C15_err_packet_takes_precedence 0x90 0x01 [65]).1,
    (C15_err_packet_takes_precedence 10 1 [0, 0, 0, 0]).1,
    (C15_err_packet_takes_precedence 0 0 []).2.2.2.1 [0xff] (by decide),
    (C15_err_packet_takes_precedence 0 0 []).2.2.2.2 [9, 0x90, 0x01, 65] 9 (by decide)
      (by decide) (by decide)⟩

/-- C16: for every sharding algorithm and every list of N value rows, when
every backend reports as affected the number of rows it received, executing
the fan-out plan the optimizer builds returns an affected-row count of N, the
sum of the per-shard counts; every row of a per-shard INSERT belongs to that
shard. -/
theorem C16_fan_out_insert_affects_all_rows (alg : InsertRow → Nat)
    (backend : Nat → List InsertRow → Result) (rows : List InsertRow)
    (hback : ∀ s g, (backend s g).AffectedRows = g.length) :
    ((optimizeInsert alg rows).ExecIn backend).AffectedRows = rows.length ∧
      ((optimizeInsert alg rows).ExecIn backend).AffectedRows
        = ((optimizeInsert alg rows).perShard.map (fun sg => sg.2.length)).sum ∧
      (∀ sg, sg ∈ (optimizeInsert alg rows).perShard → ∀ x, x ∈ sg.2 → alg x = sg.1) := by
  have hsum : ((optimizeInsert alg rows).ExecIn backend).AffectedRows
      = ((optimizeInsert alg rows).perShard.map (fun sg => sg.2.length)).sum := by
    simp only [InsertFanOut.ExecIn, hback]
  refine ⟨?_, hsum, ?_⟩
  · rw [hsum]
    simp only [optimizeInsert, groupByShard_lengths, List.map_nil, List.sum_nil, Nat.zero_add]
  · exact groupByShard_shards alg rows [] (fun sg h => by cases h)

theorem C16_fan_out_insert_affects_all_rows_witness :
    (∀ s g, (exCountingBackend s g).AffectedRows = g.length) ∧
      (optimizeInsert (moduloShard 8) exInsertRows).perShard
        = [(0, [{ shardKey := 8, values := [.str "foo", .int64 18] },
                { shardKey := 16, values := [.str "qux", .int64 17] }]),
           (1, [{ shardKey := 9, values := [.str "bar", .int64 19] }])] ∧
      ((optimizeInsert (moduloShard 8) exInsertRows).ExecIn exCountingBackend).AffectedRows = 3 ∧
      (((optimizeInsert (moduloShard 8) exInsertRows).ExecIn exCountingBackend).AffectedRows
          = exInsertRows.length ∧
        ((optimizeInsert (moduloShard 8) exInsertRows).ExecIn exCountingBackend).AffectedRows
          = ((optimizeInsert (moduloShard 8) exInsertRows).perShard.map
              (fun sg => sg.2.length)).sum ∧
        (∀ sg, sg ∈ (optimizeInsert (moduloShard 8) exInsertRows).perShard →
          ∀ x, x ∈ sg.2 → moduloShard 8 x = sg.1)) :=
  ⟨fun _ _ => rfl, by decide, by decide,
    C16_fan_out_insert_affects_all_rows (moduloShard 8) exCountingBackend exInsertRows
      (fun _ _ => rfl)⟩

/-- C17: in a binary row with n columns that all have fixed-width types (TINY
1 byte, SHORT/YEAR 2, INT24/LONG 4, LONGLONG 8, FLOAT 4, DOUBLE 8),
`BinaryRow.Decode` enters column i at content offset
`1 + (n+9) div 8 + Σ width(j)`, the sum taken over the columns `j < i` whose
null bit is clear; and when the content starts with 0x00 and holds the bytes up
to the offset after the last column, every column is reached at that offset. -/
theorem C17_fixed_width_columns_are_consecutive (h : Helpers) (rows : Row)
    (hfix : ∀ f, f ∈ rows.ResultSet.Columns → (fixedWidth f.fieldType).isSome = true) :
    (∀ i, i ≤ rows.ResultSet.Columns.length → ∀ d p,
        BinaryRow.stateAt h rows i = .ok (d, p) → p = ((valueOffset rows i : Nat) : Int)) ∧
      (rows.bytes[0]? = some 0x00 →
        valueOffset rows rows.ResultSet.Columns.length ≤ rows.bytes.length →
        ∀ i, i ≤ rows.ResultSet.Columns.length →
          ∃ d, BinaryRow.stateAt h rows i = .ok (d, ((valueOffset rows i : Nat) : Int))) := by
  have hwidth : ∀ k (hk : k < rows.ResultSet.Columns.length),
      ∃ w, fixedWidth (rows.ResultSet.Columns[k]).fieldType = some w ∧
        ((rows.ResultSet.Columns[k]?).bind (fun f => fixedWidth f.fieldType)).getD 0 = w := by
    intro k hk
    have hmem : rows.ResultSet.Columns[k] ∈ rows.ResultSet.Columns := List.getElem_mem hk
    obtain ⟨w, hw⟩ := Option.isSome_iff_exists.mp (hfix _ hmem)
    refine ⟨w, hw, ?_⟩
    rw [List.getElem?_eq_getElem hk]
    simp [hw]
  have hcw : ∀ k (hk : k < rows.ResultSet.Columns.length),
      (specNullBit rows.bytes k = some true →
        consumedWidths rows.bytes rows.ResultSet.Columns (k + 1)
          = consumedWidths rows.bytes rows.ResultSet.Columns k) ∧
      (specNullBit rows.bytes k = some false → ∀ w,
        fixedWidth (rows.ResultSet.Columns[k]).fieldType = some w →
        consumedWidths rows.bytes rows.ResultSet.Columns (k + 1)
          = consumedWidths rows.bytes rows.ResultSet.Columns k + w) := by
    intro k hk
    constructor
    · intro hb
      simp [consumedWidths, hb]
    · intro hb w hw
      obtain ⟨w1, hw1, hget⟩ := hwidth k hk
      rw [hw] at hw1
      simp only [Option.some.injEq] at hw1
      subst hw1
      simp only [consumedWidths, hb, hget]
      simp
  constructor
  · intro i
    induction i with
    | zero =>
      intro _ d p hs
      obtain ⟨_, _, hl⟩ := BinaryRow.stateAt_ok hs
      unfold BinaryRow.loop at hl
      simp only [decodeLoop, Outcome.ok.injEq, Prod.mk.injEq] at hl
      have h3 : (rows.ResultSet.Columns.length + 7 + 2) >>> 3
          = (rows.ResultSet.Columns.length + 9) / 8 := by
        rw [Nat.shiftRight_eq_div_pow]
      rw [← hl.2, h3]
      rfl
    | succ i ih =>
      intro hi d p hs
      have hic : i < rows.ResultSet.Columns.length := hi
      obtain ⟨d0, p0, v, p1, hs0, hcol, hs1, _, _⟩ :=
        BinaryRow.column_step hi hs i (Nat.lt_succ_self i)
      rw [hs] at hs1
      simp only [Outcome.ok.injEq, Prod.mk.injEq] at hs1
      have hp0 := ih (Nat.le_of_lt hic) d0 p0 hs0
      have hnb := BinaryRow.nullBit_nullMask rows i hic
      rw [hs1.2]
      cases hbit : specNullBit rows.bytes i with
      | none =>
        rw [hbit] at hnb
        unfold BinaryRow.decodeColumn at hcol
        rw [hnb] at hcol
        cases hcol
      | some bit =>
        rw [hbit] at hnb
        cases bit with
        | true =>
          rw [BinaryRow.decodeColumn_null hnb] at hcol
          simp only [Outcome.ok.injEq, Prod.mk.injEq] at hcol
          rw [← hcol.2, hp0]
          unfold valueOffset
          rw [(hcw i hic).1 hbit]
        | false =>
          obtain ⟨w, hw, _⟩ := hwidth i hic
          have hp1 := BinaryRow.decodeColumn_fixed_pos hnb hw hcol
          rw [hp1, hp0]
          unfold valueOffset
          rw [(hcw i hic).2 hbit w hw]
          push_cast
          ring
  · intro h0 hlen i
    have hblen : 1 + (rows.ResultSet.Columns.length + 9) / 8 ≤ rows.bytes.length := by
      unfold valueOffset at hlen; omega
    induction i with
    | zero =>
      intro _
      refine ⟨[], ?_⟩
      rw [BinaryRow.stateAt_eq_loop h rows 0 h0 hblen]
      unfold BinaryRow.loop
      have h3 : (rows.ResultSet.Columns.length + 7 + 2) >>> 3
          = (rows.ResultSet.Columns.length + 9) / 8 := by
        rw [Nat.shiftRight_eq_div_pow]
      rw [h3]
      rfl
    | succ i ih =>
      intro hi
      have hic : i < rows.ResultSet.Columns.length := hi
      obtain ⟨d, hd⟩ := ih (Nat.le_of_lt hic)
      have hnb := BinaryRow.nullBit_nullMask rows i hic
      have hbyte : 1 + (i + 2) / 8 < rows.bytes.length := by omega
      have hsome : specNullBit rows.bytes i
          = some (decide ((rows.bytes[1 + (i + 2) / 8]).val / 2 ^ ((i + 2) % 8) % 2 = 1)) := by
        unfold specNullBit
        rw [List.getElem?_eq_getElem hbyte]
        rfl
      have hf : rows.ResultSet.Columns[i]? = some (rows.ResultSet.Columns[i]) :=
        List.getElem?_eq_getElem hic
      cases hbit : decide ((rows.bytes[1 + (i + 2) / 8]).val / 2 ^ ((i + 2) % 8) % 2 = 1) with
      | true =>
        rw [hbit] at hsome
        rw [hsome] at hnb
        have hcol : BinaryRow.decodeColumn h rows.bytes (BinaryRow.nullMask rows) i
            (rows.ResultSet.Columns[i]) ((valueOffset rows i : Nat) : Int)
            = .ok (none, ((valueOffset rows i : Nat) : Int)) :=
          BinaryRow.decodeColumn_null hnb
        refine ⟨d ++ [none], ?_⟩
        rw [BinaryRow.stateAt_succ hd hf hcol]
        unfold valueOffset
        rw [(hcw i hic).1 hsome]
      | false =>
        rw [hbit] at hsome
        rw [hsome] at hnb
        obtain ⟨w, hw, _⟩ := hwidth i hic
        have hstep := (hcw i hic).2 hsome w hw
        have hmono := consumedWidths_mono rows.bytes rows.ResultSet.Columns hi
        have hle : valueOffset rows i + w ≤ rows.bytes.length := by
          unfold valueOffset at hlen ⊢
          omega
        obtain ⟨v, hcol⟩ := BinaryRow.decodeColumn_fixed_ok (h := h) hnb hw hle
        refine ⟨d ++ [some v], ?_⟩
        rw [BinaryRow.stateAt_succ hd hf hcol]
        unfold valueOffset
        rw [hstep]
        congr 3
        omega

theorem C17_fixed_width_columns_are_consecutive_witness :
    (∀ f, f ∈ exRowFixed.ResultSet.Columns → (fixedWidth f.fieldType).isSome = true) ∧
      exRowFixed.bytes[0]? = some 0x00 ∧
      valueOffset exRowFixed exRowFixed.ResultSet.Columns.length ≤ exRowFixed.bytes.length ∧
      valueOffset exRowFixed 0 = 2 ∧ valueOffset exRowFixed 1 = 4 ∧
      valueOffset exRowFixed 2 = 4 ∧ valueOffset exRowFixed 3 = 12 ∧
      valueOffset exRowFixed 4 = 16 ∧
      BinaryRow.Decode Helpers.rejecting exRowFixed
        = .ok [some { Typ := .Short, Flags := 0, Len := 2, Val := .int64 513, Raw := [0x01] },
               none,
               some { Typ := .Double, Flags := 0, Len := 8, Val := .float64 1663540288323457296,
                      Raw := [0x10, 0x11, 0x12, 0x13, 0x14, 0x15, 0x16, 0x17] },
               some { Typ := .Long, Flags := 0, Len := 4, Val := .int64 589439264,
                      Raw := [0x20, 0x21, 0x22, 0x23] }] ∧
      ((∀ i, i ≤ exRowFixed.ResultSet.Columns.length → ∀ d p,
          BinaryRow.stateAt Helpers.rejecting exRowFixed i = .ok (d, p) →
            p = ((valueOffset exRowFixed i : Nat) : Int)) ∧
        (exRowFixed.bytes[0]? = some 0x00 →
          valueOffset exRowFixed exRowFixed.ResultSet.Columns.length ≤ exRowFixed.bytes.length →
          ∀ i, i ≤ exRowFixed.ResultSet.Columns.length →
            ∃ d, BinaryRow.stateAt Helpers.rejecting exRowFixed i
              = .ok (d, ((valueOffset exRowFixed i : Nat) : Int)))) :=
  ⟨by decide, by decide, by decide, by decide, by decide, by decide, by decide, by decide,
    by decide,
    C17_fixed_width_columns_are_consecutive Helpers.rejecting exRowFixed (by decide)⟩

/-- C18: for a binary row with n columns whose content starts with 0x00 and has
at least `1 + (n+9) div 8` bytes, the null-bitmap taken by `BinaryRow.Decode`
has `(n+7+2) div 8` bytes, every lookup index `(i+2) div 8` with `i < n` is
smaller than that length, so that no lookup panics; and if the null bits of all
n columns are set, the call succeeds with n nil entries and the position stays
at the end of the bitmap after every column. -/
theorem C18_bitmap_lookups_stay_in_range (h : Helpers) (rows : Row)
    (h0 : rows.bytes[0]? = some 0x00)
    (hlen : 1 + (rows.ResultSet.Columns.length + 9) / 8 ≤ rows.bytes.length) :
    (BinaryRow.nullMask rows).length = (rows.ResultSet.Columns.length + 7 + 2) / 8 ∧
      (∀ k, BinaryRow.stateAt h rows k
        = decodeLoop (BinaryRow.decodeColumn h rows.bytes (BinaryRow.nullMask rows))
            rows.ResultSet.Columns
            ((1 + (rows.ResultSet.Columns.length + 9) / 8 : Nat) : Int) k) ∧
      (∀ i, i < rows.ResultSet.Columns.length →
        (i + 2) / 8 < (BinaryRow.nullMask rows).length ∧
          ∃ bit, nullBit (BinaryRow.nullMask rows) i = some bit) ∧
      ((∀ i, i < rows.ResultSet.Columns.length → specNullBit rows.bytes i = some true) →
        BinaryRow.Decode h rows = .ok (List.replicate rows.ResultSet.Columns.length none) ∧
          ∀ k, k ≤ rows.ResultSet.Columns.length →
            BinaryRow.stateAt h rows k
              = .ok (List.replicate k none,
                  ((1 + (rows.ResultSet.Columns.length + 9) / 8 : Nat) : Int))) := by
  have h3 : (rows.ResultSet.Columns.length + 7 + 2) >>> 3
      = (rows.ResultSet.Columns.length + 9) / 8 := by
    rw [Nat.shiftRight_eq_div_pow]
  have hmlen : (BinaryRow.nullMask rows).length = (rows.ResultSet.Columns.length + 9) / 8 := by
    unfold BinaryRow.nullMask
    rw [List.length_drop, List.length_take]
    omega
  have hloop : ∀ k, BinaryRow.stateAt h rows k
      = decodeLoop (BinaryRow.decodeColumn h rows.bytes (BinaryRow.nullMask rows))
          rows.ResultSet.Columns
          ((1 + (rows.ResultSet.Columns.length + 9) / 8 : Nat) : Int) k := by
    intro k
    rw [BinaryRow.stateAt_eq_loop h rows k h0 hlen]
    unfold BinaryRow.loop
    rw [h3]
  refine ⟨by rw [hmlen], hloop, ?_, ?_⟩
  · intro i hi
    have hidx : (i + 2) / 8 < (BinaryRow.nullMask rows).length := by
      rw [hmlen]; omega
    refine ⟨hidx, ?_⟩
    rw [nullBit_eq, List.getElem?_eq_getElem hidx]
    exact ⟨_, rfl⟩
  · intro hall
    have hstates : ∀ k, k ≤ rows.ResultSet.Columns.length →
        BinaryRow.stateAt h rows k
          = .ok (List.replicate k none,
              ((1 + (rows.ResultSet.Columns.length + 9) / 8 : Nat) : Int)) := by
      intro k
      induction k with
      | zero => intro _; rw [hloop 0]; rfl
      | succ k ih =>
        intro hk
        have hkc : k < rows.ResultSet.Columns.length := hk
        have hnb : nullBit (BinaryRow.nullMask rows) k = some true := by
          rw [BinaryRow.nullBit_nullMask rows k hkc]; exact hall k hkc
        have hcol : BinaryRow.decodeColumn h rows.bytes (BinaryRow.nullMask rows) k
            (rows.ResultSet.Columns[k])
            ((1 + (rows.ResultSet.Columns.length + 9) / 8 : Nat) : Int)
            = .ok (none, ((1 + (rows.ResultSet.Columns.length + 9) / 8 : Nat) : Int)) :=
          BinaryRow.decodeColumn_null hnb
        have hstep := BinaryRow.stateAt_succ (ih (Nat.le_of_succ_le hk))
          (List.getElem?_eq_getElem hkc) hcol
        rw [hstep, List.replicate_succ']
    refine ⟨?_, hstates⟩
    unfold BinaryRow.Decode
    rw [hstates _ (Nat.le_refl _)]

theorem C18_bitmap_lookups_stay_in_range_witness :
    exRowAllNull.bytes[0]? = some 0x00 ∧
      1 + (exRowAllNull.ResultSet.Columns.length + 9) / 8 ≤ exRowAllNull.bytes.length ∧
      (∀ i, i < exRowAllNull.ResultSet.Columns.length →
        specNullBit exRowAllNull.bytes i = some true) ∧
      BinaryRow.Decode Helpers.rejecting exRowAllNull = .ok [none, none, none] ∧
      ((BinaryRow.nullMask exRowAllNull).length
          = (exRowAllNull.ResultSet.Columns.length + 7 + 2) / 8 ∧
        (∀ k, BinaryRow.stateAt Helpers.rejecting exRowAllNull k
          = decodeLoop
              (BinaryRow.decodeColumn Helpers.rejecting exRowAllNull.bytes
                (BinaryRow.nullMask exRowAllNull))
              exRowAllNull.ResultSet.Columns
              ((1 + (exRowAllNull.ResultSet.Columns.length + 9) / 8 : Nat) : Int) k) ∧
        (∀ i, i < exRowAllNull.ResultSet.Columns.length →
          (i + 2) / 8 < (BinaryRow.nullMask exRowAllNull).length ∧
            ∃ bit, nullBit (BinaryRow.nullMask exRowAllNull) i = some bit) ∧
        ((∀ i, i < exRowAllNull.ResultSet.Columns.length →
            specNullBit exRowAllNull.bytes i = some true) →
          BinaryRow.Decode Helpers.rejecting exRowAllNull
              = .ok (List.replicate exRowAllNull.ResultSet.Columns.length none) ∧
            ∀ k, k ≤ exRowAllNull.ResultSet.Columns.length →
              BinaryRow.stateAt Helpers.rejecting exRowAllNull k
                = .ok (List.replicate k none,
                    ((1 + (exRowAllNull.ResultSet.Columns.length + 9) / 8 : Nat) : Int)))) :=
  ⟨by decide, by decide, by decide, by decide,
    C18_bitmap_lookups_stay_in_range Helpers.rejecting exRowAllNull (by decide) (by decide)⟩

/-- C19 (the code at the failing input): a non-null SHORT column entered at
offset 2 consumes the two bytes FE FF (the next position is 4) and has
`Len = 2`, but its `Raw` is the single byte FE, because the decoder takes
`rows.Content[pos : pos+1]` for the two-byte types. -/
theorem C19_short_raw_is_one_byte :
    BinaryRow.stateAt Helpers.rejecting exRowShortOnly 0 = .ok ([], 2) ∧
      BinaryRow.stateAt Helpers.rejecting exRowShortOnly 1
        = .ok ([some { Typ := .Short, Flags := 0, Len := 2, Val := .int64 (-2), Raw := [0xfe] }],
            4) ∧
      BinaryRow.Decode Helpers.rejecting exRowShortOnly
        = .ok [some { Typ := .Short, Flags := 0, Len := 2, Val := .int64 (-2), Raw := [0xfe] }] ∧
      (exRowShortOnly.bytes.drop 2).take (4 - 2) = [0xfe, 0xff] ∧
      ([0xfe] : List Byte) ≠ (exRowShortOnly.bytes.drop 2).take (4 - 2) ∧
      ([0xfe] : List Byte).length ≠ 2 := by
  decide

/-- C20: on a row whose `Content` has any spare capacity, whenever
`TextRow.Decode` or `BinaryRow.Decode` returns, with the operands its `return`
statements have in `rows.go`, a non-nil error comes with a nil value list and
a nil error with a non-nil value list; and when the body of the loop reaches a
`return` statement at column k, after the columns before k were decoded, the
call returns the operands of that statement, of which the list is nil. -/
theorem C20_error_atomicity (h : Helpers) (rows : Row) (spare : List Byte) (r : DecodeReturn)
    (hret : TextRow.DecodeCap h rows spare = some r ∨ BinaryRow.DecodeCap h rows spare = some r) :
    ((r.err ≠ none → r.values = none) ∧ (r.err = none → r.values ≠ none)) ∧
      (∀ k d p f r1, rows.ResultSet.Columns[k]? = some f →
        TextRow.stateAtCap h rows spare k = .running d p →
        TextRow.iteration h rows.bytes spare f p = .ret r1 →
        TextRow.DecodeCap h rows spare = some r1 ∧ r1.values = none ∧ r1.err ≠ none) ∧
      (∀ k d p f r1 nullMask, rows.ResultSet.Columns[k]? = some f →
        rows.bytes[0]? = some mysql.OKPacket →
        sliceCap rows.bytes spare 1
          ((1 + (rows.ResultSet.Columns.length + 7 + 2) >>> 3 : Nat) : Int) = some nullMask →
        BinaryRow.stateAtCap h rows spare k = .running d p →
        BinaryRow.iteration h rows.bytes spare nullMask k f p = .ret r1 →
        BinaryRow.DecodeCap h rows spare = some r1 ∧ r1.values = none ∧ r1.err ≠ none) := by
  refine ⟨?_, ?_, ?_⟩
  · rcases hret with ht | hb
    · unfold TextRow.DecodeCap at ht
      cases hs : TextRow.stateAtCap h rows spare rows.ResultSet.Columns.length with
      | running dest pos =>
        rw [hs] at ht
        simp only [Option.some.injEq] at ht
        subst ht
        exact ⟨fun hne => absurd rfl hne, fun _ hv => by cases hv⟩
      | returned r1 =>
        rw [hs] at ht
        simp only [Option.some.injEq] at ht
        subst ht
        obtain ⟨hv, he⟩ := TextRow.stateAtCap_text_returned hs
        exact ⟨fun _ => hv, fun hn => absurd hn he⟩
      | panic => rw [hs] at ht; cases ht
    · unfold BinaryRow.DecodeCap at hb
      cases hs : BinaryRow.stateAtCap h rows spare rows.ResultSet.Columns.length with
      | running dest pos =>
        rw [hs] at hb
        simp only [Option.some.injEq] at hb
        subst hb
        exact ⟨fun hne => absurd rfl hne, fun _ hv => by cases hv⟩
      | returned r1 =>
        rw [hs] at hb
        simp only [Option.some.injEq] at hb
        subst hb
        obtain ⟨hv, he⟩ := BinaryRow.stateAtCap_returned hs
        exact ⟨fun _ => hv, fun hn => absurd hn he⟩
      | panic => rw [hs] at hb; cases hb
  · intro k d p f r1 hf hs hst
    have hk : k < rows.ResultSet.Columns.length := getElem?_some_lt hf
    have hl : TextRow.stateAtCap h rows spare rows.ResultSet.Columns.length = .returned r1 :=
      iterate_ret_of_step hs hf hst _ hk
    obtain ⟨hv, he⟩ := TextRow.iteration_text_ret hst
    refine ⟨?_, hv, he⟩
    unfold TextRow.DecodeCap
    rw [hl]
  · intro k d p f r1 nullMask hf h0 hmask hs hst
    have hk : k < rows.ResultSet.Columns.length := getElem?_some_lt hf
    have hg : getByte rows.bytes 0 = some mysql.OKPacket := h0
    have hstate : ∀ n, BinaryRow.stateAtCap h rows spare n
        = iterate (BinaryRow.iteration h rows.bytes spare nullMask) rows.ResultSet.Columns
            ((1 + (rows.ResultSet.Columns.length + 7 + 2) >>> 3 : Nat) : Int) n := by
      intro n
      unfold BinaryRow.stateAtCap
      simp only [hg, ne_eq, not_true_eq_false, if_false, hmask]
    rw [hstate] at hs
    have hl := iterate_ret_of_step hs hf hst _ hk
    obtain ⟨hv, he⟩ := BinaryRow.iteration_ret hst
    refine ⟨?_, hv, he⟩
    unfold BinaryRow.DecodeCap
    rw [hstate, hl]

theorem C20_error_atomicity_witness :
    BinaryRow.stateAtCap Helpers.rejecting exRowUnknownSecond [] 1
        = .running [some { Typ := .Tiny, Flags := 0, Len := 1, Val := .int64 7, Raw := [0x07] }] 3 ∧
      BinaryRow.DecodeCap Helpers.rejecting exRowUnknownSecond []
        = some { values := none, err := some (.unknownFieldType (.unknown 200)) } ∧
      TextRow.stateAtCap Helpers.rejecting exTextRowSecondTruncated [0x00, 0x00] 1
        = .running [some { Typ := .VarChar, Flags := 1, Len := 2, Val := .bytes [0x41],
                           Raw := [0x41] }] 2 ∧
      TextRow.DecodeCap Helpers.rejecting exTextRowSecondTruncated [0x00, 0x00]
        = some { values := none, err := some .eof } ∧
      TextRow.DecodeCap Helpers.rejecting exTextRow []
        = some { err := none,
                 values := some [
                   some { Typ := .VarChar, Flags := 1, Len := 3, Val := .bytes [0x68, 0x69],
                          Raw := [0x68, 0x69] },
                   some { Typ := .VarChar, Flags := 1, Len := 1, Val := .nil, Raw := [] },
                   some { Typ := .VarChar, Flags := 1, Len := 1, Val := .bytes [], Raw := [] }] } ∧
      ((some (GoError.unknownFieldType (.unknown 200)) ≠ none →
          (none : Option (List (Option Value))) = none) ∧
        (some (GoError.unknownFieldType (.unknown 200)) = none →
          (none : Option (List (Option Value))) ≠ none)) ∧
      ((some GoError.eof ≠ none → (none : Option (List (Option Value))) = none) ∧
        (some GoError.eof = none → (none : Option (List (Option Value))) ≠ none)) :=
  ⟨by decide, by decide, by decide, by decide, by decide,
    (C20_error_atomicity Helpers.rejecting exRowUnknownSecond []
      { values := none, err := some (.unknownFieldType (.unknown 200)) }
      (Or.inr (by decide))).1,
    (C20_error_atomicity Helpers.rejecting exTextRowSecondTruncated [0x00, 0x00]
      { values := none, err := some .eof } (Or.inl (by decide))).1⟩

/-- C21: in a binary row whose loop reaches column i (the columns before it
decoded without error) and whose column i has a type that is none of the types
the decoder handles, the null-bit test of column i yields a bit; if the bit is
clear, `BinaryRow.Decode` returns the error "unknown field type t"; if the bit
is set, the iteration stores nil, keeps the position and does so whatever the
descriptor of column i is, so column i raises no error and entry i of a
successful decode is nil. -/
theorem C21_unknown_field_type (h : Helpers) (rows : Row) (i c : Nat) (f : Field)
    (d : List (Option Value)) (p : Int)
    (hf : rows.ResultSet.Columns[i]? = some f) (ht : f.fieldType = .unknown c)
    (hreach : BinaryRow.stateAt h rows i = .ok (d, p)) :
    (∃ bit, nullBit (BinaryRow.nullMask rows) i = some bit) ∧
      (nullBit (BinaryRow.nullMask rows) i = some false →
        BinaryRow.decodeColumn h rows.bytes (BinaryRow.nullMask rows) i f p
            = .error (.unknownFieldType f.fieldType) ∧
          BinaryRow.Decode h rows = .error (.unknownFieldType f.fieldType)) ∧
      (nullBit (BinaryRow.nullMask rows) i = some true →
        (∀ g : Field, BinaryRow.decodeColumn h rows.bytes (BinaryRow.nullMask rows) i g p
            = .ok (none, p)) ∧
          BinaryRow.stateAt h rows (i + 1) = .ok (d ++ [none], p) ∧
          (∀ dest, BinaryRow.Decode h rows = .ok dest → dest[i]? = some none)) := by
  have hi : i < rows.ResultSet.Columns.length := getElem?_some_lt hf
  obtain ⟨h0, hlen, hloop⟩ := BinaryRow.stateAt_ok hreach
  have hmlen : (BinaryRow.nullMask rows).length = (rows.ResultSet.Columns.length + 9) / 8 := by
    unfold BinaryRow.nullMask
    rw [List.length_drop, List.length_take]
    omega
  refine ⟨?_, ?_, ?_⟩
  · have hidx : (i + 2) / 8 < (BinaryRow.nullMask rows).length := by
      rw [hmlen]; omega
    rw [nullBit_eq, List.getElem?_eq_getElem hidx]
    exact ⟨_, rfl⟩
  · intro hbit
    have hcol : BinaryRow.decodeColumn h rows.bytes (BinaryRow.nullMask rows) i f p
        = .error (.unknownFieldType f.fieldType) := by
      rw [ht]
      exact BinaryRow.decodeColumn_unknown hbit ht
    refine ⟨hcol, ?_⟩
    have hl : BinaryRow.stateAt h rows rows.ResultSet.Columns.length
        = .error (.unknownFieldType f.fieldType) := by
      rw [BinaryRow.stateAt_eq_loop h rows _ h0 hlen]
      exact decodeLoop_error_of_step hloop hf hcol _ hi
    unfold BinaryRow.Decode
    rw [hl]
  · intro hbit
    have hnext : BinaryRow.stateAt h rows (i + 1) = .ok (d ++ [none], p) :=
      BinaryRow.stateAt_succ hreach hf (BinaryRow.decodeColumn_null hbit)
    refine ⟨fun g => BinaryRow.decodeColumn_null hbit, hnext, ?_⟩
    intro dest hdec
    obtain ⟨q, hq⟩ := BinaryRow.Decode_ok hdec
    obtain ⟨d1, p1, v, p2, hs1, hc1, -, -, hv⟩ :=
      BinaryRow.column_step (Nat.le_refl _) hq i hi
    rw [hreach] at hs1
    simp only [Outcome.ok.injEq, Prod.mk.injEq] at hs1
    rw [← hs1.2, BinaryRow.decodeColumn_null hbit] at hc1
    simp only [Outcome.ok.injEq, Prod.mk.injEq] at hc1
    rw [hc1.1]
    exact hv

theorem C21_unknown_field_type_witness :
    BinaryRow.Decode Helpers.rejecting exRowUnknownSecond
        = .error (.unknownFieldType (.unknown 200)) ∧
      BinaryRow.Decode Helpers.rejecting exRowUnknownNull
        = .ok [some { Typ := .Tiny, Flags := 0, Len := 1, Val := .int64 7, Raw := [0x07] },
               none] ∧
      nullBit (BinaryRow.nullMask exRowUnknownSecond) 1 = some false ∧
      nullBit (BinaryRow.nullMask exRowUnknownNull) 1 = some true ∧
      ((∃ bit, nullBit (BinaryRow.nullMask exRowUnknownSecond) 1 = some bit) ∧
        (nullBit (BinaryRow.nullMask exRowUnknownSecond) 1 = some false →
          BinaryRow.decodeColumn Helpers.rejecting exRowUnknownSecond.bytes
              (BinaryRow.nullMask exRowUnknownSecond) 1
              { exTiny with fieldType := .unknown 200 } 3
              = .error (.unknownFieldType (.unknown 200)) ∧
            BinaryRow.Decode Helpers.rejecting exRowUnknownSecond
              = .error (.unknownFieldType (.unknown 200))) ∧
        (nullBit (BinaryRow.nullMask exRowUnknownSecond) 1 = some true →
          (∀ g : Field, BinaryRow.decodeColumn Helpers.rejecting exRowUnknownSecond.bytes
              (BinaryRow.nullMask exRowUnknownSecond) 1 g 3 = .ok (none, 3)) ∧
            BinaryRow.stateAt Helpers.rejecting exRowUnknownSecond (1 + 1)
              = .ok ([some { Typ := .Tiny, Flags := 0, Len := 1, Val := .int64 7,
                             Raw := [0x07] }] ++ [none], 3) ∧
            (∀ dest, BinaryRow.Decode Helpers.rejecting exRowUnknownSecond = .ok dest →
              dest[1]? = some none))) ∧
      ((∃ bit, nullBit (BinaryRow.nullMask exRowUnknownNull) 1 = some bit) ∧
        (nullBit (BinaryRow.nullMask exRowUnknownNull) 1 = some false →
          BinaryRow.decodeColumn Helpers.rejecting exRowUnknownNull.bytes
              (BinaryRow.nullMask exRowUnknownNull) 1
              { exTiny with fieldType := .unknown 200 } 3
              = .error (.unknownFieldType (.unknown 200)) ∧
            BinaryRow.Decode Helpers.rejecting exRowUnknownNull
              = .error (.unknownFieldType (.unknown 200))) ∧
        (nullBit (BinaryRow.nullMask exRowUnknownNull) 1 = some true →
          (∀ g : Field, BinaryRow.decodeColumn Helpers.rejecting exRowUnknownNull.bytes
              (BinaryRow.nullMask exRowUnknownNull) 1 g 3 = .ok (none, 3)) ∧
            BinaryRow.stateAt Helpers.rejecting exRowUnknownNull (1 + 1)
              = .ok ([some { Typ := .Tiny, Flags := 0, Len := 1, Val := .int64 7,
                             Raw := [0x07] }] ++ [none], 3) ∧
            (∀ dest, BinaryRow.Decode Helpers.rejecting exRowUnknownNull = .ok dest →
              dest[1]? = some none))) :=
  ⟨by decide, by decide, by decide, by decide,
    C21_unknown_field_type Helpers.rejecting exRowUnknownSecond 1 200
      { exTiny with fieldType := .unknown 200 }
      [some { Typ := .Tiny, Flags := 0, Len := 1, Val := .int64 7, Raw := [0x07] }] 3
      (by decide) rfl (by decide),
    C21_unknown_field_type Helpers.rejecting exRowUnknownNull 1 200
      { exTiny with fieldType := .unknown 200 }
      [some { Typ := .Tiny, Flags := 0, Len := 1, Val := .int64 7, Raw := [0x07] }] 3
      (by decide) rfl (by decide)⟩

/-- C22: for every row and every column name, `Row.Decode` returns a nil list
and a nil error and `Row.GetColumnValue` returns a nil value and a nil error.
This is so also for a row on which `BinaryRow.Decode` or `TextRow.Decode`
yields a value whose `Raw` is the name asked for: on `exRowTiny`, whose binary
decoding has an entry with `Raw = [0x07]`, and on `exTextRow`, the lookup of
every name gives nil. -/
theorem C22_get_column_value_returns_nil (row : Row) (column : List Byte) :
    Row.Decode row = { values := none, err := none } ∧
      Row.GetColumnValue row column = .ok .nil ∧
      (∃ v, BinaryRow.Decode Helpers.rejecting exRowTiny = .ok [some v] ∧ v.Raw = [0x07] ∧
        v.Val ≠ .nil ∧ Row.GetColumnValue exRowTiny v.Raw = .ok .nil) ∧
      (∀ name, Row.GetColumnValue exTextRow name = .ok .nil) :=
  ⟨rfl, rfl, ⟨{ Typ := .Tiny, Flags := 0, Len := 1, Val := .int64 7, Raw := [0x07] },
    by decide, rfl, by decide, rfl⟩, fun _ => rfl⟩

/-- C23: for every row whose `ResultSet` has nil `ColumnNames`, `Row.Columns`
returns one name per column descriptor, in order, `table.name` when the
content is non-nil and the table non-empty and `name` otherwise; it stores the
list in the `ResultSet`, leaves the row, the descriptors and every other
object unchanged, and a further call on any row that points to the same
`ResultSet`, whatever its content, returns the same list and changes
nothing. -/
theorem C23_columns_are_computed_once (heap : Heap) (row : HeapRow) (a : Nat) (rs : ResultSet)
    (hp : row.ResultSet = some a) (hrs : heap[a]? = some rs) (hnil : rs.ColumnNames = none) :
    ∃ r : MethodReturn (List String), HeapRow.Columns heap row = some r ∧
      r.result.length = rs.Columns.length ∧
      (∀ (i : Nat) (field : Field), rs.Columns[i]? = some field →
        r.result[i]? = some (specColumnName row.Content field)) ∧
      r.heap[a]? = some { Columns := rs.Columns, ColumnNames := some r.result } ∧
      r.row = row ∧
      r.heap.length = heap.length ∧
      (∀ b, b ≠ a → r.heap[b]? = heap[b]?) ∧
      (∀ row2 : HeapRow, row2.ResultSet = some a →
        ∃ r2 : MethodReturn (List String), HeapRow.Columns r.heap row2 = some r2 ∧ r2.result = r.result ∧
          r2.heap = r.heap ∧ r2.row = row2) := by
  have ha : a < heap.length := getElem?_some_lt hrs
  have hcol : HeapRow.Columns heap row
      = some { result := rs.Columns.map (specColumnName row.Content), row := row,
               heap := heap.set a { rs with
                 ColumnNames := some (rs.Columns.map (specColumnName row.Content)) } } := by
    simp only [HeapRow.Columns, hp, hrs, hnil, HeapRow.Columns_names]
  refine ⟨_, hcol, ?_, ?_, ?_, rfl, ?_, ?_, ?_⟩
  · simp only [List.length_map]
  · intro i field hf
    simp only [List.getElem?_map, hf, Option.map_some']
  · simp only [List.getElem?_set_self ha]
  · simp only [List.length_set]
  · intro b hb
    simp only [List.getElem?_set_ne (Ne.symm hb)]
  · intro row2 h2
    refine ⟨{ result := rs.Columns.map (specColumnName row.Content), row := row2,
              heap := heap.set a { rs with
                ColumnNames := some (rs.Columns.map (specColumnName row.Content)) } },
      ?_, rfl, rfl, rfl⟩
    simp only [HeapRow.Columns, h2, List.getElem?_set_self ha]

theorem C23_columns_are_computed_once_witness :
    (∃ r : MethodReturn (List String), HeapRow.Columns exHeap exHeapRow = some r ∧ r.result = ["t.a", "b"] ∧
      r.heap = [{ Columns := exNameColumns, ColumnNames := some ["t.a", "b"] }] ∧
      ∃ r2 : MethodReturn (List String), HeapRow.Columns r.heap exHeapRowNil = some r2 ∧ r2.result = ["t.a", "b"]) ∧
      (∃ r : MethodReturn (List String), HeapRow.Columns exHeap exHeapRowNil = some r ∧ r.result = ["a", "b"]) ∧
      (∃ r : MethodReturn (List String), HeapRow.Columns exHeap exHeapRow = some r ∧
        r.result.length = exNameColumns.length ∧
        (∀ (i : Nat) (field : Field), exNameColumns[i]? = some field →
          r.result[i]? = some (specColumnName exHeapRow.Content field)) ∧
        r.heap[0]? = some { Columns := exNameColumns, ColumnNames := some r.result } ∧
        r.row = exHeapRow ∧
        r.heap.length = exHeap.length ∧
        (∀ b, b ≠ 0 → r.heap[b]? = exHeap[b]?) ∧
        (∀ row2 : HeapRow, row2.ResultSet = some 0 →
          ∃ r2 : MethodReturn (List String), HeapRow.Columns r.heap row2 = some r2 ∧ r2.result = r.result ∧
            r2.heap = r.heap ∧ r2.row = row2)) :=
  ⟨⟨_, rfl, by decide, by decide, _, rfl, by decide⟩, ⟨_, rfl, by decide⟩,
    C23_columns_are_computed_once exHeap exHeapRow 0
      { Columns := exNameColumns, ColumnNames := none } rfl rfl rfl⟩

/-- C24: for every row and every list of non-nil values, `Row.Encode(values,
columns, names)` returns, and afterwards `Data()` holds the concatenation of
the values' `Raw` bytes in list order (its length is the sum of the `Raw`
lengths; it is empty, the nil slice, for the empty list), `Fields()` is
`columns`, `Columns()` is `names` when `names` is non-nil, the row points to a
new `ResultSet` object, and every object that existed before, the previous
`ResultSet` of the row among them, is unchanged. -/
theorem C24_encode_sets_content_and_result_set (heap : Heap) (row : HeapRow)
    (vals : List Value) (columns : List Field) (names : Option (List String)) :
    ∃ r : MethodReturn Unit,
      HeapRow.Encode heap row (vals.map some) columns names = some r ∧
      (HeapRow.Data r.row).getD [] = (vals.map (fun v => v.Raw)).flatten ∧
      ((HeapRow.Data r.row).getD []).length = (vals.map (fun v => v.Raw.length)).sum ∧
      (vals = [] → HeapRow.Data r.row = none) ∧
      HeapRow.Fields r.heap r.row = some columns ∧
      (∀ ns, names = some ns →
        HeapRow.Columns r.heap r.row = some { result := ns, row := r.row, heap := r.heap }) ∧
      r.row.ResultSet = some heap.length ∧
      (∀ a, a < heap.length → r.row.ResultSet ≠ some a) ∧
      (∀ a, a < heap.length → r.heap[a]? = heap[a]?) ∧
      (∀ a rs, row.ResultSet = some a → heap[a]? = some rs → r.heap[a]? = some rs) ∧
      HeapRow.view r.heap r.row
        = Row.Encode { Content := row.Content, ResultSet := { Columns := [], ColumnNames := none } }
            (vals.map some) columns names := by
  have hw := writeRaws_some vals
  refine ⟨{ result := (),
            row := { Content := if (vals.map (fun v => v.Raw)).flatten = [] then none
                                else some (vals.map (fun v => v.Raw)).flatten,
                     ResultSet := some heap.length },
            heap := heap ++ [{ Columns := columns, ColumnNames := names }] },
    by simp only [HeapRow.Encode, hw], ?_, ?_, ?_, ?_, ?_, rfl, ?_, ?_, ?_, ?_⟩
  · simp only [HeapRow.Data]
    split
    · next hnil => simp only [Option.getD_none, hnil]
    · simp only [Option.getD_some]
  · have hlen : ∀ l : List Value,
        ((l.map (fun v => v.Raw)).flatten).length = (l.map (fun v => v.Raw.length)).sum := by
      intro l
      induction l with
      | nil => rfl
      | cons v vs ih =>
        simp only [List.map_cons, List.flatten_cons, List.length_append, List.sum_cons, ih]
    simp only [HeapRow.Data]
    split
    · next hnil => simp only [Option.getD_none, List.length_nil, ← hlen, hnil]
    · simp only [Option.getD_some, hlen]
  · intro hv
    subst hv
    rfl
  · simp only [HeapRow.Fields, List.getElem?_concat_length]
  · intro ns hns
    subst hns
    simp only [HeapRow.Columns, List.getElem?_concat_length]
  · intro a ha hEq
    simp only [Option.some.injEq] at hEq
    omega
  · intro a ha
    simp only [List.getElem?_append_left ha]
  · intro a rs _ hrs
    have ha : a < heap.length := getElem?_some_lt hrs
    simp only [List.getElem?_append_left ha, hrs]
  · simp only [HeapRow.view, List.getElem?_concat_length, Row.Encode, hw]

theorem C24_encode_sets_content_and_result_set_witness :
    (∃ r : MethodReturn Unit,
      HeapRow.Encode exHeapNamed exHeapRow (exEncodeValues.map some) [exTiny] (some ["x"])
        = some r ∧
      HeapRow.Data r.row = some [0x05, 0x01, 0x02] ∧
      HeapRow.Fields r.heap r.row = some [exTiny] ∧
      r.row.ResultSet = some 1 ∧
      r.heap = [{ Columns := exNameColumns, ColumnNames := some ["t.a", "b"] },
                { Columns := [exTiny], ColumnNames := some ["x"] }] ∧
      ∃ r2 : MethodReturn (List String),
        HeapRow.Columns r.heap r.row = some r2 ∧ r2.result = ["x"]) ∧
      (∃ r : MethodReturn Unit,
        HeapRow.Encode exHeapNamed exHeapRow (([] : List Value).map some) [] none = some r ∧
        HeapRow.Data r.row = none) ∧
      (∀ a rs, exHeapRow.ResultSet = some a → exHeapNamed[a]? = some rs →
        ∃ r : MethodReturn Unit,
          HeapRow.Encode exHeapNamed exHeapRow (exEncodeValues.map some) [exTiny] (some ["x"])
            = some r ∧ r.heap[a]? = some rs) :=
  ⟨⟨_, rfl, by decide, by decide, by decide, by decide, _, rfl, by decide⟩,
    ⟨_, rfl, by decide⟩,
    fun a rs h1 h2 =>
      (C24_encode_sets_content_and_result_set exHeapNamed exHeapRow exEncodeValues [exTiny]
        (some ["x"])).elim
        (fun r hr => ⟨r, hr.1, hr.2.2.2.2.2.2.2.2.2.1 a rs h1 h2⟩)⟩

/-- C25 (counterexample): for the single entry `127.0.0.1:9223372036854775808`,
whose port is a decimal integer, the config has Port 9223372036854775807, which
is neither the decimal value of the port nor 0; for the port `-1` the Port is
18446744073709551615; and for the port `99999999999999999999x`, which is not a
decimal integer, the Port is 9223372036854775807 and not 0. -/
theorem C25_counterexample :
    (Endpoint.wellFormed
        { pre := [], ip := "127.0.0.1".toList, port := "9223372036854775808".toList,
          post := [] } ∧
      isDecimal "9223372036854775808".toList ∧
      decimalValue "9223372036854775808".toList = 9223372036854775808 ∧
      parseServerConfig (exOptions "127.0.0.1:9223372036854775808")
        = some [{ Scheme := "http", ContextPath := "/nacos", IpAddr := "127.0.0.1",
                  Port := 9223372036854775807 }]) ∧
      (Endpoint.wellFormed
          { pre := [], ip := "127.0.0.1".toList, port := "-1".toList, post := [] } ∧
        parseServerConfig (exOptions "127.0.0.1:-1")
          = some [{ Scheme := "http", ContextPath := "/nacos", IpAddr := "127.0.0.1",
                    Port := 18446744073709551615 }]) ∧
      (Endpoint.wellFormed
          { pre := [], ip := "127.0.0.1".toList, port := "99999999999999999999x".toList,
            post := [] } ∧
        ¬ isDecimal "99999999999999999999x".toList ∧
        parseServerConfig (exOptions "127.0.0.1:99999999999999999999x")
          = some [{ Scheme := "http", ContextPath := "/nacos", IpAddr := "127.0.0.1",
                    Port := 9223372036854775807 }]) := by
  refine ⟨⟨by decide, ⟨by decide, by decide⟩, by decide, by decide⟩,
    ⟨by decide, by decide⟩, ⟨by decide, ?_, by decide⟩⟩
  intro h
  exact absurd (h.2 'x' (by decide)) (by decide)

/-- C25 (amended): let the values under `scheme` and `contextPath`, when
present, be the strings `scheme` and `contextPath`, and "http" and "/nacos"
stand for them when absent. Without the key `endpoints` the result is the
empty list. When the value under `endpoints` is the comma-separated list of
k ≥ 1 entries ` ip:port `, the function returns k configs, the j-th with
the ip of entry j as IpAddr, with `scheme` and `contextPath`, and with Port the
decimal value of the port when the port is a non-empty string of decimal
digits that denotes a number below 2^63, and 0 when the port, after an
optional sign, is empty or has a character that is not a decimal digit after
digits that denote a number below 2^64. -/
theorem C25_parse_server_config_amended (options : String → Option GoVal)
    (scheme contextPath : String)
    (hs : (options "scheme" = none ∧ scheme = "http") ∨ options "scheme" = some (.str scheme))
    (hc : (options "contextPath" = none ∧ contextPath = "/nacos") ∨
      options "contextPath" = some (.str contextPath)) :
    (options "endpoints" = none → parseServerConfig options = some []) ∧
      (∀ entries : List Endpoint, entries ≠ [] → (∀ e ∈ entries, e.wellFormed) →
        options "endpoints"
          = some (.str (String.mk (commaSeparated (entries.map Endpoint.text)))) →
        ∃ cfgs : List ServerConfig, parseServerConfig options = some cfgs ∧
          cfgs.length = entries.length ∧
          ∀ (j : Nat) (e : Endpoint), entries[j]? = some e →
            ∃ cfg : ServerConfig, cfgs[j]? = some cfg ∧
              cfg.IpAddr = String.mk e.ip ∧ cfg.Scheme = scheme ∧
              cfg.ContextPath = contextPath ∧
              (isDecimal e.port → decimalValue e.port < 2 ^ 63 →
                cfg.Port = decimalValue e.port) ∧
              (notDecimalInteger e.port → cfg.Port = 0)) := by
  have hsch : (match options _scheme with
               | none => some "http"
               | some val => assertString val) = some scheme := by
    rcases hs with ⟨h1, h2⟩ | h1
    · simp only [_scheme, h1, h2]
    · simp only [_scheme, h1, assertString]
  have hctx : (match options _contextPath with
               | none => some "/nacos"
               | some val => assertString val) = some contextPath := by
    rcases hc with ⟨h1, h2⟩ | h1
    · simp only [_contextPath, h1, h2]
    · simp only [_contextPath, h1, assertString]
  refine ⟨?_, ?_⟩
  · intro hnone
    unfold parseServerConfig
    rw [hsch]
    dsimp only
    rw [hctx]
    simp only [_server, hnone]
  · intro entries hne hwf hep
    have hsplit : strings.Split (commaSeparated (entries.map Endpoint.text)) ','
        = entries.map Endpoint.text := by
      apply strings.Split_commaSeparated
      · intro hnil
        exact hne (List.map_eq_nil_iff.1 hnil)
      · intro t ht
        obtain ⟨e, he, rfl⟩ := List.mem_map.1 ht
        exact Endpoint.text_no_comma (hwf e he)
    have hres : parseServerConfig options
        = some (entries.map (fun e =>
            { Scheme := scheme, ContextPath := contextPath, IpAddr := String.mk e.ip,
              Port := Int.toNat ((strconv.ParseInt e.port).1 % 2 ^ 64) })) := by
      unfold parseServerConfig
      rw [hsch]
      dsimp only
      rw [hctx]
      simp only [_server, hep, assertString, String.toList, hsplit,
        parseServerConfig.loop_endpoints scheme contextPath entries hwf]
    refine ⟨_, hres, by simp only [List.length_map], ?_⟩
    intro j e hj
    refine ⟨{ Scheme := scheme, ContextPath := contextPath, IpAddr := String.mk e.ip,
              Port := Int.toNat ((strconv.ParseInt e.port).1 % 2 ^ 64) },
      by simp only [List.getElem?_map, hj, Option.map_some'], rfl, rfl, rfl, ?_, ?_⟩
    · intro hd hv
      show Int.toNat ((strconv.ParseInt e.port).1 % 2 ^ 64) = decimalValue e.port
      rw [strconv.ParseInt_decimal hd hv]
      have h64 : ((decimalValue e.port : Nat) : Int) % 2 ^ 64 = ((decimalValue e.port : Nat) : Int) :=
        Int.emod_eq_of_lt (by omega) (by omega)
      simp only [h64, Int.toNat_ofNat]
    · intro hn
      show Int.toNat ((strconv.ParseInt e.port).1 % 2 ^ 64) = 0
      rw [strconv.ParseInt_not_integer hn]
      rfl

theorem C25_parse_server_config_amended_witness :
    parseServerConfig exOptionsFull
        = some [{ Scheme := "https", ContextPath := "/n", IpAddr := "127.0.0.1", Port := 8848 },
                { Scheme := "https", ContextPath := "/n", IpAddr := "nacos.local", Port := 80 },
                { Scheme := "https", ContextPath := "/n", IpAddr := "10.0.0.1", Port := 0 }] ∧
      parseServerConfig (fun _ => none) = some [] ∧
      parseServerConfig (exOptions "") = none ∧
      parseServerConfig (exOptions "127.0.0.1") = none ∧
      isDecimal "8848".toList ∧ decimalValue "8848".toList = 8848 ∧
      notDecimalInteger "http".toList ∧
      (∃ cfgs : List ServerConfig, parseServerConfig exOptionsFull = some cfgs ∧
        cfgs.length = exEndpoints.length ∧
        ∀ (j : Nat) (e : Endpoint), exEndpoints[j]? = some e →
          ∃ cfg : ServerConfig, cfgs[j]? = some cfg ∧
            cfg.IpAddr = String.mk e.ip ∧ cfg.Scheme = "https" ∧
            cfg.ContextPath = "/n" ∧
            (isDecimal e.port → decimalValue e.port < 2 ^ 63 →
              cfg.Port = decimalValue e.port) ∧
            (notDecimalInteger e.port → cfg.Port = 0)) :=
  ⟨by decide, by decide, by decide, by decide, ⟨by decide, by decide⟩, by decide,
    Or.inr ⟨by decide, by decide⟩,
    (C25_parse_server_config_amended exOptionsFull "https" "/n" (Or.inr rfl) (Or.inr rfl)).2
      exEndpoints (by decide) (by decide) (by decide)⟩

end Arana
